import Mathlib

set_option maxHeartbeats 1000000

/-
Verification development for the kubernetes-aws-eks-auto-scaler script
(src/script.py).  The script is embedded shallowly: the Kubernetes /
AWS platform state and the two SSM parameter blobs become a `State`
record, every platform call becomes a pure function on `State` that
also appends an `Action` to a trace, and the one uncaught-exception
path (`key.split("/")` unpacking in scale_up) is modelled with
`Except`.  Python dicts (JSON objects) are insertion-ordered
association lists.
-/

namespace EksScaler

/-- A JSON object as stored in an AWS SSM parameter: an insertion-ordered
association list from string keys to values, mirroring a Python dict. -/
abbrev Obj (α : Type) := List (String × α)

/-- Python dict lookup `d[k]` (first matching key; a well-formed dict has
unique keys, so first = only). -/
def getKey {α : Type} : Obj α → String → Option α
  | [], _ => none
  | p :: ps, k => if p.1 = k then some p.2 else getKey ps k

/-- Python dict assignment `d[k] = v`: replace the value at an existing key in
place (keeping its position), else append the new pair at the end. -/
def setKey {α : Type} : Obj α → String → α → Obj α
  | [], k, v => [(k, v)]
  | p :: ps, k, v => if p.1 = k then (k, v) :: ps else p :: setKey ps k v

/-- Python `d.update(n)` (src/script.py line 69): fold dict assignment over
the entries of `n`, in order. -/
def dictUpdate {α : Type} (d : Obj α) (n : Obj α) : Obj α :=
  n.foldl (fun acc p => setKey acc p.1 p.2) d

/-- The keys of an object, in order. -/
def keys {α : Type} (d : Obj α) : List String := d.map Prod.fst

@[simp] theorem keys_nil {α : Type} : keys ([] : Obj α) = [] := rfl

@[simp] theorem keys_cons {α : Type} (p : String × α) (ps : Obj α) :
    keys (p :: ps) = p.1 :: keys ps := rfl

theorem mem_keys_cons {α : Type} (p : String × α) (ps : Obj α) (k : String) :
    k ∈ keys (p :: ps) ↔ k = p.1 ∨ k ∈ keys ps := by
  rw [keys_cons, List.mem_cons]

theorem getKey_setKey {α : Type} (d : Obj α) (k : String) (v : α) (k' : String) :
    getKey (setKey d k v) k' = if k' = k then some v else getKey d k' := by
  induction d with
  | nil =>
    by_cases h : k' = k
    · subst h; simp [setKey, getKey]
    · simp [setKey, getKey, h, Ne.symm h]
  | cons p ps ih =>
    by_cases hp : p.1 = k
    · by_cases h : k' = k
      · simp [setKey, getKey, hp, h]
      · have : ¬ p.1 = k' := by
          intro hc; exact h (by rw [← hc, hp])
        simp [setKey, getKey, hp, h, this, Ne.symm h]
    · by_cases hq : p.1 = k'
      · have : ¬ k' = k := by intro hc; exact hp (by rw [hq, hc])
        simp [setKey, getKey, hp, hq, this]
      · simp [setKey, getKey, hp, hq, ih]

theorem keys_setKey_of_mem {α : Type} (d : Obj α) (k : String) (v : α)
    (h : k ∈ keys d) : keys (setKey d k v) = keys d := by
  induction d with
  | nil => simp [keys] at h
  | cons p ps ih =>
    by_cases hp : p.1 = k
    · simp [setKey, hp]
    · have h' : k ∈ keys ps := by
        rcases (mem_keys_cons p ps k).mp h with h1 | h1
        · exact absurd h1.symm hp
        · exact h1
      simp [setKey, hp, ih h']

theorem keys_setKey_of_not_mem {α : Type} (d : Obj α) (k : String) (v : α)
    (h : k ∉ keys d) : keys (setKey d k v) = keys d ++ [k] := by
  induction d with
  | nil => simp [setKey, keys]
  | cons p ps ih =>
    have hp : ¬ p.1 = k := by
      intro hc; exact h ((mem_keys_cons p ps k).mpr (Or.inl hc.symm))
    have h' : k ∉ keys ps := by
      intro hc; exact h ((mem_keys_cons p ps k).mpr (Or.inr hc))
    simp [setKey, hp, ih h']

theorem mem_keys_setKey {α : Type} (d : Obj α) (k : String) (v : α) (k' : String) :
    k' ∈ keys (setKey d k v) ↔ k' ∈ keys d ∨ k' = k := by
  by_cases h : k ∈ keys d
  · rw [keys_setKey_of_mem d k v h]
    constructor
    · exact fun hm => Or.inl hm
    · rintro (hm | rfl) <;> [exact hm; exact h]
  · rw [keys_setKey_of_not_mem d k v h]
    simp

theorem nodup_keys_setKey {α : Type} (d : Obj α) (k : String) (v : α)
    (h : (keys d).Nodup) : (keys (setKey d k v)).Nodup := by
  by_cases hm : k ∈ keys d
  · rwa [keys_setKey_of_mem d k v hm]
  · rw [keys_setKey_of_not_mem d k v hm]
    simpa [List.nodup_append] using ⟨h, hm⟩

theorem setKey_ne_nil {α : Type} (d : Obj α) (k : String) (v : α) :
    setKey d k v ≠ [] := by
  cases d with
  | nil => simp [setKey]
  | cons p ps =>
    by_cases hp : p.1 = k <;> simp [setKey, hp]

theorem getKey_dictUpdate_of_not_mem {α : Type} (d : Obj α) (n : Obj α) (k : String)
    (h : k ∉ keys n) : getKey (dictUpdate d n) k = getKey d k := by
  induction n generalizing d with
  | nil => simp [dictUpdate]
  | cons p ps ih =>
    have hp : ¬ p.1 = k := by
      intro hc; exact h ((mem_keys_cons p ps k).mpr (Or.inl hc.symm))
    have h' : k ∉ keys ps := by
      intro hc; exact h ((mem_keys_cons p ps k).mpr (Or.inr hc))
    have hstep : dictUpdate d (p :: ps) = dictUpdate (setKey d p.1 p.2) ps := rfl
    rw [hstep, ih (setKey d p.1 p.2) h', getKey_setKey,
      if_neg (fun hc : k = p.1 => hp hc.symm)]

theorem getKey_dictUpdate {α : Type} (d : Obj α) (n : Obj α) (k : String)
    (hn : (keys n).Nodup) :
    getKey (dictUpdate d n) k = (getKey n k).orElse (fun _ => getKey d k) := by
  induction n generalizing d with
  | nil => simp [dictUpdate, getKey]
  | cons p ps ih =>
    have hstep : dictUpdate d (p :: ps) = dictUpdate (setKey d p.1 p.2) ps := rfl
    rw [keys_cons] at hn
    have hps : (keys ps).Nodup := (List.nodup_cons.mp hn).2
    have hpk : p.1 ∉ keys ps := (List.nodup_cons.mp hn).1
    by_cases hk : p.1 = k
    · subst hk
      rw [hstep, getKey_dictUpdate_of_not_mem _ _ _ hpk, getKey_setKey]
      simp [getKey]
    · rw [hstep, ih _ hps, getKey_setKey,
        if_neg (fun hc : k = p.1 => hk hc.symm)]
      simp [getKey, hk]

theorem mem_keys_dictUpdate {α : Type} (d : Obj α) (n : Obj α) (k : String)
    (h : k ∈ keys (dictUpdate d n)) : k ∈ keys d ∨ k ∈ keys n := by
  induction n generalizing d with
  | nil => exact Or.inl h
  | cons p ps ih =>
    have hstep : dictUpdate d (p :: ps) = dictUpdate (setKey d p.1 p.2) ps := rfl
    rw [hstep] at h
    rcases ih (setKey d p.1 p.2) h with h' | h'
    · rcases (mem_keys_setKey d p.1 p.2 k).mp h' with h'' | rfl
      · exact Or.inl h''
      · exact Or.inr ((mem_keys_cons p ps p.1).mpr (Or.inl rfl))
    · exact Or.inr ((mem_keys_cons p ps k).mpr (Or.inr h'))

theorem nodup_keys_dictUpdate {α : Type} (d : Obj α) (n : Obj α)
    (h : (keys d).Nodup) : (keys (dictUpdate d n)).Nodup := by
  induction n generalizing d with
  | nil => exact h
  | cons p ps ih =>
    exact ih (setKey d p.1 p.2) (nodup_keys_setKey d p.1 p.2 h)

theorem getKey_eq_some_of_mem {α : Type} (d : Obj α) (k : String) (v : α)
    (hnd : (keys d).Nodup) (h : (k, v) ∈ d) : getKey d k = some v := by
  induction d with
  | nil => simp at h
  | cons p ps ih =>
    rw [keys_cons] at hnd
    rcases List.mem_cons.mp h with h1 | h1
    · simp [getKey, ← h1]
    · have hk : k ∈ keys ps := List.mem_map.mpr ⟨(k, v), h1, rfl⟩
      have hp : ¬ p.1 = k := by
        intro hc
        exact (List.nodup_cons.mp hnd).1 (hc ▸ hk)
      have hps : (keys ps).Nodup := (List.nodup_cons.mp hnd).2
      simp [getKey, hp, ih hps h1]

theorem mem_of_getKey_eq_some {α : Type} (d : Obj α) (k : String) (v : α)
    (h : getKey d k = some v) : (k, v) ∈ d := by
  induction d with
  | nil => simp [getKey] at h
  | cons p ps ih =>
    by_cases hp : p.1 = k
    · simp [getKey, hp] at h
      refine List.mem_cons.mpr (Or.inl ?_)
      calc (k, v) = (p.1, p.2) := by rw [hp, h]
        _ = p := rfl
    · simp [getKey, hp] at h
      exact List.mem_cons.mpr (Or.inr (ih h))

theorem getKey_eq_none_of_not_mem_keys {α : Type} (d : Obj α) (k : String)
    (h : k ∉ keys d) : getKey d k = none := by
  induction d with
  | nil => rfl
  | cons p ps ih =>
    have hp : ¬ p.1 = k := by
      intro hc; exact h ((mem_keys_cons p ps k).mpr (Or.inl hc.symm))
    have h' : k ∉ keys ps := by
      intro hc; exact h ((mem_keys_cons p ps k).mpr (Or.inr hc))
    simp [getKey, hp, ih h']

theorem mem_keys_of_getKey_eq_some {α : Type} (d : Obj α) (k : String) (v : α)
    (h : getKey d k = some v) : k ∈ keys d :=
  List.mem_map.mpr ⟨(k, v), mem_of_getKey_eq_some d k v h, rfl⟩

/-! ### Splitting composite keys

`key.split("/")` in Python splits on every occurrence of the separator and
never returns an empty list.  We model it character by character. -/

/-- Python `str.split(sep)` at the character-list level (for a one-character
separator): split on every occurrence, keeping empty pieces. -/
def splitChar (sep : Char) : List Char → List (List Char)
  | [] => [[]]
  | c :: cs =>
    if c = sep then [] :: splitChar sep cs
    else
      match splitChar sep cs with
      | [] => [[c]]
      | t :: ts => (c :: t) :: ts

/-- Joining with a separator, the inverse of `splitChar`. -/
def joinSep (sep : Char) : List (List Char) → List Char
  | [] => []
  | [t] => t
  | t :: t' :: ts => t ++ sep :: joinSep sep (t' :: ts)

theorem splitChar_ne_nil (sep : Char) (l : List Char) : splitChar sep l ≠ [] := by
  cases l with
  | nil => simp [splitChar]
  | cons c cs =>
    by_cases h : c = sep
    · simp [splitChar, h]
    · simp only [splitChar, if_neg h]
      cases hs : splitChar sep cs <;> simp

theorem splitChar_of_not_mem (sep : Char) (l : List Char) (h : sep ∉ l) :
    splitChar sep l = [l] := by
  induction l with
  | nil => rfl
  | cons c cs ih =>
    have hc : ¬ c = sep := fun hc => h (by simp [hc])
    have h' : sep ∉ cs := fun hm => h (by simp [hm])
    simp [splitChar, hc, ih h']

theorem splitChar_append (sep : Char) (l₁ l₂ : List Char) (h : sep ∉ l₁) :
    splitChar sep (l₁ ++ sep :: l₂) = l₁ :: splitChar sep l₂ := by
  induction l₁ with
  | nil => simp [splitChar]
  | cons c cs ih =>
    have hc : ¬ c = sep := fun hc => h (by simp [hc])
    have h' : sep ∉ cs := fun hm => h (by simp [hm])
    have hind := ih h'
    simp only [List.cons_append, splitChar, if_neg hc, List.append_eq, hind]

theorem joinSep_splitChar (sep : Char) (l : List Char) :
    joinSep sep (splitChar sep l) = l := by
  induction l with
  | nil => rfl
  | cons c cs ih =>
    by_cases hc : c = sep
    · subst hc
      simp only [splitChar, if_pos rfl]
      rcases hs : splitChar c cs with _ | ⟨t, ts⟩
      · exact absurd hs (splitChar_ne_nil c cs)
      · rw [hs] at ih
        simp [joinSep, ih]
    · simp only [splitChar, if_neg hc]
      rcases hs : splitChar sep cs with _ | ⟨t, ts⟩
      · exact absurd hs (splitChar_ne_nil sep cs)
      · rw [hs] at ih
        cases ts with
        | nil => simpa [joinSep] using ih
        | cons t' ts' => simpa [joinSep] using ih

/-- `key.split("/")` (src/script.py line 170), as a list of strings. -/
def split (s : String) : List String :=
  (splitChar '/' s.data).map String.mk

/-- A string with no `/` character, as every Kubernetes namespace and
resource name is. -/
def noSlash (s : String) : Prop := '/' ∉ s.data

instance (s : String) : Decidable (noSlash s) := by
  unfold noSlash; infer_instance

/-- The composite storage key `kind/namespace/name` built by scale_down
(src/script.py lines 101 and 110). -/
def wkey (kind ns name : String) : String := kind ++ "/" ++ ns ++ "/" ++ name

theorem data_append (a b : String) : (a ++ b).data = a.data ++ b.data := rfl

theorem split_wkey (kind ns name : String) (hk : noSlash kind) (hns : noSlash ns)
    (hn : noSlash name) : split (wkey kind ns name) = [kind, ns, name] := by
  have hdata : (wkey kind ns name).data
      = kind.data ++ '/' :: (ns.data ++ '/' :: name.data) := by
    simp [wkey, data_append]
  have h1 : splitChar '/' (wkey kind ns name).data
      = kind.data :: splitChar '/' (ns.data ++ '/' :: name.data) := by
    rw [hdata]; exact splitChar_append '/' kind.data _ hk
  have h2 : splitChar '/' (ns.data ++ '/' :: name.data)
      = ns.data :: splitChar '/' name.data := splitChar_append '/' ns.data _ hns
  have h3 : splitChar '/' name.data = [name.data] := splitChar_of_not_mem '/' name.data hn
  simp [split, h1, h2, h3]

theorem split_three_data (k a b c : String) (h : split k = [a, b, c]) :
    k.data = a.data ++ '/' :: (b.data ++ '/' :: c.data) := by
  have hmap : (splitChar '/' k.data).map String.mk = [a, b, c] := h
  have hjoin := joinSep_splitChar '/' k.data
  rcases hsc : splitChar '/' k.data with _ | ⟨t, ts⟩
  · exact absurd hsc (splitChar_ne_nil '/' k.data)
  · rw [hsc] at hmap hjoin
    rcases ts with _ | ⟨t', ts'⟩
    · simp at hmap
    · rcases ts' with _ | ⟨t'', ts''⟩
      · simp at hmap
      · rcases ts'' with _ | _
        · simp at hmap
          rcases hmap with ⟨h1, h2, h3⟩
          rw [← hjoin]
          have e1 : a.data = t := by rw [← h1]
          have e2 : b.data = t' := by rw [← h2]
          have e3 : c.data = t'' := by rw [← h3]
          simp [joinSep, e1, e2, e3]
        · simp at hmap

theorem split_three_inj (k k' a b c : String) (h : split k = [a, b, c])
    (h' : split k' = [a, b, c]) : k = k' := by
  have h1 := split_three_data k a b c h
  have h2 := split_three_data k' a b c h'
  cases k with
  | mk d =>
    cases k' with
    | mk d' =>
      have : d = d' := by
        have e1 : d = a.data ++ '/' :: (b.data ++ '/' :: c.data) := h1
        have e2 : d' = a.data ++ '/' :: (b.data ++ '/' :: c.data) := h2
        rw [e1, e2]
      rw [this]

theorem split_wkey_eq (k kind ns name : String) (hk : noSlash kind)
    (hns : noSlash ns) (hn : noSlash name) (h : split k = [kind, ns, name]) :
    k = wkey kind ns name :=
  split_three_inj k (wkey kind ns name) kind ns name h
    (split_wkey kind ns name hk hns hn)

/-! ### Platform data model

The Kubernetes and AWS state the script touches, plus the two SSM
parameters.  `none` for a parameter models `ParameterNotFound`. -/

/-- A Deployment or StatefulSet: namespace, name, `spec.replicas`. -/
structure Workload where
  ns : String
  name : String
  replicas : Nat
deriving DecidableEq, Repr

/-- A CronJob: namespace, name, `spec.suspend`. -/
structure CronJob where
  ns : String
  name : String
  suspend : Bool
deriving DecidableEq, Repr

/-- An ASG capacity triple, as described and updated by the script. -/
structure AsgCapacity where
  MinSize : Nat
  DesiredCapacity : Nat
  MaxSize : Nat
deriving DecidableEq, Repr

/-- An AWS Auto Scaling Group. -/
structure Asg where
  name : String
  capacity : AsgCapacity
deriving DecidableEq, Repr

/-- An entry of the `--exclude-k8s-resources` JSON list. -/
structure ResourceRef where
  ns : String
  kind : String
  name : String
deriving DecidableEq, Repr

/-- The whole external state visible to the script: the live platform
objects and the two SSM parameters (`none` = parameter does not exist). -/
structure State where
  deployments : List Workload
  statefulsets : List Workload
  cronjobs : List CronJob
  asgs : List Asg
  k8sParam : Option (Obj Nat)
  asgParam : Option (Obj AsgCapacity)
deriving DecidableEq, Repr

/-- One mutating or reading platform call issued by the script, recorded in
order of issue. -/
inductive Action where
  | patchDeployment (ns name : String) (replicas : Nat)
  | patchStatefulSet (ns name : String) (replicas : Nat)
  | patchCronJob (ns name : String) (suspend : Bool)
  | readDeployment (ns name : String)
  | readStatefulSet (ns name : String)
  | updateAsg (name : String) (cap : AsgCapacity)
  | putK8sParam (value : Obj Nat)
  | putAsgParam (value : Obj AsgCapacity)
deriving DecidableEq, Repr

/-- State plus the trace of platform calls issued so far. -/
structure Sys where
  st : State
  tr : List Action
deriving DecidableEq, Repr

/-! ### Platform client primitives -/

/-- Find a workload by namespace and name in a list (the API server lookup
behind `read_namespaced_deployment` / `read_namespaced_stateful_set`). -/
def findWorkload (ns name : String) (ws : List Workload) : Option Workload :=
  ws.find? (fun w => decide (w.ns = ns ∧ w.name = name))

/-- Overwrite the replica count of the workload with the given identity. -/
def patchWorkloads (ns name : String) (replicas : Nat) (ws : List Workload) :
    List Workload :=
  ws.map (fun w => if w.ns = ns ∧ w.name = name then { w with replicas := replicas } else w)

/-- Overwrite the suspend flag of the cron job with the given identity. -/
def patchCrons (ns name : String) (b : Bool) (cs : List CronJob) : List CronJob :=
  cs.map (fun c => if c.ns = ns ∧ c.name = name then { c with suspend := b } else c)

/-- `k8s_client.read_namespaced_deployment(name, namespace)`; `none` models
the 404 ApiException for a missing object. -/
def read_namespaced_deployment (name ns : String) (st : State) : Option Workload :=
  findWorkload ns name st.deployments

/-- `k8s_client.read_namespaced_stateful_set(name, namespace)`. -/
def read_namespaced_stateful_set (name ns : String) (st : State) : Option Workload :=
  findWorkload ns name st.statefulsets

/-- `k8s_client.patch_namespaced_deployment(name, namespace, body)`: the only
field of the body the script changes is `spec.replicas`. -/
def patch_namespaced_deployment (name ns : String) (replicas : Nat) (s : Sys) : Sys :=
  { st := { s.st with deployments := patchWorkloads ns name replicas s.st.deployments },
    tr := s.tr ++ [Action.patchDeployment ns name replicas] }

/-- `k8s_client.patch_namespaced_stateful_set(name, namespace, body)`. -/
def patch_namespaced_stateful_set (name ns : String) (replicas : Nat) (s : Sys) : Sys :=
  { st := { s.st with statefulsets := patchWorkloads ns name replicas s.st.statefulsets },
    tr := s.tr ++ [Action.patchStatefulSet ns name replicas] }

/-- `batch_client.patch_namespaced_cron_job(name, namespace, body)`: the only
field the script changes is `spec.suspend`. -/
def patch_namespaced_cron_job (name ns : String) (b : Bool) (s : Sys) : Sys :=
  { st := { s.st with cronjobs := patchCrons ns name b s.st.cronjobs },
    tr := s.tr ++ [Action.patchCronJob ns name b] }

/-- `describe_auto_scaling_groups(AutoScalingGroupNames=[name])[...][0]`:
the first (in AWS, unique) group with the given name. -/
def describe_auto_scaling_group (name : String) (st : State) : Option Asg :=
  st.asgs.find? (fun a => decide (a.name = name))

/-- The state effect of a successful
`update_auto_scaling_group(AutoScalingGroupName=name, MinSize=..,
DesiredCapacity=.., MaxSize=..)` call: overwrite the capacity of the group
with that name. -/
def setAsgCapacity (name : String) (cap : AsgCapacity) (s : Sys) : Sys :=
  { st := { s.st with asgs := s.st.asgs.map (fun a => if a.name = name then { a with capacity := cap } else a) },
    tr := s.tr ++ [Action.updateAsg name cap] }

/-- `update_auto_scaling_group(AutoScalingGroupName=name, MinSize=..,
DesiredCapacity=.., MaxSize=..)`: the AWS call overwrites the capacity of
the named group; when no group with that name exists it raises a
`ClientError` (ValidationError), which no `except` clause of the script
catches. -/
def update_auto_scaling_group (name : String) (cap : AsgCapacity) (s : Sys) :
    Except String Sys :=
  match describe_auto_scaling_group name s.st with
  | none => Except.error ("ClientError ValidationError")
  | some _ => Except.ok (setAsgCapacity name cap s)

/-! ### Selector / filter (src/script.py lines 30 to 57) -/

/-- `filter_excluded_k8s_resources(kind, resources, exclude_list)`
(src/script.py lines 30 to 45).  A Python-falsy exclude list (`None` or
`[]`) returns the input unchanged; otherwise keep the resources whose
`(namespace, kind.lower(), name)` tuple is not in the exclude set.
`getNs` and `getName` stand for `res.metadata.namespace` and
`res.metadata.name` (the Python code is duck-typed over the resource
record). -/
def filter_excluded_k8s_resources {α : Type} (getNs getName : α → String)
    (kind : String) (resources : List α)
    (exclude_list : Option (List ResourceRef)) : List α :=
  match exclude_list with
  | none => resources
  | some [] => resources
  | some l =>
    resources.filter (fun res =>
      !((l.map (fun e => (e.ns, e.kind.toLower, e.name))).contains
        (getNs res, kind.toLower, getName res)))

/-- `filter_excluded_asgs(asg_list, exclude_list)` (src/script.py lines 47
to 57). -/
def filter_excluded_asgs (asg_list : List String)
    (exclude_list : Option (List String)) : List String :=
  match exclude_list with
  | none => asg_list
  | some [] => asg_list
  | some l => asg_list.filter (fun asg => !(l.contains asg))

/-! ### Parameter store adapter (src/script.py lines 59 to 71) -/

/-- `update_ssm_parameter(ssm_client, parameter_name, new_data)`: read the
current value (`ParameterNotFound` becomes the empty object), shallow-merge
`new_data` on top with `dict.update`, and the caller writes the result back.
This is the value written by `put_parameter`. -/
def update_ssm_parameter {α : Type} (existing : Option (Obj α)) (new_data : Obj α) :
    Obj α :=
  dictUpdate (existing.getD []) new_data

/-- Write of the k8s replica-counts parameter through
`update_ssm_parameter`. -/
def put_ssm_k8s (new_data : Obj Nat) (s : Sys) : Sys :=
  { st := { s.st with k8sParam := some (update_ssm_parameter s.st.k8sParam new_data) },
    tr := s.tr ++ [Action.putK8sParam (update_ssm_parameter s.st.k8sParam new_data)] }

/-- Write of the ASG-config parameter through `update_ssm_parameter`. -/
def put_ssm_asg (new_data : Obj AsgCapacity) (s : Sys) : Sys :=
  { st := { s.st with asgParam := some (update_ssm_parameter s.st.asgParam new_data) },
    tr := s.tr ++ [Action.putAsgParam (update_ssm_parameter s.st.asgParam new_data)] }

/-! ### scale_down (src/script.py lines 73 to 147)

Modelled at its fetch-all branch (lines 80 to 84): the working set is
everything currently visible on the platform, minus the exclusion lists.
The condition on the ASG capacities is the literal source condition
`MinSize > 0 or DesiredCapacity != 0 or MaxSize != 0` (line 138). -/

/-- The source condition deciding that an ASG is not already fully zero. -/
def asgNonzero (c : AsgCapacity) : Prop :=
  c.MinSize > 0 ∨ c.DesiredCapacity ≠ 0 ∨ c.MaxSize ≠ 0

instance (c : AsgCapacity) : Decidable (asgNonzero c) := by
  unfold asgNonzero; infer_instance

/-- Loop body for Deployments (src/script.py lines 98 to 105): if
`spec.replicas > 0`, record the count under `deployment/ns/name` and patch
replicas to 0; else do nothing. -/
def scale_down_dep_step (acc : Obj Nat × Sys) (d : Workload) : Obj Nat × Sys :=
  if 0 < d.replicas then
    (setKey acc.1 (wkey ("deployment") d.ns d.name) d.replicas,
     patch_namespaced_deployment d.name d.ns 0 acc.2)
  else acc

/-- Loop body for StatefulSets (src/script.py lines 107 to 114). -/
def scale_down_sts_step (acc : Obj Nat × Sys) (d : Workload) : Obj Nat × Sys :=
  if 0 < d.replicas then
    (setKey acc.1 (wkey ("statefulset") d.ns d.name) d.replicas,
     patch_namespaced_stateful_set d.name d.ns 0 acc.2)
  else acc

/-- Loop body for CronJobs (src/script.py lines 116 to 119): suspend
unconditionally. -/
def scale_down_cron_step (s : Sys) (c : CronJob) : Sys :=
  patch_namespaced_cron_job c.name c.ns true s

/-- Loop body for ASGs (src/script.py lines 136 to 143): describe the group;
if not already all-zero, record its capacity triple keyed by name and update
it to zero.  The update appears as its success effect `setAsgCapacity`:
describe has just returned the group from the same state, so
`update_auto_scaling_group` cannot raise in this branch
(`update_auto_scaling_group_ok`); describe itself yielding `none` is likewise
unreachable because the loop's names come from the live list. -/
def scale_down_asg_step (acc : Obj AsgCapacity × Sys) (asg_name : String) :
    Obj AsgCapacity × Sys :=
  match describe_auto_scaling_group asg_name acc.2.st with
  | none => acc
  | some asg =>
    if asgNonzero asg.capacity then
      (setKey acc.1 asg_name asg.capacity,
       setAsgCapacity asg_name ⟨0, 0, 0⟩ acc.2)
    else acc

/-- `scale_down(...)` (src/script.py lines 73 to 147), fetch-all branch:
list everything, apply the exclusion filters, zero the workloads while
capturing nonzero replica counts, suspend every CronJob, merge-persist the
nonempty accumulator, then the same for ASGs. -/
def scale_down (k8s_excl : Option (List ResourceRef))
    (asg_excl : Option (List String)) (s : Sys) : Sys :=
  let all_deployments := filter_excluded_k8s_resources Workload.ns Workload.name
    ("Deployment") s.st.deployments k8s_excl
  let all_statefulsets := filter_excluded_k8s_resources Workload.ns Workload.name
    ("StatefulSet") s.st.statefulsets k8s_excl
  let all_cronjobs := filter_excluded_k8s_resources CronJob.ns CronJob.name
    ("CronJob") s.st.cronjobs k8s_excl
  let p1 := all_deployments.foldl scale_down_dep_step ([], s)
  let p2 := all_statefulsets.foldl scale_down_sts_step p1
  let s2 := all_cronjobs.foldl scale_down_cron_step p2.2
  let s3 := if p2.1 ≠ [] then put_ssm_k8s p2.1 s2 else s2
  let asg_names := filter_excluded_asgs (s3.st.asgs.map Asg.name) asg_excl
  let p4 := asg_names.foldl scale_down_asg_step ([], s3)
  if p4.1 ≠ [] then put_ssm_asg p4.1 p4.2 else p4.2

/-! ### scale_up (src/script.py lines 149 to 189)

The `try`/`except` blocks catch only `ParameterNotFound`; the `ClientError`
raised by `update_auto_scaling_group` on a stored group name that no longer
exists, the `ValueError` raised by `kind, namespace, name = key.split("/")`
on a malformed key and the 404 `ApiException` from reading a deleted
workload are NOT caught and abort the run, which `Except.error` models (the
process then exits nonzero). -/

/-- The loop restoring stored ASG capacities (src/script.py lines 159 to
161), stopping at the first uncaught exception: a stored name that no
longer names a live group makes `update_auto_scaling_group` raise a
`ClientError`, which the surrounding `except ParameterNotFound` does not
catch, so the whole run aborts. -/
def restore_asgs : Sys → Obj AsgCapacity → Except String Sys
  | s, [] => Except.ok s
  | s, p :: ps =>
    match update_auto_scaling_group p.1 p.2 s with
    | Except.error e => Except.error e
    | Except.ok s' => restore_asgs s' ps

/-- Handle one entry of the stored k8s blob (src/script.py lines 169
to 179): unpack the key (ValueError when not exactly three parts), then
dispatch on the kind; kinds other than deployment and statefulset fall
through silently. -/
def restore_k8s_entry (s : Sys) (key : String) (replicas : Nat) :
    Except String Sys :=
  match split key with
  | [kind, ns, name] =>
    if kind = ("deployment") then
      match read_namespaced_deployment name ns s.st with
      | none => Except.error ("ApiException 404")
      | some _ =>
        Except.ok (patch_namespaced_deployment name ns replicas
          { s with tr := s.tr ++ [Action.readDeployment ns name] })
    else if kind = ("statefulset") then
      match read_namespaced_stateful_set name ns s.st with
      | none => Except.error ("ApiException 404")
      | some _ =>
        Except.ok (patch_namespaced_stateful_set name ns replicas
          { s with tr := s.tr ++ [Action.readStatefulSet ns name] })
    else Except.ok s
  | _ => Except.error ("ValueError")

/-- The loop over the stored k8s blob, stopping at the first uncaught
exception. -/
def restore_k8s : Sys → Obj Nat → Except String Sys
  | s, [] => Except.ok s
  | s, p :: ps =>
    match restore_k8s_entry s p.1 p.2 with
    | Except.error e => Except.error e
    | Except.ok s' => restore_k8s s' ps

/-- Resume one CronJob (src/script.py lines 186 to 189). -/
def scale_up_cron_step (s : Sys) (c : CronJob) : Sys :=
  patch_namespaced_cron_job c.name c.ns false s

/-- `scale_up()` (src/script.py lines 149 to 189): restore ASGs from the
stored blob (`ParameterNotFound` tolerated, but a stale group name aborts
with an uncaught `ClientError`), restore workloads from the stored blob
(`ParameterNotFound` tolerated, but `ValueError`/404 abort), then
unconditionally resume every CronJob on the platform.  `Except.ok`
corresponds to the process exiting zero. -/
def scale_up (s : Sys) : Except String Sys :=
  match (match s.st.asgParam with
    | none => Except.ok s
    | some data => restore_asgs s data) with
  | Except.error e => Except.error e
  | Except.ok s1 =>
    match (match s1.st.k8sParam with
      | none => Except.ok s1
      | some data => restore_k8s s1 data) with
    | Except.error e => Except.error e
    | Except.ok s2 => Except.ok (s2.st.cronjobs.foldl scale_up_cron_step s2)

/-! ### Generic list helpers -/

theorem find?_map_pred {α : Type} (f : α → α) (p : α → Bool) (l : List α)
    (h : ∀ a, p (f a) = p a) : (l.map f).find? p = (l.find? p).map f := by
  induction l with
  | nil => rfl
  | cons a l ih =>
    cases hp : p a with
    | true => simp [List.find?_cons, h a, hp]
    | false => simp [List.find?_cons, h a, hp, ih]

theorem find?_eq_some_self {α : Type} (p : α → Bool) (l : List α) (a : α)
    (ha : a ∈ l) (hpa : p a = true)
    (huniq : ∀ b ∈ l, p b = true → b = a) : l.find? p = some a := by
  induction l with
  | nil => simp at ha
  | cons c l ih =>
    cases hc : p c with
    | true =>
      have hca : c = a := huniq c (List.mem_cons_self c l) hc
      rw [List.find?_cons_of_pos _ hc, hca]
    | false =>
      have ha' : a ∈ l := by
        rcases List.mem_cons.mp ha with rfl | h'
        · rw [hpa] at hc; cases hc
        · exact h'
      rw [List.find?_cons_of_neg _ (by simp [hc])]
      exact ih ha' (fun b hb hpb => huniq b (List.mem_cons.mpr (Or.inr hb)) hpb)

/-! ### Effect of the patch primitives on lookups -/

theorem findWorkload_patchWorkloads (ns name ns' name' : String) (r : Nat)
    (ws : List Workload) :
    findWorkload ns' name' (patchWorkloads ns name r ws) =
      if ns' = ns ∧ name' = name then
        (findWorkload ns' name' ws).map (fun w => { w with replicas := r })
      else findWorkload ns' name' ws := by
  unfold findWorkload patchWorkloads
  rw [find?_map_pred]
  · by_cases hc : ns' = ns ∧ name' = name
    · rw [if_pos hc]
      cases hf : ws.find? (fun w => decide (w.ns = ns' ∧ w.name = name')) with
      | none => rfl
      | some w =>
        have hw : w.ns = ns' ∧ w.name = name' := by
          have := List.find?_some hf
          simpa using this
        show some (if w.ns = ns ∧ w.name = name then { w with replicas := r } else w) = _
        rw [if_pos (by exact ⟨hw.1.trans hc.1, hw.2.trans hc.2⟩)]
        rfl
    · rw [if_neg hc]
      cases hf : ws.find? (fun w => decide (w.ns = ns' ∧ w.name = name')) with
      | none => rfl
      | some w =>
        have hw : w.ns = ns' ∧ w.name = name' := by
          have := List.find?_some hf
          simpa using this
        show some (if w.ns = ns ∧ w.name = name then { w with replicas := r } else w) = _
        rw [if_neg (by rw [hw.1, hw.2]; exact hc)]
  · intro w
    by_cases hm : w.ns = ns ∧ w.name = name <;> simp [hm]

/-- Identity of each workload, for duplicate-freedom statements. -/
def wid (w : Workload) : String × String := (w.ns, w.name)

theorem findWorkload_eq_of_mem (ws : List Workload) (w : Workload)
    (hnd : (ws.map wid).Nodup) (hw : w ∈ ws) :
    findWorkload w.ns w.name ws = some w := by
  unfold findWorkload
  refine find?_eq_some_self _ ws w hw (by simp) ?_
  intro b hb hpb
  have hb' : b.ns = w.ns ∧ b.name = w.name := by simpa using hpb
  have : wid b = wid w := by simp [wid, hb'.1, hb'.2]
  by_contra hne
  have := List.inj_on_of_nodup_map hnd hb hw this
  exact hne this

/-- Identity of a cron job. -/
def cid (c : CronJob) : String × String := (c.ns, c.name)

/-! ### Closed forms for the scale_down loops -/

/-- Some selected workload with this identity has a positive replica count
(the ones that get captured and patched). -/
def matchedPos (sel : List Workload) (w : Workload) : Prop :=
  ∃ d ∈ sel, (d.ns = w.ns ∧ d.name = w.name) ∧ 0 < d.replicas

instance (sel : List Workload) (w : Workload) : Decidable (matchedPos sel w) := by
  unfold matchedPos; infer_instance

theorem matchedPos_cons (d : Workload) (sel : List Workload) (w : Workload) :
    matchedPos (d :: sel) w ↔
      ((d.ns = w.ns ∧ d.name = w.name) ∧ 0 < d.replicas) ∨ matchedPos sel w := by
  constructor
  · rintro ⟨e, he, hp⟩
    rcases List.mem_cons.mp he with rfl | he'
    · exact Or.inl hp
    · exact Or.inr ⟨e, he', hp⟩
  · rintro (hp | ⟨e, he, hp⟩)
    · exact ⟨d, List.mem_cons_self d sel, hp⟩
    · exact ⟨e, List.mem_cons.mpr (Or.inr he), hp⟩

/-- Effect of one scale_down pass on a workload list: zero exactly the
entries whose identity is selected with a positive count. -/
def zeroSel (sel : List Workload) (ws : List Workload) : List Workload :=
  ws.map (fun w => if matchedPos sel w then { w with replicas := 0 } else w)

theorem zeroSel_nil (ws : List Workload) : zeroSel [] ws = ws := by
  unfold zeroSel
  have : ∀ w ∈ ws, (if matchedPos [] w then { w with replicas := 0 } else w) = w := by
    intro w _
    rw [if_neg]
    rintro ⟨e, he, _⟩
    simp at he
  rw [List.map_congr_left this]
  simp

theorem zeroSel_cons_pos (d : Workload) (sel : List Workload) (ws : List Workload)
    (hd : 0 < d.replicas) :
    zeroSel sel (patchWorkloads d.ns d.name 0 ws) = zeroSel (d :: sel) ws := by
  unfold zeroSel patchWorkloads
  rw [List.map_map]
  refine List.map_congr_left ?_
  intro w _
  by_cases hm : w.ns = d.ns ∧ w.name = d.name
  · have h1 : matchedPos (d :: sel) w := ⟨d, List.mem_cons_self d sel, ⟨hm.1.symm, hm.2.symm⟩, hd⟩
    simp only [Function.comp_apply, if_pos hm, if_pos h1]
    by_cases h2 : matchedPos sel { w with replicas := 0 }
    · rw [if_pos h2]
    · rw [if_neg h2]
  · have he : ¬ (d.ns = w.ns ∧ d.name = w.name) := by
      intro hc; exact hm ⟨hc.1.symm, hc.2.symm⟩
    simp only [Function.comp_apply, if_neg hm]
    by_cases h2 : matchedPos sel w
    · rw [if_pos h2, if_pos ((matchedPos_cons d sel w).mpr (Or.inr h2))]
    · rw [if_neg h2, if_neg (fun hc => by
        rcases (matchedPos_cons d sel w).mp hc with h3 | h3
        · exact he h3.1
        · exact h2 h3)]

theorem zeroSel_cons_neg (d : Workload) (sel : List Workload) (ws : List Workload)
    (hd : ¬ 0 < d.replicas) : zeroSel sel ws = zeroSel (d :: sel) ws := by
  unfold zeroSel
  refine List.map_congr_left ?_
  intro w _
  by_cases h2 : matchedPos sel w
  · rw [if_pos h2, if_pos ((matchedPos_cons d sel w).mpr (Or.inr h2))]
  · rw [if_neg h2, if_neg (fun hc => by
      rcases (matchedPos_cons d sel w).mp hc with h3 | h3
      · exact hd h3.2
      · exact h2 h3)]

/-- The replica-count records accumulated by the Deployment loop. -/
def depCapture (l : List Workload) (data : Obj Nat) : Obj Nat :=
  l.foldl (fun d w =>
    if 0 < w.replicas then setKey d (wkey ("deployment") w.ns w.name) w.replicas else d) data

/-- The replica-count records accumulated by the StatefulSet loop. -/
def stsCapture (l : List Workload) (data : Obj Nat) : Obj Nat :=
  l.foldl (fun d w =>
    if 0 < w.replicas then setKey d (wkey ("statefulset") w.ns w.name) w.replicas else d) data

/-- Trace of patches issued by a workload-zeroing loop. -/
def zeroTrace (mk : String → String → Nat → Action) (l : List Workload) : List Action :=
  (l.filter (fun d => decide (0 < d.replicas))).map (fun d => mk d.ns d.name 0)

theorem dep_fold_eq (l : List Workload) (data : Obj Nat) (s : Sys) :
    l.foldl scale_down_dep_step (data, s) =
      (depCapture l data,
       { st := { s.st with deployments := zeroSel l s.st.deployments },
         tr := s.tr ++ zeroTrace Action.patchDeployment l }) := by
  induction l generalizing data s with
  | nil =>
    simp [depCapture, zeroTrace, zeroSel_nil]
  | cons d l ih =>
    by_cases hd : 0 < d.replicas
    · have hstep : scale_down_dep_step (data, s) d =
        (setKey data (wkey ("deployment") d.ns d.name) d.replicas,
         patch_namespaced_deployment d.name d.ns 0 s) := by
        simp [scale_down_dep_step, hd]
      rw [List.foldl_cons, hstep, ih]
      simp [patch_namespaced_deployment, depCapture, zeroTrace, List.filter_cons, hd,
        List.append_assoc, zeroSel_cons_pos d l s.st.deployments hd]
    · have hstep : scale_down_dep_step (data, s) d = (data, s) := by
        simp [scale_down_dep_step, hd]
      rw [List.foldl_cons, hstep, ih, zeroSel_cons_neg d l s.st.deployments hd]
      simp [depCapture, zeroTrace, List.filter_cons, hd]

theorem sts_fold_eq (l : List Workload) (data : Obj Nat) (s : Sys) :
    l.foldl scale_down_sts_step (data, s) =
      (stsCapture l data,
       { st := { s.st with statefulsets := zeroSel l s.st.statefulsets },
         tr := s.tr ++ zeroTrace Action.patchStatefulSet l }) := by
  induction l generalizing data s with
  | nil =>
    simp [stsCapture, zeroTrace, zeroSel_nil]
  | cons d l ih =>
    by_cases hd : 0 < d.replicas
    · have hstep : scale_down_sts_step (data, s) d =
        (setKey data (wkey ("statefulset") d.ns d.name) d.replicas,
         patch_namespaced_stateful_set d.name d.ns 0 s) := by
        simp [scale_down_sts_step, hd]
      rw [List.foldl_cons, hstep, ih]
      simp [patch_namespaced_stateful_set, stsCapture, zeroTrace, List.filter_cons, hd,
        List.append_assoc, zeroSel_cons_pos d l s.st.statefulsets hd]
    · have hstep : scale_down_sts_step (data, s) d = (data, s) := by
        simp [scale_down_sts_step, hd]
      rw [List.foldl_cons, hstep, ih, zeroSel_cons_neg d l s.st.statefulsets hd]
      simp [stsCapture, zeroTrace, List.filter_cons, hd]

/-! ### Closed form for the CronJob loops -/

/-- Some selected cron job has this identity. -/
def matchedCron (sel : List CronJob) (c : CronJob) : Prop :=
  ∃ e ∈ sel, e.ns = c.ns ∧ e.name = c.name

instance (sel : List CronJob) (c : CronJob) : Decidable (matchedCron sel c) := by
  unfold matchedCron; infer_instance

theorem matchedCron_cons (d : CronJob) (sel : List CronJob) (c : CronJob) :
    matchedCron (d :: sel) c ↔ (d.ns = c.ns ∧ d.name = c.name) ∨ matchedCron sel c := by
  constructor
  · rintro ⟨e, he, hp⟩
    rcases List.mem_cons.mp he with rfl | he'
    · exact Or.inl hp
    · exact Or.inr ⟨e, he', hp⟩
  · rintro (hp | ⟨e, he, hp⟩)
    · exact ⟨d, List.mem_cons_self d sel, hp⟩
    · exact ⟨e, List.mem_cons.mpr (Or.inr he), hp⟩

/-- Effect of a suspend/resume pass over a cron-job list. -/
def suspendSel (b : Bool) (sel : List CronJob) (cs : List CronJob) : List CronJob :=
  cs.map (fun c => if matchedCron sel c then { c with suspend := b } else c)

theorem suspendSel_nil (b : Bool) (cs : List CronJob) : suspendSel b [] cs = cs := by
  unfold suspendSel
  have : ∀ c ∈ cs, (if matchedCron [] c then { c with suspend := b } else c) = c := by
    intro c _
    rw [if_neg]
    rintro ⟨e, he, _⟩
    simp at he
  rw [List.map_congr_left this]
  simp

theorem suspendSel_cons (b : Bool) (d : CronJob) (sel : List CronJob)
    (cs : List CronJob) :
    suspendSel b sel (patchCrons d.ns d.name b cs) = suspendSel b (d :: sel) cs := by
  unfold suspendSel patchCrons
  rw [List.map_map]
  refine List.map_congr_left ?_
  intro c _
  by_cases hm : c.ns = d.ns ∧ c.name = d.name
  · have h1 : matchedCron (d :: sel) c :=
      ⟨d, List.mem_cons_self d sel, hm.1.symm, hm.2.symm⟩
    simp only [Function.comp_apply, if_pos hm, if_pos h1]
    by_cases h2 : matchedCron sel { c with suspend := b }
    · rw [if_pos h2]
    · rw [if_neg h2]
  · have he : ¬ (d.ns = c.ns ∧ d.name = c.name) := by
      intro hc; exact hm ⟨hc.1.symm, hc.2.symm⟩
    simp only [Function.comp_apply, if_neg hm]
    by_cases h2 : matchedCron sel c
    · rw [if_pos h2, if_pos ((matchedCron_cons d sel c).mpr (Or.inr h2))]
    · rw [if_neg h2, if_neg (fun hc => by
        rcases (matchedCron_cons d sel c).mp hc with h3 | h3
        · exact he h3
        · exact h2 h3)]

theorem cron_fold_eq (b : Bool) (l : List CronJob) (s : Sys) :
    l.foldl (fun s c => patch_namespaced_cron_job c.name c.ns b s) s =
      { st := { s.st with cronjobs := suspendSel b l s.st.cronjobs },
        tr := s.tr ++ l.map (fun c => Action.patchCronJob c.ns c.name b) } := by
  induction l generalizing s with
  | nil => simp [suspendSel_nil]
  | cons d l ih =>
    rw [List.foldl_cons, ih]
    simp [patch_namespaced_cron_job, suspendSel_cons b d l s.st.cronjobs,
      List.append_assoc]

theorem cron_fold_down (l : List CronJob) (s : Sys) :
    l.foldl scale_down_cron_step s =
      { st := { s.st with cronjobs := suspendSel true l s.st.cronjobs },
        tr := s.tr ++ l.map (fun c => Action.patchCronJob c.ns c.name true) } :=
  cron_fold_eq true l s

theorem cron_fold_up (l : List CronJob) (s : Sys) :
    l.foldl scale_up_cron_step s =
      { st := { s.st with cronjobs := suspendSel false l s.st.cronjobs },
        tr := s.tr ++ l.map (fun c => Action.patchCronJob c.ns c.name false) } :=
  cron_fold_eq false l s

/-! ### Closed form for the ASG loop -/

/-- Lookup of an ASG by name in a plain list
(`describe_auto_scaling_group` is this on `st.asgs`). -/
def findAsg (name : String) (asgs : List Asg) : Option Asg :=
  asgs.find? (fun a => decide (a.name = name))

theorem describe_eq_findAsg (name : String) (st : State) :
    describe_auto_scaling_group name st = findAsg name st.asgs := rfl

theorem update_auto_scaling_group_ok (name : String) (cap : AsgCapacity)
    (s : Sys) (a : Asg) (h : findAsg name s.st.asgs = some a) :
    update_auto_scaling_group name cap s
      = Except.ok (setAsgCapacity name cap s) := by
  unfold update_auto_scaling_group
  rw [describe_eq_findAsg, h]

theorem update_auto_scaling_group_err (name : String) (cap : AsgCapacity)
    (s : Sys) (h : findAsg name s.st.asgs = none) :
    update_auto_scaling_group name cap s
      = Except.error ("ClientError ValidationError") := by
  unfold update_auto_scaling_group
  rw [describe_eq_findAsg, h]

theorem findAsg_isSome_of_mem_names (n : String) (asgs : List Asg)
    (h : n ∈ asgs.map Asg.name) : (findAsg n asgs).isSome := by
  obtain ⟨a, ha, hn⟩ := List.mem_map.mp h
  unfold findAsg
  rw [List.find?_isSome]
  exact ⟨a, ha, by simp [hn]⟩

theorem findAsg_update (m n : String) (cap : AsgCapacity) (asgs : List Asg) :
    findAsg m (asgs.map (fun a => if a.name = n then { a with capacity := cap } else a)) =
      if m = n then (findAsg m asgs).map (fun a => { a with capacity := cap })
      else findAsg m asgs := by
  unfold findAsg
  rw [find?_map_pred]
  · by_cases hc : m = n
    · rw [if_pos hc]
      cases hf : asgs.find? (fun a => decide (a.name = m)) with
      | none => rfl
      | some a =>
        have ha : a.name = m := by
          have := List.find?_some hf
          simpa using this
        show some (if a.name = n then { a with capacity := cap } else a) = _
        rw [if_pos (ha.trans hc)]
        rfl
    · rw [if_neg hc]
      cases hf : asgs.find? (fun a => decide (a.name = m)) with
      | none => rfl
      | some a =>
        have ha : a.name = m := by
          have := List.find?_some hf
          simpa using this
        show some (if a.name = n then { a with capacity := cap } else a) = _
        rw [if_neg (fun hcc => hc (ha.symm.trans hcc))]
  · intro a
    by_cases hm : a.name = n <;> simp [hm]

theorem names_update (n : String) (cap : AsgCapacity) (asgs : List Asg) :
    (asgs.map (fun a => if a.name = n then { a with capacity := cap } else a)).map
      Asg.name = asgs.map Asg.name := by
  rw [List.map_map]
  refine List.map_congr_left ?_
  intro a _
  by_cases hm : a.name = n <;> simp [hm]

theorem findAsg_eq_of_mem (asgs : List Asg) (a : Asg)
    (hnd : (asgs.map Asg.name).Nodup) (ha : a ∈ asgs) :
    findAsg a.name asgs = some a := by
  unfold findAsg
  refine find?_eq_some_self _ asgs a ha (by simp) ?_
  intro b hb hpb
  have hb' : b.name = a.name := by simpa using hpb
  exact List.inj_on_of_nodup_map hnd hb ha hb'

theorem asgNonzero_zero : ¬ asgNonzero ⟨0, 0, 0⟩ := by decide

/-- The capacity records accumulated by the ASG loop, relative to a fixed
list of live groups. -/
def asgCapture (names : List String) (asgs : List Asg) (data : Obj AsgCapacity) :
    Obj AsgCapacity :=
  names.foldl (fun d n =>
    match findAsg n asgs with
    | none => d
    | some a => if asgNonzero a.capacity then setKey d n a.capacity else d) data

/-- Effect of the ASG loop on the live groups. -/
def zeroAsgs (names : List String) (asgs : List Asg) : List Asg :=
  asgs.map (fun a =>
    if a.name ∈ names ∧ asgNonzero a.capacity then { a with capacity := ⟨0, 0, 0⟩ } else a)

/-- Update calls issued by the ASG loop. -/
def asgTrace (names : List String) (asgs : List Asg) : List Action :=
  names.filterMap (fun n =>
    match findAsg n asgs with
    | none => none
    | some a =>
      if asgNonzero a.capacity then some (Action.updateAsg n ⟨0, 0, 0⟩) else none)

theorem zeroAsgs_nil (asgs : List Asg) : zeroAsgs [] asgs = asgs := by
  unfold zeroAsgs
  have : ∀ a ∈ asgs,
      (if a.name ∈ ([] : List String) ∧ asgNonzero a.capacity then
        { a with capacity := ⟨0, 0, 0⟩ } else a) = a := by
    intro a _
    rw [if_neg]
    rintro ⟨he, _⟩
    simp at he
  rw [List.map_congr_left this]
  simp

theorem asgCapture_congr (names : List String) (asgs1 asgs2 : List Asg)
    (data : Obj AsgCapacity)
    (h : ∀ m ∈ names, findAsg m asgs1 = findAsg m asgs2) :
    asgCapture names asgs1 data = asgCapture names asgs2 data := by
  induction names generalizing data with
  | nil => rfl
  | cons n names ih =>
    unfold asgCapture
    rw [List.foldl_cons, List.foldl_cons, h n (List.mem_cons_self n names)]
    exact ih _ (fun m hm => h m (List.mem_cons.mpr (Or.inr hm)))

theorem asgTrace_congr (names : List String) (asgs1 asgs2 : List Asg)
    (h : ∀ m ∈ names, findAsg m asgs1 = findAsg m asgs2) :
    asgTrace names asgs1 = asgTrace names asgs2 := by
  induction names with
  | nil => rfl
  | cons n names ih =>
    unfold asgTrace
    rw [List.filterMap_cons, List.filterMap_cons, h n (List.mem_cons_self n names)]
    have := ih (fun m hm => h m (List.mem_cons.mpr (Or.inr hm)))
    unfold asgTrace at this
    rw [this]

theorem zeroAsgs_cons_of_absent (n : String) (names : List String) (asgs : List Asg)
    (h : ∀ a ∈ asgs, a.name ≠ n) : zeroAsgs (n :: names) asgs = zeroAsgs names asgs := by
  unfold zeroAsgs
  refine List.map_congr_left ?_
  intro a ha
  by_cases h2 : a.name ∈ names ∧ asgNonzero a.capacity
  · rw [if_pos h2, if_pos ⟨List.mem_cons.mpr (Or.inr h2.1), h2.2⟩]
  · rw [if_neg h2, if_neg (fun hc => by
      rcases List.mem_cons.mp hc.1 with h3 | h3
      · exact h a ha h3
      · exact h2 ⟨h3, hc.2⟩)]

theorem zeroAsgs_cons_zero (n : String) (names : List String) (asgs : List Asg)
    (a0 : Asg) (hnd : (asgs.map Asg.name).Nodup)
    (hf : findAsg n asgs = some a0) (hz : ¬ asgNonzero a0.capacity) :
    zeroAsgs (n :: names) asgs = zeroAsgs names asgs := by
  unfold zeroAsgs
  refine List.map_congr_left ?_
  intro a ha
  by_cases han : a.name = n
  · have hmem0 : a0 ∈ asgs := List.mem_of_find?_eq_some hf
    have hname0 : a0.name = n := by
      have := List.find?_some hf
      simpa using this
    have haa : a = a0 :=
      List.inj_on_of_nodup_map hnd ha hmem0 (han.trans hname0.symm)
    have hz' : ¬ asgNonzero a.capacity := by rw [haa]; exact hz
    rw [if_neg (fun hc => hz' hc.2), if_neg (fun hc => hz' hc.2)]
  · by_cases h2 : a.name ∈ names ∧ asgNonzero a.capacity
    · rw [if_pos ⟨List.mem_cons.mpr (Or.inr h2.1), h2.2⟩, if_pos h2]
    · rw [if_neg (fun hc => by
        rcases List.mem_cons.mp hc.1 with h3 | h3
        · exact han h3
        · exact h2 ⟨h3, hc.2⟩), if_neg h2]

theorem zeroAsgs_cons_update (n : String) (names : List String) (asgs : List Asg)
    (a0 : Asg) (hnd : (asgs.map Asg.name).Nodup)
    (hf : findAsg n asgs = some a0) (hz : asgNonzero a0.capacity) :
    zeroAsgs names
        (asgs.map (fun a => if a.name = n then { a with capacity := ⟨0, 0, 0⟩ } else a)) =
      zeroAsgs (n :: names) asgs := by
  unfold zeroAsgs
  rw [List.map_map]
  refine List.map_congr_left ?_
  intro a ha
  by_cases han : a.name = n
  · have hmem0 : a0 ∈ asgs := List.mem_of_find?_eq_some hf
    have hname0 : a0.name = n := by
      have := List.find?_some hf
      simpa using this
    have haa : a = a0 :=
      List.inj_on_of_nodup_map hnd ha hmem0 (han.trans hname0.symm)
    have hz' : asgNonzero a.capacity := by rw [haa]; exact hz
    simp only [Function.comp_apply, if_pos han]
    rw [if_neg (fun hc => asgNonzero_zero hc.2),
      if_pos ⟨List.mem_cons.mpr (Or.inl han), hz'⟩]
  · simp only [Function.comp_apply, if_neg han]
    by_cases h2 : a.name ∈ names ∧ asgNonzero a.capacity
    · rw [if_pos h2, if_pos ⟨List.mem_cons.mpr (Or.inr h2.1), h2.2⟩]
    · rw [if_neg h2, if_neg (fun hc => by
        rcases List.mem_cons.mp hc.1 with h3 | h3
        · exact han h3
        · exact h2 ⟨h3, hc.2⟩)]

theorem asg_fold_eq (names : List String) (data : Obj AsgCapacity) (s : Sys)
    (hA : (s.st.asgs.map Asg.name).Nodup) (hN : names.Nodup) :
    names.foldl scale_down_asg_step (data, s) =
      (asgCapture names s.st.asgs data,
       { st := { s.st with asgs := zeroAsgs names s.st.asgs },
         tr := s.tr ++ asgTrace names s.st.asgs }) := by
  induction names generalizing data s with
  | nil => simp [asgCapture, asgTrace, zeroAsgs_nil]
  | cons n names ih =>
    have hN' : names.Nodup := (List.nodup_cons.mp hN).2
    have hnn : n ∉ names := (List.nodup_cons.mp hN).1
    rw [List.foldl_cons]
    cases hf : findAsg n s.st.asgs with
    | none =>
      have habs : ∀ a ∈ s.st.asgs, a.name ≠ n := by
        intro a ha hc
        have := List.find?_eq_none.mp hf a ha
        simp [hc] at this
      have hstep : scale_down_asg_step (data, s) n = (data, s) := by
        simp [scale_down_asg_step, describe_eq_findAsg, hf]
      rw [hstep, ih data s hA hN']
      refine Prod.ext ?_ ?_
      · simp [asgCapture, hf]
      · refine congrArg₂ Sys.mk ?_ ?_
        · exact congrArg (fun x => { s.st with asgs := x })
            (zeroAsgs_cons_of_absent n names s.st.asgs habs).symm
        · simp [asgTrace, List.filterMap_cons, hf]
    | some a0 =>
      by_cases hz : asgNonzero a0.capacity
      · have hstep : scale_down_asg_step (data, s) n =
            (setKey data n a0.capacity, setAsgCapacity n ⟨0, 0, 0⟩ s) := by
          simp [scale_down_asg_step, describe_eq_findAsg, hf, hz]
        have hA' : (((setAsgCapacity n ⟨0, 0, 0⟩ s).st.asgs).map Asg.name).Nodup := by
          show ((s.st.asgs.map
            (fun a => if a.name = n then { a with capacity := ⟨0, 0, 0⟩ } else a)).map
              Asg.name).Nodup
          rw [names_update]
          exact hA
        rw [hstep, ih _ _ hA' hN']
        have hfind : ∀ m ∈ names,
            findAsg m (setAsgCapacity n ⟨0, 0, 0⟩ s).st.asgs
              = findAsg m s.st.asgs := by
          intro m hm
          have hmn : ¬ m = n := fun hc => hnn (hc ▸ hm)
          simp [setAsgCapacity, findAsg_update, hmn]
        refine Prod.ext ?_ ?_
        · show asgCapture names (setAsgCapacity n ⟨0, 0, 0⟩ s).st.asgs
              (setKey data n a0.capacity) = asgCapture (n :: names) s.st.asgs data
          rw [asgCapture_congr names _ s.st.asgs _ hfind]
          simp [asgCapture, hf, hz]
        · refine congrArg₂ Sys.mk ?_ ?_
          · have h2 : zeroAsgs names (s.st.asgs.map
                (fun a => if a.name = n then { a with capacity := ⟨0, 0, 0⟩ } else a))
                = zeroAsgs (n :: names) s.st.asgs :=
              zeroAsgs_cons_update n names s.st.asgs a0 hA hf hz
            simp [setAsgCapacity, h2]
          · show (setAsgCapacity n ⟨0, 0, 0⟩ s).tr
                ++ asgTrace names (setAsgCapacity n ⟨0, 0, 0⟩ s).st.asgs
              = s.tr ++ asgTrace (n :: names) s.st.asgs
            rw [asgTrace_congr names _ s.st.asgs hfind]
            simp [setAsgCapacity, asgTrace, List.filterMap_cons, hf, hz,
              List.append_assoc]
      · have hstep : scale_down_asg_step (data, s) n = (data, s) := by
          simp [scale_down_asg_step, describe_eq_findAsg, hf, hz]
        rw [hstep, ih data s hA hN']
        refine Prod.ext ?_ ?_
        · simp [asgCapture, hf, hz]
        · refine congrArg₂ Sys.mk ?_ ?_
          · exact congrArg (fun x => { s.st with asgs := x })
              (zeroAsgs_cons_zero n names s.st.asgs a0 hA hf hz).symm
          · simp [asgTrace, List.filterMap_cons, hf, hz]

/-! ### Filter characterizations -/

/-- An exclusion entry matches a resource identity: namespace and name
exactly, kind case-insensitively. -/
def exclMatches (e : ResourceRef) (kind ns name : String) : Prop :=
  e.ns = ns ∧ e.kind.toLower = kind.toLower ∧ e.name = name

instance (e : ResourceRef) (kind ns name : String) :
    Decidable (exclMatches e kind ns name) := by
  unfold exclMatches; infer_instance

theorem contains_map_tuple (l : List ResourceRef) (kind ns name : String) :
    ((l.map (fun e => (e.ns, e.kind.toLower, e.name))).contains
        (ns, kind.toLower, name))
      = decide (∃ e ∈ l, exclMatches e kind ns name) := by
  induction l with
  | nil => simp
  | cons e es ih =>
    rw [List.map_cons, List.contains_cons, ih]
    by_cases hm : exclMatches e kind ns name
    · have : (e.ns, e.kind.toLower, e.name) = (ns, kind.toLower, name) := by
        rcases hm with ⟨h1, h2, h3⟩
        simp [h1, h2, h3]
      simp [this, List.exists_mem_cons_iff, hm]
    · have : ¬ ((ns, kind.toLower, name) = (e.ns, e.kind.toLower, e.name)) := by
        intro hc
        rcases Prod.mk.injEq .. ▸ hc with ⟨h1, h23⟩
        rcases Prod.mk.injEq .. ▸ h23 with ⟨h2, h3⟩
        exact hm ⟨h1.symm, h2.symm, h3.symm⟩
      simp [List.exists_mem_cons_iff, hm, beq_iff_eq, this]

theorem filter_excluded_k8s_eq {α : Type} (getNs getName : α → String)
    (kind : String) (resources : List α) (excl : Option (List ResourceRef)) :
    filter_excluded_k8s_resources getNs getName kind resources excl =
      resources.filter (fun res =>
        decide (¬ ∃ e ∈ excl.getD [], exclMatches e kind (getNs res) (getName res))) := by
  have hfilter_true : ∀ (l : List α) (p : α → Bool), (∀ a, p a = true) →
      l.filter p = l := by
    intro l p hp
    induction l with
    | nil => rfl
    | cons a l ih => simp [List.filter_cons, hp a, ih]
  cases excl with
  | none =>
    symm
    exact hfilter_true _ _ (fun a => by simp)
  | some l =>
    cases l with
    | nil =>
      symm
      exact hfilter_true _ _ (fun a => by simp)
    | cons e es =>
      show (e :: es |> fun l => resources.filter (fun res =>
        !((l.map (fun e => (e.ns, e.kind.toLower, e.name))).contains
          (getNs res, kind.toLower, getName res)))) = _
      refine List.filter_congr ?_
      intro res _
      rw [contains_map_tuple (e :: es) kind (getNs res) (getName res), decide_not]
      rfl

theorem filter_excluded_asgs_eq (asg_list : List String)
    (excl : Option (List String)) :
    filter_excluded_asgs asg_list excl =
      asg_list.filter (fun a => decide (a ∉ excl.getD [])) := by
  have hfilter_true : ∀ (l : List String) (p : String → Bool), (∀ a, p a = true) →
      l.filter p = l := by
    intro l p hp
    induction l with
    | nil => rfl
    | cons a l ih => simp [List.filter_cons, hp a, ih]
  cases excl with
  | none =>
    symm
    exact hfilter_true _ _ (fun a => by simp)
  | some l =>
    cases l with
    | nil =>
      symm
      exact hfilter_true _ _ (fun a => by simp)
    | cons e es =>
      refine List.filter_congr ?_
      intro a _
      simp [List.contains_cons]

/-! ### The selected working sets of a scale_down run -/

/-- The Deployments a scale_down run works on (fetch-all minus exclusions). -/
def selDeps (st : State) (excl : Option (List ResourceRef)) : List Workload :=
  filter_excluded_k8s_resources Workload.ns Workload.name ("Deployment")
    st.deployments excl

/-- The StatefulSets a scale_down run works on. -/
def selSts (st : State) (excl : Option (List ResourceRef)) : List Workload :=
  filter_excluded_k8s_resources Workload.ns Workload.name ("StatefulSet")
    st.statefulsets excl

/-- The CronJobs a scale_down run works on. -/
def selCrons (st : State) (excl : Option (List ResourceRef)) : List CronJob :=
  filter_excluded_k8s_resources CronJob.ns CronJob.name ("CronJob")
    st.cronjobs excl

/-- The ASG names a scale_down run works on. -/
def selAsgNames (st : State) (excl : Option (List String)) : List String :=
  filter_excluded_asgs (st.asgs.map Asg.name) excl

theorem selAsgNames_nodup (st : State) (excl : Option (List String))
    (hA : (st.asgs.map Asg.name).Nodup) : (selAsgNames st excl).Nodup := by
  unfold selAsgNames
  rw [filter_excluded_asgs_eq]
  exact hA.filter _

theorem mem_selDeps (st : State) (excl : Option (List ResourceRef)) (d : Workload)
    (h : d ∈ selDeps st excl) : d ∈ st.deployments := by
  unfold selDeps at h
  rw [filter_excluded_k8s_eq] at h
  exact List.mem_of_mem_filter h

theorem mem_selSts (st : State) (excl : Option (List ResourceRef)) (d : Workload)
    (h : d ∈ selSts st excl) : d ∈ st.statefulsets := by
  unfold selSts at h
  rw [filter_excluded_k8s_eq] at h
  exact List.mem_of_mem_filter h

/-- The k8s replica-count records captured by a scale_down run. -/
def capturedK8s (st : State) (excl : Option (List ResourceRef)) : Obj Nat :=
  stsCapture (selSts st excl) (depCapture (selDeps st excl) [])

/-- The ASG capacity records captured by a scale_down run. -/
def capturedAsg (st : State) (excl : Option (List String)) : Obj AsgCapacity :=
  asgCapture (selAsgNames st excl) st.asgs []

/-! ### Master characterization of scale_down -/

theorem scale_down_eq (k8s_excl : Option (List ResourceRef))
    (asg_excl : Option (List String)) (s : Sys)
    (hA : (s.st.asgs.map Asg.name).Nodup) :
    scale_down k8s_excl asg_excl s =
      { st := { deployments := zeroSel (selDeps s.st k8s_excl) s.st.deployments,
                statefulsets := zeroSel (selSts s.st k8s_excl) s.st.statefulsets,
                cronjobs := suspendSel true (selCrons s.st k8s_excl) s.st.cronjobs,
                asgs := zeroAsgs (selAsgNames s.st asg_excl) s.st.asgs,
                k8sParam := if capturedK8s s.st k8s_excl = [] then s.st.k8sParam
                  else some (dictUpdate (s.st.k8sParam.getD [])
                    (capturedK8s s.st k8s_excl)),
                asgParam := if capturedAsg s.st asg_excl = [] then s.st.asgParam
                  else some (dictUpdate (s.st.asgParam.getD [])
                    (capturedAsg s.st asg_excl)) },
        tr := s.tr
          ++ zeroTrace Action.patchDeployment (selDeps s.st k8s_excl)
          ++ zeroTrace Action.patchStatefulSet (selSts s.st k8s_excl)
          ++ (selCrons s.st k8s_excl).map (fun c => Action.patchCronJob c.ns c.name true)
          ++ (if capturedK8s s.st k8s_excl = [] then []
              else [Action.putK8sParam (dictUpdate (s.st.k8sParam.getD [])
                (capturedK8s s.st k8s_excl))])
          ++ asgTrace (selAsgNames s.st asg_excl) s.st.asgs
          ++ (if capturedAsg s.st asg_excl = [] then []
              else [Action.putAsgParam (dictUpdate (s.st.asgParam.getD [])
                (capturedAsg s.st asg_excl))]) } := by
  have hN : (selAsgNames s.st asg_excl).Nodup := selAsgNames_nodup s.st asg_excl hA
  unfold selAsgNames at hN
  unfold capturedK8s capturedAsg
  unfold selDeps selSts selCrons selAsgNames
  simp only [scale_down, dep_fold_eq, sts_fold_eq, cron_fold_down]
  set SD := filter_excluded_k8s_resources Workload.ns Workload.name ("Deployment")
    s.st.deployments k8s_excl with hSDdef
  set SS := filter_excluded_k8s_resources Workload.ns Workload.name ("StatefulSet")
    s.st.statefulsets k8s_excl with hSSdef
  set SC := filter_excluded_k8s_resources CronJob.ns CronJob.name ("CronJob")
    s.st.cronjobs k8s_excl with hSCdef
  by_cases hD : stsCapture SS (depCapture SD []) = []
  · rw [if_neg (not_not_intro hD), if_pos hD, if_pos hD]
    try simp only []
    have hfold := asg_fold_eq (filter_excluded_asgs (List.map Asg.name s.st.asgs) asg_excl) []
      ⟨{ deployments := zeroSel SD s.st.deployments,
         statefulsets := zeroSel SS s.st.statefulsets,
         cronjobs := suspendSel true SC s.st.cronjobs,
         asgs := s.st.asgs, k8sParam := s.st.k8sParam, asgParam := s.st.asgParam },
        s.tr ++ zeroTrace Action.patchDeployment SD ++ zeroTrace Action.patchStatefulSet SS
          ++ SC.map (fun c => Action.patchCronJob c.ns c.name true)⟩ hA hN
    rw [hfold]
    by_cases hAD : asgCapture (filter_excluded_asgs (List.map Asg.name s.st.asgs) asg_excl)
        s.st.asgs [] = []
    · try simp only []
      rw [if_neg (not_not_intro hAD), if_pos hAD, if_pos hAD]
      simp [List.append_assoc]
    · try simp only []
      rw [if_pos hAD, if_neg hAD, if_neg hAD]
      simp [put_ssm_asg, update_ssm_parameter, List.append_assoc]
  · rw [if_pos hD, if_neg hD, if_neg hD]
    simp only [put_ssm_k8s, update_ssm_parameter]
    try simp only []
    have hfold := asg_fold_eq (filter_excluded_asgs (List.map Asg.name s.st.asgs) asg_excl) []
      ⟨{ deployments := zeroSel SD s.st.deployments,
         statefulsets := zeroSel SS s.st.statefulsets,
         cronjobs := suspendSel true SC s.st.cronjobs,
         asgs := s.st.asgs,
         k8sParam := some (dictUpdate (s.st.k8sParam.getD [])
           (stsCapture SS (depCapture SD []))),
         asgParam := s.st.asgParam },
        s.tr ++ zeroTrace Action.patchDeployment SD ++ zeroTrace Action.patchStatefulSet SS
          ++ SC.map (fun c => Action.patchCronJob c.ns c.name true)
          ++ [Action.putK8sParam (dictUpdate (s.st.k8sParam.getD [])
            (stsCapture SS (depCapture SD [])))]⟩ hA hN
    rw [hfold]
    by_cases hAD : asgCapture (filter_excluded_asgs (List.map Asg.name s.st.asgs) asg_excl)
        s.st.asgs [] = []
    · try simp only []
      rw [if_neg (not_not_intro hAD), if_pos hAD, if_pos hAD]
      simp [List.append_assoc]
    · try simp only []
      rw [if_pos hAD, if_neg hAD, if_neg hAD]
      simp [put_ssm_asg, update_ssm_parameter, List.append_assoc]

/-! ### Characterization of the scale_up phases -/

/-- Effect of replaying stored ASG capacities over the live groups. -/
def applyAsgUpdates (entries : Obj AsgCapacity) (asgs : List Asg) : List Asg :=
  entries.foldl (fun as p =>
    as.map (fun a => if a.name = p.1 then { a with capacity := p.2 } else a)) asgs

theorem restore_asgs_ok (entries : Obj AsgCapacity) (s : Sys)
    (hlive : ∀ p ∈ entries, (findAsg p.1 s.st.asgs).isSome) :
    restore_asgs s entries =
      Except.ok (⟨{ s.st with asgs := applyAsgUpdates entries s.st.asgs },
        s.tr ++ entries.map (fun p => Action.updateAsg p.1 p.2)⟩ : Sys) := by
  induction entries generalizing s with
  | nil => simp [restore_asgs, applyAsgUpdates]
  | cons p ps ih =>
    obtain ⟨a, ha⟩ := Option.isSome_iff_exists.mp
      (hlive p (List.mem_cons_self p ps))
    show (match update_auto_scaling_group p.1 p.2 s with
      | Except.error e => Except.error e
      | Except.ok s' => restore_asgs s' ps) = _
    rw [update_auto_scaling_group_ok p.1 p.2 s a ha]
    show restore_asgs (setAsgCapacity p.1 p.2 s) ps = _
    have hlive' : ∀ q ∈ ps,
        (findAsg q.1 (setAsgCapacity p.1 p.2 s).st.asgs).isSome := by
      intro q hq
      have h0 := hlive q (List.mem_cons.mpr (Or.inr hq))
      show (findAsg q.1 (s.st.asgs.map (fun a =>
        if a.name = p.1 then { a with capacity := p.2 } else a))).isSome
      rw [findAsg_update]
      by_cases hc : q.1 = p.1
      · rw [if_pos hc]
        obtain ⟨b, hb⟩ := Option.isSome_iff_exists.mp h0
        rw [hb]
        rfl
      · rw [if_neg hc]
        exact h0
    rw [ih _ hlive']
    simp [setAsgCapacity, applyAsgUpdates, List.append_assoc]

/-- Every key of this stored blob refers to a live workload wherever the
restore loop would read one (so the loop cannot hit an uncaught 404), and is
well-formed (three `/`-separated parts). -/
def KeyLive (st : State) (k : String) : Prop :=
  match split k with
  | [kind, ns, name] =>
    (kind = ("deployment") → (read_namespaced_deployment name ns st).isSome) ∧
    (kind = ("statefulset") → (read_namespaced_stateful_set name ns st).isSome)
  | _ => False

theorem KeyLive_of_split (st : State) (k kind ns name : String)
    (hsp : split k = [kind, ns, name])
    (h1 : kind = ("deployment") → (read_namespaced_deployment name ns st).isSome)
    (h2 : kind = ("statefulset") → (read_namespaced_stateful_set name ns st).isSome) :
    KeyLive st k := by
  unfold KeyLive
  rw [hsp]
  exact ⟨h1, h2⟩

theorem read_dep_patch_dep (n ns nq nsq : String) (r : Nat) (x : Sys) :
    read_namespaced_deployment nq nsq (patch_namespaced_deployment n ns r x).st =
      if nsq = ns ∧ nq = n then
        (read_namespaced_deployment nq nsq x.st).map (fun w => { w with replicas := r })
      else read_namespaced_deployment nq nsq x.st :=
  findWorkload_patchWorkloads ns n nsq nq r x.st.deployments

theorem read_sts_patch_sts (n ns nq nsq : String) (r : Nat) (x : Sys) :
    read_namespaced_stateful_set nq nsq (patch_namespaced_stateful_set n ns r x).st =
      if nsq = ns ∧ nq = n then
        (read_namespaced_stateful_set nq nsq x.st).map (fun w => { w with replicas := r })
      else read_namespaced_stateful_set nq nsq x.st :=
  findWorkload_patchWorkloads ns n nsq nq r x.st.statefulsets

theorem read_dep_patch_sts (n ns nq nsq : String) (r : Nat) (x : Sys) :
    read_namespaced_deployment nq nsq (patch_namespaced_stateful_set n ns r x).st =
      read_namespaced_deployment nq nsq x.st := rfl

theorem read_sts_patch_dep (n ns nq nsq : String) (r : Nat) (x : Sys) :
    read_namespaced_stateful_set nq nsq (patch_namespaced_deployment n ns r x).st =
      read_namespaced_stateful_set nq nsq x.st := rfl

theorem KeyLive_patch_dep (n ns : String) (r : Nat) (x : Sys) (k : String)
    (h : KeyLive x.st k) : KeyLive (patch_namespaced_deployment n ns r x).st k := by
  unfold KeyLive at h ⊢
  rcases hsp : split k with _ | ⟨k1, _ | ⟨k2, _ | ⟨k3, _ | ⟨k4, kr⟩⟩⟩⟩ <;>
    rw [hsp] at h <;> try exact h
  refine ⟨fun h1 => ?_, fun h2 => ?_⟩
  · rw [read_dep_patch_dep]
    by_cases hc : k2 = ns ∧ k3 = n
    · rw [if_pos hc]
      obtain ⟨w, hw⟩ := Option.isSome_iff_exists.mp (h.1 h1)
      rw [hw]
      rfl
    · rw [if_neg hc]
      exact h.1 h1
  · rw [read_sts_patch_dep]
    exact h.2 h2

theorem KeyLive_patch_sts (n ns : String) (r : Nat) (x : Sys) (k : String)
    (h : KeyLive x.st k) : KeyLive (patch_namespaced_stateful_set n ns r x).st k := by
  unfold KeyLive at h ⊢
  rcases hsp : split k with _ | ⟨k1, _ | ⟨k2, _ | ⟨k3, _ | ⟨k4, kr⟩⟩⟩⟩ <;>
    rw [hsp] at h <;> try exact h
  refine ⟨fun h1 => ?_, fun h2 => ?_⟩
  · rw [read_dep_patch_sts]
    exact h.1 h1
  · rw [read_sts_patch_sts]
    by_cases hc : k2 = ns ∧ k3 = n
    · rw [if_pos hc]
      obtain ⟨w, hw⟩ := Option.isSome_iff_exists.mp (h.2 h2)
      rw [hw]
      rfl
    · rw [if_neg hc]
      exact h.2 h2

theorem KeyLive_split_three (st : State) (k : String) (h : KeyLive st k) :
    ∃ k1 k2 k3, split k = [k1, k2, k3] := by
  unfold KeyLive at h
  rcases hsp : split k with _ | ⟨a, _ | ⟨b, _ | ⟨c, _ | ⟨d, l⟩⟩⟩⟩ <;> rw [hsp] at h
  · exact absurd h (by simp)
  · exact absurd h (by simp)
  · exact absurd h (by simp)
  · exact ⟨a, b, c, rfl⟩
  · exact absurd h (by simp)

theorem KeyLive_elim (st : State) (k k1 k2 k3 : String)
    (hsp : split k = [k1, k2, k3]) (h : KeyLive st k) :
    (k1 = ("deployment") → (read_namespaced_deployment k3 k2 st).isSome) ∧
      (k1 = ("statefulset") → (read_namespaced_stateful_set k3 k2 st).isSome) := by
  unfold KeyLive at h
  rw [hsp] at h
  exact h

theorem restore_k8s_entry_eq_three (s : Sys) (key : String) (v : Nat)
    (k1 k2 k3 : String) (hsp : split key = [k1, k2, k3]) :
    restore_k8s_entry s key v =
      if k1 = ("deployment") then
        match read_namespaced_deployment k3 k2 s.st with
        | none => Except.error ("ApiException 404")
        | some _ => Except.ok (patch_namespaced_deployment k3 k2 v
            { s with tr := s.tr ++ [Action.readDeployment k2 k3] })
      else if k1 = ("statefulset") then
        match read_namespaced_stateful_set k3 k2 s.st with
        | none => Except.error ("ApiException 404")
        | some _ => Except.ok (patch_namespaced_stateful_set k3 k2 v
            { s with tr := s.tr ++ [Action.readStatefulSet k2 k3] })
      else Except.ok s := by
  unfold restore_k8s_entry
  rw [hsp]

theorem restore_k8s_entry_ok_shape (s : Sys) (key : String) (v : Nat) (s1 : Sys)
    (h : restore_k8s_entry s key v = Except.ok s1) :
    ∃ k1 k2 k3, split key = [k1, k2, k3] := by
  unfold restore_k8s_entry at h
  rcases hsp : split key with _ | ⟨a, _ | ⟨b, _ | ⟨c, _ | ⟨d, l⟩⟩⟩⟩ <;> rw [hsp] at h
  · simp at h
  · simp at h
  · simp at h
  · exact ⟨a, b, c, rfl⟩
  · simp at h

theorem restore_k8s_ok (entries : Obj Nat) (s : Sys)
    (h : ∀ p ∈ entries, KeyLive s.st p.1) :
    ∃ s', restore_k8s s entries = Except.ok s' := by
  induction entries generalizing s with
  | nil => exact ⟨s, rfl⟩
  | cons p ps ih =>
    have hp := h p (List.mem_cons_self p ps)
    obtain ⟨k1, k2, k3, hsp⟩ := KeyLive_split_three s.st p.1 hp
    have hel := KeyLive_elim s.st p.1 k1 k2 k3 hsp hp
    have hstep : restore_k8s s (p :: ps) =
        match restore_k8s_entry s p.1 p.2 with
        | Except.error e => Except.error e
        | Except.ok s1 => restore_k8s s1 ps := rfl
    rw [hstep, restore_k8s_entry_eq_three s p.1 p.2 k1 k2 k3 hsp]
    by_cases hk1 : k1 = ("deployment")
    · rw [if_pos hk1]
      obtain ⟨w, hw⟩ := Option.isSome_iff_exists.mp (hel.1 hk1)
      rw [hw]
      show ∃ s', restore_k8s (patch_namespaced_deployment k3 k2 p.2
        { s with tr := s.tr ++ [Action.readDeployment k2 k3] }) ps = Except.ok s'
      refine ih _ (fun q hq => ?_)
      exact KeyLive_patch_dep k3 k2 p.2 _ q.1 (h q (List.mem_cons.mpr (Or.inr hq)))
    · rw [if_neg hk1]
      by_cases hk2 : k1 = ("statefulset")
      · rw [if_pos hk2]
        obtain ⟨w, hw⟩ := Option.isSome_iff_exists.mp (hel.2 hk2)
        rw [hw]
        show ∃ s', restore_k8s (patch_namespaced_stateful_set k3 k2 p.2
          { s with tr := s.tr ++ [Action.readStatefulSet k2 k3] }) ps = Except.ok s'
        refine ih _ (fun q hq => ?_)
        exact KeyLive_patch_sts k3 k2 p.2 _ q.1 (h q (List.mem_cons.mpr (Or.inr hq)))
      · rw [if_neg hk2]
        show ∃ s', restore_k8s s ps = Except.ok s'
        exact ih s (fun q hq => h q (List.mem_cons.mpr (Or.inr hq)))

/-- The value the restore loop would leave on the workload `ns/name` of the
given kind: the last stored entry whose key parses to that triple. -/
def lastVal (kind ns name : String) (entries : Obj Nat) : Option Nat :=
  entries.foldl (fun acc p => if split p.1 = [kind, ns, name] then some p.2 else acc) none

theorem lastVal_from (kind ns name : String) (entries : Obj Nat) (init : Option Nat) :
    entries.foldl (fun acc p => if split p.1 = [kind, ns, name] then some p.2 else acc)
        init =
      match lastVal kind ns name entries with
      | some v => some v
      | none => init := by
  induction entries generalizing init with
  | nil => simp [lastVal]
  | cons p ps ih =>
    by_cases hm : split p.1 = [kind, ns, name]
    · show List.foldl _ (if split p.1 = [kind, ns, name] then some p.2 else init) ps = _
      rw [if_pos hm, ih (some p.2)]
      have hLV : lastVal kind ns name (p :: ps) =
          match lastVal kind ns name ps with
          | some v => some v
          | none => some p.2 := by
        show List.foldl _ (if split p.1 = [kind, ns, name] then some p.2 else none) ps = _
        rw [if_pos hm, ih (some p.2)]
      rw [hLV]
      cases lastVal kind ns name ps <;> rfl
    · show List.foldl _ (if split p.1 = [kind, ns, name] then some p.2 else init) ps = _
      rw [if_neg hm, ih init]
      have hLV : lastVal kind ns name (p :: ps) = lastVal kind ns name ps := by
        show List.foldl _ (if split p.1 = [kind, ns, name] then some p.2 else none) ps = _
        rw [if_neg hm]
        rfl
      rw [hLV]

theorem lastVal_cons_pos (kind ns name : String) (p : String × Nat) (ps : Obj Nat)
    (hm : split p.1 = [kind, ns, name]) :
    lastVal kind ns name (p :: ps) =
      match lastVal kind ns name ps with
      | some v => some v
      | none => some p.2 := by
  show List.foldl _ (if split p.1 = [kind, ns, name] then some p.2 else none) ps = _
  rw [if_pos hm, lastVal_from]

theorem lastVal_cons_neg (kind ns name : String) (p : String × Nat) (ps : Obj Nat)
    (hm : ¬ split p.1 = [kind, ns, name]) :
    lastVal kind ns name (p :: ps) = lastVal kind ns name ps := by
  show List.foldl _ (if split p.1 = [kind, ns, name] then some p.2 else none) ps = _
  rw [if_neg hm]
  rfl

theorem lastVal_eq_none (kind ns name : String) (entries : Obj Nat)
    (h : ∀ p ∈ entries, split p.1 ≠ [kind, ns, name]) :
    lastVal kind ns name entries = none := by
  induction entries with
  | nil => rfl
  | cons p ps ih =>
    rw [lastVal_cons_neg kind ns name p ps (h p (List.mem_cons_self p ps))]
    exact ih (fun q hq => h q (List.mem_cons.mpr (Or.inr hq)))

theorem lastVal_unique (kind ns name : String) (entries : Obj Nat) (k0 : String)
    (v : Nat) (hnd : (keys entries).Nodup) (hmem : (k0, v) ∈ entries)
    (hsp : split k0 = [kind, ns, name])
    (huni : ∀ p ∈ entries, split p.1 = [kind, ns, name] → p.1 = k0) :
    lastVal kind ns name entries = some v := by
  induction entries with
  | nil => simp at hmem
  | cons p ps ih =>
    rw [keys_cons] at hnd
    rcases List.mem_cons.mp hmem with h1 | h1
    · have hp1 : p.1 = k0 := by rw [← h1]
      rw [lastVal_cons_pos kind ns name p ps (by rw [hp1]; exact hsp)]
      have hnone : lastVal kind ns name ps = none := by
        refine lastVal_eq_none kind ns name ps (fun q hq hqs => ?_)
        have hq1 : q.1 = k0 := huni q (List.mem_cons.mpr (Or.inr hq)) hqs
        have : k0 ∈ keys ps := by
          rw [← hq1]
          exact List.mem_map.mpr ⟨q, hq, rfl⟩
        rw [← hp1] at this
        exact (List.nodup_cons.mp hnd).1 this
      rw [hnone, ← h1]
    · have hne : ¬ split p.1 = [kind, ns, name] := by
        intro hc
        have hp1 : p.1 = k0 := huni p (List.mem_cons_self p ps) hc
        have : k0 ∈ keys ps := by
          have : k0 ∈ keys ps := List.mem_map.mpr ⟨(k0, v), h1, rfl⟩
          exact this
        rw [← hp1] at this
        exact (List.nodup_cons.mp hnd).1 this
      rw [lastVal_cons_neg kind ns name p ps hne]
      exact ih (List.nodup_cons.mp hnd).2 h1
        (fun q hq hqs => huni q (List.mem_cons.mpr (Or.inr hq)) hqs)

theorem restore_k8s_dep (entries : Obj Nat) (s s' : Sys)
    (h : restore_k8s s entries = Except.ok s') (nsq nameq : String) :
    read_namespaced_deployment nameq nsq s'.st =
      match lastVal ("deployment") nsq nameq entries with
      | some v => (read_namespaced_deployment nameq nsq s.st).map
          (fun w => { w with replicas := v })
      | none => read_namespaced_deployment nameq nsq s.st := by
  induction entries generalizing s with
  | nil =>
    have : s = s' := by
      have h' : (Except.ok s : Except String Sys) = Except.ok s' := h
      injection h'
    rw [← this]
    rfl
  | cons p ps ih =>
    have hstep : restore_k8s s (p :: ps) =
        match restore_k8s_entry s p.1 p.2 with
        | Except.error e => Except.error e
        | Except.ok s1 => restore_k8s s1 ps := rfl
    rw [hstep] at h
    cases hE : restore_k8s_entry s p.1 p.2 with
    | error e => rw [hE] at h; exact absurd h (by simp)
    | ok s1 =>
      rw [hE] at h
      have hrec := ih s1 h
      obtain ⟨k1, k2, k3, hsp⟩ := restore_k8s_entry_ok_shape s p.1 p.2 s1 hE
      rw [restore_k8s_entry_eq_three s p.1 p.2 k1 k2 k3 hsp] at hE
      by_cases hk1 : k1 = ("deployment")
      · rw [if_pos hk1] at hE
        cases hR : read_namespaced_deployment k3 k2 s.st with
        | none => rw [hR] at hE; exact absurd hE (by simp)
        | some w =>
          rw [hR] at hE
          have hE2 : (Except.ok (patch_namespaced_deployment k3 k2 p.2
            { s with tr := s.tr ++ [Action.readDeployment k2 k3] })
              : Except String Sys) = Except.ok s1 := hE
          injection hE2 with hs1
          rw [← hs1] at hrec
          subst hk1
          by_cases hkey : k2 = nsq ∧ k3 = nameq
          · have hcond : split p.1 = [("deployment"), nsq, nameq] := by
              rw [hsp, hkey.1, hkey.2]
            rw [lastVal_cons_pos _ _ _ p ps hcond]
            have hread : read_namespaced_deployment nameq nsq
                (patch_namespaced_deployment k3 k2 p.2
                  { s with tr := s.tr ++ [Action.readDeployment k2 k3] }).st =
                (read_namespaced_deployment nameq nsq s.st).map
                  (fun w => { w with replicas := p.2 }) := by
              rw [read_dep_patch_dep]
              rw [if_pos ⟨hkey.1.symm, hkey.2.symm⟩]
            rw [hread] at hrec
            rw [hrec]
            cases lastVal ("deployment") nsq nameq ps with
            | none => rfl
            | some v =>
              show (Option.map _ (Option.map _ _)) = _
              rw [Option.map_map]
              rfl
          · have hcond : ¬ split p.1 = [("deployment"), nsq, nameq] := by
              rw [hsp]
              intro hc
              simp at hc
              exact hkey ⟨hc.1, hc.2⟩
            rw [lastVal_cons_neg _ _ _ p ps hcond]
            have hread : read_namespaced_deployment nameq nsq
                (patch_namespaced_deployment k3 k2 p.2
                  { s with tr := s.tr ++ [Action.readDeployment k2 k3] }).st =
                read_namespaced_deployment nameq nsq s.st := by
              rw [read_dep_patch_dep]
              rw [if_neg (fun hc => hkey ⟨hc.1.symm, hc.2.symm⟩)]
            rw [hread] at hrec
            exact hrec
      · rw [if_neg hk1] at hE
        by_cases hk2 : k1 = ("statefulset")
        · rw [if_pos hk2] at hE
          cases hR : read_namespaced_stateful_set k3 k2 s.st with
          | none => rw [hR] at hE; exact absurd hE (by simp)
          | some w =>
            rw [hR] at hE
            have hE2 : (Except.ok (patch_namespaced_stateful_set k3 k2 p.2
              { s with tr := s.tr ++ [Action.readStatefulSet k2 k3] })
                : Except String Sys) = Except.ok s1 := hE
            injection hE2 with hs1
            rw [← hs1] at hrec
            have hcond : ¬ split p.1 = [("deployment"), nsq, nameq] := by
              rw [hsp]
              intro hc
              simp at hc
              exact hk1 hc.1
            rw [lastVal_cons_neg _ _ _ p ps hcond]
            rw [read_dep_patch_sts] at hrec
            exact hrec
        · rw [if_neg hk2] at hE
          injection hE with hs1
          rw [← hs1] at hrec
          have hcond : ¬ split p.1 = [("deployment"), nsq, nameq] := by
            rw [hsp]
            intro hc
            simp at hc
            exact hk1 hc.1
          rw [lastVal_cons_neg _ _ _ p ps hcond]
          exact hrec

theorem restore_k8s_sts (entries : Obj Nat) (s s' : Sys)
    (h : restore_k8s s entries = Except.ok s') (nsq nameq : String) :
    read_namespaced_stateful_set nameq nsq s'.st =
      match lastVal ("statefulset") nsq nameq entries with
      | some v => (read_namespaced_stateful_set nameq nsq s.st).map
          (fun w => { w with replicas := v })
      | none => read_namespaced_stateful_set nameq nsq s.st := by
  induction entries generalizing s with
  | nil =>
    have : s = s' := by
      have h' : (Except.ok s : Except String Sys) = Except.ok s' := h
      injection h'
    rw [← this]
    rfl
  | cons p ps ih =>
    have hstep : restore_k8s s (p :: ps) =
        match restore_k8s_entry s p.1 p.2 with
        | Except.error e => Except.error e
        | Except.ok s1 => restore_k8s s1 ps := rfl
    rw [hstep] at h
    cases hE : restore_k8s_entry s p.1 p.2 with
    | error e => rw [hE] at h; exact absurd h (by simp)
    | ok s1 =>
      rw [hE] at h
      have hrec := ih s1 h
      obtain ⟨k1, k2, k3, hsp⟩ := restore_k8s_entry_ok_shape s p.1 p.2 s1 hE
      rw [restore_k8s_entry_eq_three s p.1 p.2 k1 k2 k3 hsp] at hE
      by_cases hk1 : k1 = ("deployment")
      · rw [if_pos hk1] at hE
        cases hR : read_namespaced_deployment k3 k2 s.st with
        | none => rw [hR] at hE; exact absurd hE (by simp)
        | some w =>
          rw [hR] at hE
          have hE2 : (Except.ok (patch_namespaced_deployment k3 k2 p.2
            { s with tr := s.tr ++ [Action.readDeployment k2 k3] })
              : Except String Sys) = Except.ok s1 := hE
          injection hE2 with hs1
          rw [← hs1] at hrec
          have hcond : ¬ split p.1 = [("statefulset"), nsq, nameq] := by
            rw [hsp]
            intro hc
            simp at hc
            rw [hk1] at hc
            exact absurd hc.1 (by decide)
          rw [lastVal_cons_neg _ _ _ p ps hcond]
          rw [read_sts_patch_dep] at hrec
          exact hrec
      · rw [if_neg hk1] at hE
        by_cases hk2 : k1 = ("statefulset")
        · rw [if_pos hk2] at hE
          cases hR : read_namespaced_stateful_set k3 k2 s.st with
          | none => rw [hR] at hE; exact absurd hE (by simp)
          | some w =>
            rw [hR] at hE
            have hE2 : (Except.ok (patch_namespaced_stateful_set k3 k2 p.2
              { s with tr := s.tr ++ [Action.readStatefulSet k2 k3] })
                : Except String Sys) = Except.ok s1 := hE
            injection hE2 with hs1
            rw [← hs1] at hrec
            subst hk2
            by_cases hkey : k2 = nsq ∧ k3 = nameq
            · have hcond : split p.1 = [("statefulset"), nsq, nameq] := by
                rw [hsp, hkey.1, hkey.2]
              rw [lastVal_cons_pos _ _ _ p ps hcond]
              have hread : read_namespaced_stateful_set nameq nsq
                  (patch_namespaced_stateful_set k3 k2 p.2
                    { s with tr := s.tr ++ [Action.readStatefulSet k2 k3] }).st =
                  (read_namespaced_stateful_set nameq nsq s.st).map
                    (fun w => { w with replicas := p.2 }) := by
                rw [read_sts_patch_sts]
                rw [if_pos ⟨hkey.1.symm, hkey.2.symm⟩]
              rw [hread] at hrec
              rw [hrec]
              cases lastVal ("statefulset") nsq nameq ps with
              | none => rfl
              | some v =>
                show (Option.map _ (Option.map _ _)) = _
                rw [Option.map_map]
                rfl
            · have hcond : ¬ split p.1 = [("statefulset"), nsq, nameq] := by
                rw [hsp]
                intro hc
                simp at hc
                exact hkey ⟨hc.1, hc.2⟩
              rw [lastVal_cons_neg _ _ _ p ps hcond]
              have hread : read_namespaced_stateful_set nameq nsq
                  (patch_namespaced_stateful_set k3 k2 p.2
                    { s with tr := s.tr ++ [Action.readStatefulSet k2 k3] }).st =
                  read_namespaced_stateful_set nameq nsq s.st := by
                rw [read_sts_patch_sts]
                rw [if_neg (fun hc => hkey ⟨hc.1.symm, hc.2.symm⟩)]
              rw [hread] at hrec
              exact hrec
        · rw [if_neg hk2] at hE
          injection hE with hs1
          rw [← hs1] at hrec
          have hcond : ¬ split p.1 = [("statefulset"), nsq, nameq] := by
            rw [hsp]
            intro hc
            simp at hc
            exact hk2 hc.1
          rw [lastVal_cons_neg _ _ _ p ps hcond]
          exact hrec

/-- Store-writing actions, which scale_up never issues. -/
def isStorePut : Action → Prop
  | Action.putK8sParam _ => True
  | Action.putAsgParam _ => True
  | _ => False

theorem restore_k8s_frames (entries : Obj Nat) (s s' : Sys)
    (h : restore_k8s s entries = Except.ok s') :
    s'.st.cronjobs = s.st.cronjobs ∧ s'.st.asgs = s.st.asgs ∧
      s'.st.k8sParam = s.st.k8sParam ∧ s'.st.asgParam = s.st.asgParam ∧
      ∀ a ∈ s'.tr, a ∈ s.tr ∨ ¬ isStorePut a := by
  induction entries generalizing s with
  | nil =>
    have : s = s' := by
      have h' : (Except.ok s : Except String Sys) = Except.ok s' := h
      injection h'
    rw [← this]
    exact ⟨rfl, rfl, rfl, rfl, fun a ha => Or.inl ha⟩
  | cons p ps ih =>
    have hstep : restore_k8s s (p :: ps) =
        match restore_k8s_entry s p.1 p.2 with
        | Except.error e => Except.error e
        | Except.ok s1 => restore_k8s s1 ps := rfl
    rw [hstep] at h
    cases hE : restore_k8s_entry s p.1 p.2 with
    | error e => rw [hE] at h; exact absurd h (by simp)
    | ok s1 =>
      rw [hE] at h
      have hrec := ih s1 h
      have hone : s1.st.cronjobs = s.st.cronjobs ∧ s1.st.asgs = s.st.asgs ∧
          s1.st.k8sParam = s.st.k8sParam ∧ s1.st.asgParam = s.st.asgParam ∧
          ∀ a ∈ s1.tr, a ∈ s.tr ∨ ¬ isStorePut a := by
        obtain ⟨k1, k2, k3, hsp⟩ := restore_k8s_entry_ok_shape s p.1 p.2 s1 hE
        rw [restore_k8s_entry_eq_three s p.1 p.2 k1 k2 k3 hsp] at hE
        by_cases hk1 : k1 = ("deployment")
        · rw [if_pos hk1] at hE
          cases hR : read_namespaced_deployment k3 k2 s.st with
          | none => rw [hR] at hE; exact absurd hE (by simp)
          | some w =>
            rw [hR] at hE
            have hE2 : (Except.ok (patch_namespaced_deployment k3 k2 p.2
              { s with tr := s.tr ++ [Action.readDeployment k2 k3] })
                : Except String Sys) = Except.ok s1 := hE
            injection hE2 with hs1
            rw [← hs1]
            refine ⟨rfl, rfl, rfl, rfl, fun a ha => ?_⟩
            have ha2 : a ∈ (s.tr ++ [Action.readDeployment k2 k3])
              ++ [Action.patchDeployment k2 k3 p.2] := ha
            rcases List.mem_append.mp ha2 with ha' | ha'
            · rcases List.mem_append.mp ha' with ha'' | ha''
              · exact Or.inl ha''
              · simp at ha''
                rw [ha'']
                exact Or.inr (by simp [isStorePut])
            · simp at ha'
              rw [ha']
              exact Or.inr (by simp [isStorePut])
        · rw [if_neg hk1] at hE
          by_cases hk2 : k1 = ("statefulset")
          · rw [if_pos hk2] at hE
            cases hR : read_namespaced_stateful_set k3 k2 s.st with
            | none => rw [hR] at hE; exact absurd hE (by simp)
            | some w =>
              rw [hR] at hE
              have hE2 : (Except.ok (patch_namespaced_stateful_set k3 k2 p.2
                { s with tr := s.tr ++ [Action.readStatefulSet k2 k3] })
                  : Except String Sys) = Except.ok s1 := hE
              injection hE2 with hs1
              rw [← hs1]
              refine ⟨rfl, rfl, rfl, rfl, fun a ha => ?_⟩
              have ha2 : a ∈ (s.tr ++ [Action.readStatefulSet k2 k3])
                ++ [Action.patchStatefulSet k2 k3 p.2] := ha
              rcases List.mem_append.mp ha2 with ha' | ha'
              · rcases List.mem_append.mp ha' with ha'' | ha''
                · exact Or.inl ha''
                · simp at ha''
                  rw [ha'']
                  exact Or.inr (by simp [isStorePut])
              · simp at ha'
                rw [ha']
                exact Or.inr (by simp [isStorePut])
          · rw [if_neg hk2] at hE
            injection hE with hs1
            rw [← hs1]
            exact ⟨rfl, rfl, rfl, rfl, fun a ha => Or.inl ha⟩
      refine ⟨hrec.1.trans hone.1, hrec.2.1.trans hone.2.1,
        hrec.2.2.1.trans hone.2.2.1, hrec.2.2.2.1.trans hone.2.2.2.1,
        fun a ha => ?_⟩
      rcases hrec.2.2.2.2 a ha with h1 | h1
      · exact hone.2.2.2.2 a h1
      · exact Or.inr h1

theorem restore_asgs_frames (entries : Obj AsgCapacity) (s s' : Sys)
    (h : restore_asgs s entries = Except.ok s') :
    s'.st.deployments = s.st.deployments ∧
      s'.st.statefulsets = s.st.statefulsets ∧
      s'.st.cronjobs = s.st.cronjobs ∧
      s'.st.k8sParam = s.st.k8sParam ∧ s'.st.asgParam = s.st.asgParam ∧
      ∀ a ∈ s'.tr, a ∈ s.tr ∨ ¬ isStorePut a := by
  induction entries generalizing s with
  | nil =>
    have h' : (Except.ok s : Except String Sys) = Except.ok s' := h
    injection h' with h''
    rw [← h'']
    exact ⟨rfl, rfl, rfl, rfl, rfl, fun a ha => Or.inl ha⟩
  | cons p ps ih =>
    have h2 : (match update_auto_scaling_group p.1 p.2 s with
      | Except.error e => Except.error e
      | Except.ok s1 => restore_asgs s1 ps) = Except.ok s' := h
    cases hU : update_auto_scaling_group p.1 p.2 s with
    | error e => rw [hU] at h2; exact absurd h2 (by simp)
    | ok s1 =>
      rw [hU] at h2
      obtain ⟨f1, f2, f3, f4, f5, f6⟩ := ih s1 h2
      have hs1 : s1 = setAsgCapacity p.1 p.2 s := by
        unfold update_auto_scaling_group at hU
        cases hd : describe_auto_scaling_group p.1 s.st with
        | none => rw [hd] at hU; exact absurd hU (by simp)
        | some a =>
          rw [hd] at hU
          have h3 : (Except.ok (setAsgCapacity p.1 p.2 s)
              : Except String Sys) = Except.ok s1 := hU
          injection h3 with h4
          exact h4.symm
      subst hs1
      refine ⟨f1, f2, f3, f4, f5, fun a ha => ?_⟩
      rcases f6 a ha with h7 | h7
      · have h8 : a ∈ s.tr ++ [Action.updateAsg p.1 p.2] := h7
        rcases List.mem_append.mp h8 with h9 | h9
        · exact Or.inl h9
        · have h10 : a = Action.updateAsg p.1 p.2 := by simpa using h9
          rw [h10]
          exact Or.inr (by simp [isStorePut])
      · exact Or.inr h7

/-! ### Properties of the captured replica-count records -/

/-- Generic form of the Deployment/StatefulSet capture loop accumulator. -/
def kindCapture (kind : String) (l : List Workload) (data : Obj Nat) : Obj Nat :=
  l.foldl (fun d w =>
    if 0 < w.replicas then setKey d (wkey kind w.ns w.name) w.replicas else d) data

theorem depCapture_eq_kind (l : List Workload) (data : Obj Nat) :
    depCapture l data = kindCapture ("deployment") l data := rfl

theorem stsCapture_eq_kind (l : List Workload) (data : Obj Nat) :
    stsCapture l data = kindCapture ("statefulset") l data := rfl

theorem noSlash_dep : noSlash ("deployment") := by decide

theorem noSlash_sts : noSlash ("statefulset") := by decide

theorem kindCapture_cons (kind : String) (u : Workload) (l : List Workload)
    (data : Obj Nat) :
    kindCapture kind (u :: l) data =
      kindCapture kind l
        (if 0 < u.replicas then setKey data (wkey kind u.ns u.name) u.replicas
         else data) := by
  unfold kindCapture
  rw [List.foldl_cons]

theorem getKey_kindCapture_of_ne (kind : String) (l : List Workload)
    (data : Obj Nat) (k : String)
    (h : ∀ w ∈ l, 0 < w.replicas → wkey kind w.ns w.name ≠ k) :
    getKey (kindCapture kind l data) k = getKey data k := by
  induction l generalizing data with
  | nil => rfl
  | cons u l ih =>
    rw [kindCapture_cons]
    by_cases hu : 0 < u.replicas
    · rw [if_pos hu, ih _ (fun w hw hp => h w (List.mem_cons.mpr (Or.inr hw)) hp),
        getKey_setKey,
        if_neg (fun hc : k = wkey kind u.ns u.name =>
          h u (List.mem_cons_self u l) hu hc.symm)]
    · rw [if_neg hu]
      exact ih _ (fun w hw hp => h w (List.mem_cons.mpr (Or.inr hw)) hp)

theorem getKey_kindCapture_self (kind : String) (l : List Workload)
    (data : Obj Nat) (hknd : noSlash kind)
    (hsl : ∀ u ∈ l, noSlash u.ns ∧ noSlash u.name) (hnd : (l.map wid).Nodup)
    (w : Workload) (hw : w ∈ l) (hpos : 0 < w.replicas) :
    getKey (kindCapture kind l data) (wkey kind w.ns w.name) = some w.replicas := by
  induction l generalizing data with
  | nil => simp at hw
  | cons u l ih =>
    rw [kindCapture_cons]
    rcases List.mem_cons.mp hw with rfl | hw'
    · rw [if_pos hpos]
      rw [getKey_kindCapture_of_ne kind l _ _ ?hne, getKey_setKey, if_pos rfl]
      case hne =>
        intro v hv hvpos hc
        have hvs : noSlash v.ns ∧ noSlash v.name :=
          hsl v (List.mem_cons.mpr (Or.inr hv))
        have hws : noSlash w.ns ∧ noSlash w.name := hsl w (List.mem_cons_self w l)
        have h1 := split_wkey kind v.ns v.name hknd hvs.1 hvs.2
        have h2 := split_wkey kind w.ns w.name hknd hws.1 hws.2
        rw [hc] at h1
        rw [h2] at h1
        have hvw : wid v = wid w := by
          simp at h1
          simp [wid, h1.1, h1.2]
        have : wid w ∉ l.map wid := by
          rw [List.map_cons] at hnd
          exact (List.nodup_cons.mp hnd).1
        exact this (List.mem_map.mpr ⟨v, hv, hvw⟩)
    · have hnd' : (l.map wid).Nodup := by
        rw [List.map_cons] at hnd
        exact (List.nodup_cons.mp hnd).2
      by_cases hu : 0 < u.replicas
      · rw [if_pos hu]
        exact ih _ (fun v hv => hsl v (List.mem_cons.mpr (Or.inr hv))) hnd' hw'
      · rw [if_neg hu]
        exact ih _ (fun v hv => hsl v (List.mem_cons.mpr (Or.inr hv))) hnd' hw'

theorem mem_keys_kindCapture (kind : String) (l : List Workload) (data : Obj Nat)
    (k : String) :
    k ∈ keys (kindCapture kind l data) ↔
      k ∈ keys data ∨ ∃ w ∈ l, 0 < w.replicas ∧ k = wkey kind w.ns w.name := by
  induction l generalizing data with
  | nil =>
    constructor
    · exact fun h => Or.inl h
    · rintro (h | ⟨w, hw, _⟩)
      · exact h
      · simp at hw
  | cons u l ih =>
    rw [kindCapture_cons]
    by_cases hu : 0 < u.replicas
    · rw [if_pos hu, ih]
      constructor
      · rintro (h | ⟨w, hw, hp, hk⟩)
        · rcases (mem_keys_setKey data _ _ k).mp h with h' | rfl
          · exact Or.inl h'
          · exact Or.inr ⟨u, List.mem_cons_self u l, hu, rfl⟩
        · exact Or.inr ⟨w, List.mem_cons.mpr (Or.inr hw), hp, hk⟩
      · rintro (h | ⟨w, hw, hp, hk⟩)
        · exact Or.inl ((mem_keys_setKey data _ _ k).mpr (Or.inl h))
        · rcases List.mem_cons.mp hw with rfl | hw'
          · exact Or.inl ((mem_keys_setKey data _ _ k).mpr (Or.inr hk))
          · exact Or.inr ⟨w, hw', hp, hk⟩
    · rw [if_neg hu, ih]
      constructor
      · rintro (h | ⟨w, hw, hp, hk⟩)
        · exact Or.inl h
        · exact Or.inr ⟨w, List.mem_cons.mpr (Or.inr hw), hp, hk⟩
      · rintro (h | ⟨w, hw, hp, hk⟩)
        · exact Or.inl h
        · rcases List.mem_cons.mp hw with rfl | hw'
          · exact absurd hp hu
          · exact Or.inr ⟨w, hw', hp, hk⟩

theorem nodup_keys_kindCapture (kind : String) (l : List Workload) (data : Obj Nat)
    (h : (keys data).Nodup) : (keys (kindCapture kind l data)).Nodup := by
  induction l generalizing data with
  | nil => exact h
  | cons u l ih =>
    rw [kindCapture_cons]
    by_cases hu : 0 < u.replicas
    · rw [if_pos hu]
      exact ih _ (nodup_keys_setKey data _ _ h)
    · rw [if_neg hu]
      exact ih _ h

theorem kindCapture_no_pos (kind : String) (l : List Workload) (data : Obj Nat)
    (h : ∀ w ∈ l, ¬ 0 < w.replicas) : kindCapture kind l data = data := by
  induction l generalizing data with
  | nil => rfl
  | cons u l ih =>
    rw [kindCapture_cons, if_neg (h u (List.mem_cons_self u l))]
    exact ih data (fun w hw => h w (List.mem_cons.mpr (Or.inr hw)))

/-! ### Well-formedness and the no-conflicting-keys precondition -/

/-- Platform well-formedness: Kubernetes guarantees workload identities are
unique per kind and names/namespaces contain no `/`; AWS guarantees ASG names
are unique; a stored JSON object has unique keys. -/
def WellFormedState (st : State) : Prop :=
  (st.deployments.map wid).Nodup ∧
  (st.statefulsets.map wid).Nodup ∧
  (st.asgs.map Asg.name).Nodup ∧
  (∀ d ∈ st.deployments, noSlash d.ns ∧ noSlash d.name) ∧
  (∀ d ∈ st.statefulsets, noSlash d.ns ∧ noSlash d.name) ∧
  (keys (st.k8sParam.getD [])).Nodup ∧
  (keys (st.asgParam.getD [])).Nodup

instance (st : State) : Decidable (WellFormedState st) := by
  unfold WellFormedState; infer_instance

/-- A pre-existing stored workload key does not conflict with this run:
it parses into three parts, any workload it names still exists live, and if
that workload is part of the current selection then its replica count is
positive (so the capture overwrites the stale record).  A key violating this
either aborts the restore (ValueError or 404) or overwrites a legitimately
zero workload with a stale count. -/
def NoConflictKey (st : State) (excl : Option (List ResourceRef)) (key : String) :
    Prop :=
  match split key with
  | [kind, ns, name] =>
    (kind = ("deployment") → ∃ d ∈ st.deployments, d.ns = ns ∧ d.name = name ∧
       (d ∈ selDeps st excl → 0 < d.replicas)) ∧
    (kind = ("statefulset") → ∃ d ∈ st.statefulsets, d.ns = ns ∧ d.name = name ∧
       (d ∈ selSts st excl → 0 < d.replicas))
  | _ => False

instance (st : State) (excl : Option (List ResourceRef)) (key : String) :
    Decidable (NoConflictKey st excl key) :=
  match hsp : split key with
  | [] => isFalse (fun h => by unfold NoConflictKey at h; rw [hsp] at h; try exact h)
  | [_] => isFalse (fun h => by unfold NoConflictKey at h; rw [hsp] at h; try exact h)
  | [_, _] => isFalse (fun h => by unfold NoConflictKey at h; rw [hsp] at h; try exact h)
  | [a, b, c] =>
    decidable_of_iff
      ((a = ("deployment") → ∃ d ∈ st.deployments, d.ns = b ∧ d.name = c ∧
         (d ∈ selDeps st excl → 0 < d.replicas)) ∧
       (a = ("statefulset") → ∃ d ∈ st.statefulsets, d.ns = b ∧ d.name = c ∧
         (d ∈ selSts st excl → 0 < d.replicas)))
      (by unfold NoConflictKey; rw [hsp]; try exact Iff.rfl)
  | _ :: _ :: _ :: _ :: _ =>
    isFalse (fun h => by unfold NoConflictKey at h; rw [hsp] at h; try exact h)

theorem NoConflictKey_three (st : State) (excl : Option (List ResourceRef))
    (key : String) (h : NoConflictKey st excl key) :
    ∃ a b c, split key = [a, b, c] := by
  unfold NoConflictKey at h
  rcases hsp : split key with _ | ⟨a, _ | ⟨b, _ | ⟨c, _ | ⟨d, l⟩⟩⟩⟩ <;> rw [hsp] at h
  · exact absurd h (by simp)
  · exact absurd h (by simp)
  · exact absurd h (by simp)
  · exact ⟨a, b, c, rfl⟩
  · exact absurd h (by simp)

theorem NoConflictKey_elim (st : State) (excl : Option (List ResourceRef))
    (key k1 k2 k3 : String) (hsp : split key = [k1, k2, k3])
    (h : NoConflictKey st excl key) :
    (k1 = ("deployment") → ∃ d ∈ st.deployments, d.ns = k2 ∧ d.name = k3 ∧
       (d ∈ selDeps st excl → 0 < d.replicas)) ∧
    (k1 = ("statefulset") → ∃ d ∈ st.statefulsets, d.ns = k2 ∧ d.name = k3 ∧
       (d ∈ selSts st excl → 0 < d.replicas)) := by
  unfold NoConflictKey at h
  rw [hsp] at h
  exact h

/-! ### Lookup after a scale_down pass -/

theorem findWorkload_zeroSel (sel : List Workload) (ws : List Workload)
    (ns name : String) :
    findWorkload ns name (zeroSel sel ws) =
      (findWorkload ns name ws).map
        (fun w => if matchedPos sel w then { w with replicas := 0 } else w) := by
  unfold findWorkload zeroSel
  rw [find?_map_pred]
  intro w
  by_cases hm : matchedPos sel w <;> simp [hm]

theorem findWorkload_isSome_zeroSel (sel : List Workload) (ws : List Workload)
    (ns name : String) :
    (findWorkload ns name (zeroSel sel ws)).isSome =
      (findWorkload ns name ws).isSome := by
  rw [findWorkload_zeroSel]
  cases findWorkload ns name ws <;> rfl

theorem findWorkload_isSome_iff (ws : List Workload) (ns name : String) :
    (findWorkload ns name ws).isSome ↔ ∃ w ∈ ws, w.ns = ns ∧ w.name = name := by
  unfold findWorkload
  rw [List.find?_isSome]
  simp

theorem matchedPos_of_mem (sel : List Workload) (d : Workload) (hd : d ∈ sel)
    (hp : 0 < d.replicas) : matchedPos sel d :=
  ⟨d, hd, ⟨rfl, rfl⟩, hp⟩

theorem not_matchedPos_of_zero (sel : List Workload) (d : Workload)
    (hnd : (sel.map wid).Nodup) (hd : d ∈ sel) (hz : ¬ 0 < d.replicas) :
    ¬ matchedPos sel d := by
  rintro ⟨e, he, ⟨hens, hename⟩, hepos⟩
  have : e = d := by
    refine List.inj_on_of_nodup_map hnd he hd ?_
    simp [wid, hens, hename]
  rw [this] at hepos
  exact hz hepos

theorem selDeps_wid_nodup (st : State) (excl : Option (List ResourceRef))
    (h : (st.deployments.map wid).Nodup) : ((selDeps st excl).map wid).Nodup := by
  refine h.sublist (List.Sublist.map wid ?_)
  unfold selDeps
  rw [filter_excluded_k8s_eq]
  exact List.filter_sublist _

theorem selSts_wid_nodup (st : State) (excl : Option (List ResourceRef))
    (h : (st.statefulsets.map wid).Nodup) : ((selSts st excl).map wid).Nodup := by
  refine h.sublist (List.Sublist.map wid ?_)
  unfold selSts
  rw [filter_excluded_k8s_eq]
  exact List.filter_sublist _

/-- Complete characterization of the workload reads after a successful
scale_up run: provided every stored workload key is live (no uncaught
ValueError or 404) and every stored fleet key names a live group (no
uncaught ClientError), the run succeeds and each workload ends with the
last stored replica count whose key names it, all other workloads
unchanged. -/
theorem scale_up_reads (st0 : State) (tr0 : List Action)
    (hlive : ∀ p ∈ (st0.k8sParam.getD []), KeyLive st0 p.1)
    (hliveA : ∀ p ∈ (st0.asgParam.getD []), (findAsg p.1 st0.asgs).isSome) :
    ∃ s' : Sys, scale_up ⟨st0, tr0⟩ = Except.ok s' ∧
      (∀ nsq nameq, read_namespaced_deployment nameq nsq s'.st =
        match lastVal ("deployment") nsq nameq (st0.k8sParam.getD []) with
        | some v => (read_namespaced_deployment nameq nsq st0).map
            (fun w => { w with replicas := v })
        | none => read_namespaced_deployment nameq nsq st0) ∧
      (∀ nsq nameq, read_namespaced_stateful_set nameq nsq s'.st =
        match lastVal ("statefulset") nsq nameq (st0.k8sParam.getD []) with
        | some v => (read_namespaced_stateful_set nameq nsq st0).map
            (fun w => { w with replicas := v })
        | none => read_namespaced_stateful_set nameq nsq st0) := by
  obtain ⟨D0, S0, C0, A0, K0, P0⟩ := st0
  rcases P0 with _ | adata
  · rcases K0 with _ | kdata
    · refine ⟨C0.foldl scale_up_cron_step ⟨⟨D0, S0, C0, A0, none, none⟩, tr0⟩,
        rfl, ?_, ?_⟩
      · intro nsq nameq
        rw [cron_fold_up]
        rfl
      · intro nsq nameq
        rw [cron_fold_up]
        rfl
    · have hl : ∀ p ∈ kdata,
          KeyLive (⟨⟨D0, S0, C0, A0, some kdata, none⟩, tr0⟩ : Sys).st p.1 :=
        fun p hp => hlive p hp
      obtain ⟨s2, hs2⟩ := restore_k8s_ok kdata ⟨⟨D0, S0, C0, A0, some kdata, none⟩, tr0⟩ hl
      have hred : scale_up ⟨⟨D0, S0, C0, A0, some kdata, none⟩, tr0⟩ =
          match restore_k8s ⟨⟨D0, S0, C0, A0, some kdata, none⟩, tr0⟩ kdata with
          | Except.error e => Except.error e
          | Except.ok s2 => Except.ok (s2.st.cronjobs.foldl scale_up_cron_step s2) := rfl
      refine ⟨s2.st.cronjobs.foldl scale_up_cron_step s2, ?_, ?_, ?_⟩
      · rw [hred, hs2]
      · intro nsq nameq
        have hrd := restore_k8s_dep kdata _ s2 hs2 nsq nameq
        rw [cron_fold_up]
        exact hrd
      · intro nsq nameq
        have hrs := restore_k8s_sts kdata _ s2 hs2 nsq nameq
        rw [cron_fold_up]
        exact hrs
  · have hliveA' : ∀ p ∈ adata, (findAsg p.1 A0).isSome := fun p hp => hliveA p hp
    have hok := restore_asgs_ok adata ⟨⟨D0, S0, C0, A0, K0, some adata⟩, tr0⟩
      (fun p hp => hliveA' p hp)
    have hred0 : scale_up ⟨⟨D0, S0, C0, A0, K0, some adata⟩, tr0⟩ =
        match restore_asgs ⟨⟨D0, S0, C0, A0, K0, some adata⟩, tr0⟩ adata with
        | Except.error e => Except.error e
        | Except.ok s1 =>
          match (match s1.st.k8sParam with
            | none => Except.ok s1
            | some data => restore_k8s s1 data) with
          | Except.error e => Except.error e
          | Except.ok s2 => Except.ok (s2.st.cronjobs.foldl scale_up_cron_step s2) :=
      rfl
    have hscale : scale_up ⟨⟨D0, S0, C0, A0, K0, some adata⟩, tr0⟩ =
        match (match (⟨⟨D0, S0, C0, applyAsgUpdates adata A0, K0, some adata⟩,
            tr0 ++ adata.map (fun p : String × AsgCapacity =>
              Action.updateAsg p.1 p.2)⟩ : Sys).st.k8sParam with
          | none => Except.ok (⟨⟨D0, S0, C0, applyAsgUpdates adata A0, K0,
              some adata⟩, tr0 ++ adata.map (fun p : String × AsgCapacity =>
                Action.updateAsg p.1 p.2)⟩ : Sys)
          | some data => restore_k8s (⟨⟨D0, S0, C0, applyAsgUpdates adata A0, K0,
              some adata⟩, tr0 ++ adata.map (fun p : String × AsgCapacity =>
                Action.updateAsg p.1 p.2)⟩ : Sys) data) with
        | Except.error e => Except.error e
        | Except.ok s2 => Except.ok (s2.st.cronjobs.foldl scale_up_cron_step s2) := by
      rw [hred0, hok]
    rw [hscale]
    rcases K0 with _ | kdata
    · refine ⟨C0.foldl scale_up_cron_step
        ⟨⟨D0, S0, C0, applyAsgUpdates adata A0, none, some adata⟩,
          tr0 ++ adata.map (fun p => Action.updateAsg p.1 p.2)⟩, rfl, ?_, ?_⟩
      · intro nsq nameq
        rw [cron_fold_up]
        rfl
      · intro nsq nameq
        rw [cron_fold_up]
        rfl
    · have hl : ∀ p ∈ kdata,
          KeyLive (⟨⟨D0, S0, C0, applyAsgUpdates adata A0, some kdata, some adata⟩,
            tr0 ++ adata.map (fun p => Action.updateAsg p.1 p.2)⟩ : Sys).st p.1 :=
        fun p hp => hlive p hp
      obtain ⟨s2, hs2⟩ := restore_k8s_ok kdata _ hl
      refine ⟨s2.st.cronjobs.foldl scale_up_cron_step s2, ?_, ?_, ?_⟩
      · show (match restore_k8s ⟨⟨D0, S0, C0, applyAsgUpdates adata A0, some kdata,
            some adata⟩, tr0 ++ adata.map (fun p => Action.updateAsg p.1 p.2)⟩ kdata with
          | Except.error e => Except.error e
          | Except.ok s2 => Except.ok (s2.st.cronjobs.foldl scale_up_cron_step s2))
            = _
        rw [hs2]
      · intro nsq nameq
        have hrd := restore_k8s_dep kdata _ s2 hs2 nsq nameq
        rw [cron_fold_up]
        exact hrd
      · intro nsq nameq
        have hrs := restore_k8s_sts kdata _ s2 hs2 nsq nameq
        rw [cron_fold_up]
        exact hrs

theorem mem_keys_capturedK8s (st : State) (excl : Option (List ResourceRef))
    (k : String) :
    k ∈ keys (capturedK8s st excl) ↔
      (∃ w ∈ selDeps st excl, 0 < w.replicas ∧ k = wkey ("deployment") w.ns w.name) ∨
      (∃ w ∈ selSts st excl, 0 < w.replicas ∧ k = wkey ("statefulset") w.ns w.name) := by
  unfold capturedK8s
  rw [stsCapture_eq_kind, depCapture_eq_kind, mem_keys_kindCapture,
    mem_keys_kindCapture]
  constructor
  · rintro ((h | h) | h)
    · simp [keys] at h
    · exact Or.inl h
    · exact Or.inr h
  · rintro (h | h)
    · exact Or.inl (Or.inr h)
    · exact Or.inr h

theorem wkey_dep_ne_sts (a b c d : String) (ha : noSlash a) (hb : noSlash b)
    (hc : noSlash c) (hd : noSlash d) :
    wkey ("deployment") a b ≠ wkey ("statefulset") c d := by
  intro he
  have h1 := split_wkey ("deployment") a b noSlash_dep ha hb
  have h2 := split_wkey ("statefulset") c d noSlash_sts hc hd
  rw [he, h2] at h1
  simp at h1

theorem wkey_inj (kind a b c d : String) (hk : noSlash kind) (ha : noSlash a)
    (hb : noSlash b) (hc : noSlash c) (hd : noSlash d)
    (h : wkey kind a b = wkey kind c d) : a = c ∧ b = d := by
  have h1 := split_wkey kind a b hk ha hb
  have h2 := split_wkey kind c d hk hc hd
  rw [h, h2] at h1
  exact ⟨by simp at h1; rw [h1.1], by simp at h1; rw [h1.2]⟩

theorem getKey_capturedK8s_dep (st : State) (excl : Option (List ResourceRef))
    (hndD : (st.deployments.map wid).Nodup)
    (hslD : ∀ d ∈ st.deployments, noSlash d.ns ∧ noSlash d.name)
    (hslS : ∀ d ∈ st.statefulsets, noSlash d.ns ∧ noSlash d.name)
    (d : Workload) (hd : d ∈ selDeps st excl) (hpos : 0 < d.replicas) :
    getKey (capturedK8s st excl) (wkey ("deployment") d.ns d.name)
      = some d.replicas := by
  unfold capturedK8s
  rw [stsCapture_eq_kind, depCapture_eq_kind]
  rw [getKey_kindCapture_of_ne]
  · exact getKey_kindCapture_self ("deployment") _ [] noSlash_dep
      (fun u hu => hslD u (mem_selDeps st excl u hu))
      (selDeps_wid_nodup st excl hndD) d hd hpos
  · intro w hw hp hc
    have hws := hslS w (mem_selSts st excl w hw)
    have hds := hslD d (mem_selDeps st excl d hd)
    exact wkey_dep_ne_sts d.ns d.name w.ns w.name hds.1 hds.2 hws.1 hws.2 hc.symm

theorem getKey_capturedK8s_sts (st : State) (excl : Option (List ResourceRef))
    (hndS : (st.statefulsets.map wid).Nodup)
    (hslS : ∀ d ∈ st.statefulsets, noSlash d.ns ∧ noSlash d.name)
    (d : Workload) (hd : d ∈ selSts st excl) (hpos : 0 < d.replicas) :
    getKey (capturedK8s st excl) (wkey ("statefulset") d.ns d.name)
      = some d.replicas := by
  unfold capturedK8s
  rw [stsCapture_eq_kind]
  exact getKey_kindCapture_self ("statefulset") _ _ noSlash_sts
    (fun u hu => hslS u (mem_selSts st excl u hu))
    (selSts_wid_nodup st excl hndS) d hd hpos

/-! ### Lemmas for idempotence of scale_down -/

theorem zeroAsgs_names (names : List String) (asgs : List Asg) :
    (zeroAsgs names asgs).map Asg.name = asgs.map Asg.name := by
  unfold zeroAsgs
  rw [List.map_map]
  refine List.map_congr_left ?_
  intro a _
  by_cases hm : a.name ∈ names ∧ asgNonzero a.capacity <;> simp [hm]

theorem zeroSel_of_no_pos (sel : List Workload) (ws : List Workload)
    (h : ∀ u ∈ sel, ¬ 0 < u.replicas) : zeroSel sel ws = ws := by
  unfold zeroSel
  have hpt : ∀ w ∈ ws, (if matchedPos sel w then { w with replicas := 0 } else w) = w := by
    intro w _
    rw [if_neg]
    rintro ⟨e, he, _, hepos⟩
    exact h e he hepos
  rw [List.map_congr_left hpt]
  simp

theorem suspendSel_invariant (b : Bool) (sel : List CronJob) (cs : List CronJob)
    (h : ∀ c ∈ cs, matchedCron sel c → c.suspend = b) :
    suspendSel b sel cs = cs := by
  unfold suspendSel
  have hpt : ∀ c ∈ cs, (if matchedCron sel c then { c with suspend := b } else c) = c := by
    intro c hc
    by_cases hm : matchedCron sel c
    · rw [if_pos hm]
      have hs := h c hc hm
      cases c with
      | mk ns name susp =>
        have hs' : susp = b := hs
        subst hs'
        rfl
    · rw [if_neg hm]
  rw [List.map_congr_left hpt]
  simp

theorem zeroAsgs_idem (names : List String) (asgs : List Asg) :
    zeroAsgs names (zeroAsgs names asgs) = zeroAsgs names asgs := by
  unfold zeroAsgs
  rw [List.map_map]
  refine List.map_congr_left ?_
  intro a _
  by_cases hm : a.name ∈ names ∧ asgNonzero a.capacity
  · simp only [Function.comp_apply, if_pos hm]
    rw [if_neg (fun hc => asgNonzero_zero hc.2)]
  · simp only [Function.comp_apply, if_neg hm]
    try rw [if_neg hm]

theorem asgCapture_cons (n : String) (names : List String) (asgs : List Asg)
    (data : Obj AsgCapacity) :
    asgCapture (n :: names) asgs data =
      asgCapture names asgs
        (match findAsg n asgs with
         | none => data
         | some a =>
           if asgNonzero a.capacity then setKey data n a.capacity else data) := rfl

theorem asgCapture_of_all_zero (names : List String) (asgs : List Asg)
    (data : Obj AsgCapacity)
    (h : ∀ n ∈ names, ∀ a, findAsg n asgs = some a → ¬ asgNonzero a.capacity) :
    asgCapture names asgs data = data := by
  induction names generalizing data with
  | nil => rfl
  | cons n names ih =>
    have htail := fun d => ih d (fun m hm => h m (List.mem_cons.mpr (Or.inr hm)))
    have hstep : (match findAsg n asgs with
        | none => data
        | some a =>
          if asgNonzero a.capacity then setKey data n a.capacity else data) = data := by
      cases hf : findAsg n asgs with
      | none => rfl
      | some a => exact if_neg (h n (List.mem_cons_self n names) a hf)
    rw [asgCapture_cons, hstep]
    exact htail data

theorem findAsg_zeroAsgs (n : String) (names : List String) (asgs : List Asg) :
    findAsg n (zeroAsgs names asgs) =
      (findAsg n asgs).map (fun a =>
        if a.name ∈ names ∧ asgNonzero a.capacity then { a with capacity := ⟨0, 0, 0⟩ }
        else a) := by
  unfold findAsg zeroAsgs
  rw [find?_map_pred]
  intro a
  by_cases hm : a.name ∈ names ∧ asgNonzero a.capacity <;> simp [hm]

theorem mem_filter_zeroSel (kind : String) (excl : Option (List ResourceRef))
    (ws : List Workload) (w' : Workload)
    (h : w' ∈ filter_excluded_k8s_resources Workload.ns Workload.name kind
      (zeroSel (filter_excluded_k8s_resources Workload.ns Workload.name kind ws excl)
        ws) excl) :
    ¬ 0 < w'.replicas := by
  rw [filter_excluded_k8s_eq] at h
  have hmem := List.mem_of_mem_filter h
  have hkeep := List.of_mem_filter h
  obtain ⟨w, hw, hweq⟩ := List.mem_map.mp hmem
  by_cases hm : matchedPos
      (filter_excluded_k8s_resources Workload.ns Workload.name kind ws excl) w
  · rw [if_pos hm] at hweq
    rw [← hweq]
    simp
  · rw [if_neg hm] at hweq
    rw [← hweq]
    intro hpos
    refine hm ⟨w, ?_, ⟨rfl, rfl⟩, hpos⟩
    rw [filter_excluded_k8s_eq]
    refine List.mem_filter.mpr ⟨hw, ?_⟩
    rw [hweq]
    exact hkeep

theorem matchedCron_suspendSel (excl : Option (List ResourceRef))
    (cs : List CronJob) (c' : CronJob)
    (hc' : c' ∈ suspendSel true
      (filter_excluded_k8s_resources CronJob.ns CronJob.name ("CronJob") cs excl) cs)
    (hm : matchedCron (filter_excluded_k8s_resources CronJob.ns CronJob.name
      ("CronJob") (suspendSel true (filter_excluded_k8s_resources CronJob.ns
        CronJob.name ("CronJob") cs excl) cs) excl) c') :
    c'.suspend = true := by
  obtain ⟨c0, hc0, hc0eq⟩ := List.mem_map.mp hc'
  obtain ⟨e, he, hens, hename⟩ := hm
  rw [filter_excluded_k8s_eq] at he
  have hemem := List.mem_of_mem_filter he
  have hekeep := List.of_mem_filter he
  obtain ⟨e0, he0, he0eq⟩ := List.mem_map.mp hemem
  have hid0 : e0.ns = e.ns ∧ e0.name = e.name := by
    by_cases hme : matchedCron (filter_excluded_k8s_resources CronJob.ns CronJob.name
        ("CronJob") cs excl) e0 <;> rw [← he0eq] <;> simp [hme]
  have hmc0 : matchedCron (filter_excluded_k8s_resources CronJob.ns CronJob.name
      ("CronJob") cs excl) c0 := by
    refine ⟨e0, ?_, ?_, ?_⟩
    · rw [filter_excluded_k8s_eq]
      refine List.mem_filter.mpr ⟨he0, ?_⟩
      have : (CronJob.ns e0, CronJob.name e0) = (CronJob.ns e, CronJob.name e) := by
        simp [hid0.1, hid0.2]
      simp only [CronJob.ns, CronJob.name] at this
      have h1 : e0.ns = e.ns := hid0.1
      have h2 : e0.name = e.name := hid0.2
      rw [filter_excluded_k8s_eq] at he
      have := List.of_mem_filter he
      simpa [h1, h2] using this
    · have hcid : c0.ns = c'.ns := by
        by_cases hmc : matchedCron (filter_excluded_k8s_resources CronJob.ns
            CronJob.name ("CronJob") cs excl) c0 <;> rw [← hc0eq] <;> simp [hmc]
      rw [hid0.1, hens, ← hcid]
    · have hcid : c0.name = c'.name := by
        by_cases hmc : matchedCron (filter_excluded_k8s_resources CronJob.ns
            CronJob.name ("CronJob") cs excl) c0 <;> rw [← hc0eq] <;> simp [hmc]
      rw [hid0.2, hename, ← hcid]
  rw [← hc0eq, if_pos hmc0]

/-! ### Dissection of a successful scale_up run -/

theorem suspendSel_self_all (b : Bool) (cs : List CronJob) :
    ∀ c ∈ suspendSel b cs cs, c.suspend = b := by
  intro c hc
  obtain ⟨c0, hc0, hc0eq⟩ := List.mem_map.mp hc
  rw [← hc0eq, if_pos ⟨c0, hc0, rfl, rfl⟩]

theorem scale_up_ok_dissect (st0 : State) (tr0 : List Action) (s' : Sys)
    (h : scale_up ⟨st0, tr0⟩ = Except.ok s') :
    ∃ s2 : Sys, s' = s2.st.cronjobs.foldl scale_up_cron_step s2 ∧
      s2.st.cronjobs = st0.cronjobs ∧
      s2.st.k8sParam = st0.k8sParam ∧ s2.st.asgParam = st0.asgParam ∧
      (∀ a ∈ s2.tr, a ∈ tr0 ∨ ¬ isStorePut a) := by
  obtain ⟨D0, S0, C0, A0, K0, P0⟩ := st0
  rcases P0 with _ | adata
  · rcases K0 with _ | kdata
    · have h' : (Except.ok (C0.foldl scale_up_cron_step
          ⟨⟨D0, S0, C0, A0, none, none⟩, tr0⟩) : Except String Sys)
            = Except.ok s' := h
      injection h' with h''
      exact ⟨⟨⟨D0, S0, C0, A0, none, none⟩, tr0⟩, h''.symm, rfl, rfl, rfl,
        fun a ha => Or.inl ha⟩
    · have hred : scale_up ⟨⟨D0, S0, C0, A0, some kdata, none⟩, tr0⟩ =
          match restore_k8s ⟨⟨D0, S0, C0, A0, some kdata, none⟩, tr0⟩ kdata with
          | Except.error e => Except.error e
          | Except.ok s2 => Except.ok (s2.st.cronjobs.foldl scale_up_cron_step s2) :=
        rfl
      rw [hred] at h
      cases hE : restore_k8s ⟨⟨D0, S0, C0, A0, some kdata, none⟩, tr0⟩ kdata with
      | error e => rw [hE] at h; exact absurd h (by simp)
      | ok s2 =>
        rw [hE] at h
        have h' : (Except.ok (s2.st.cronjobs.foldl scale_up_cron_step s2)
            : Except String Sys) = Except.ok s' := h
        injection h' with h''
        obtain ⟨hc, _, hk, hp, htr⟩ := restore_k8s_frames kdata _ s2 hE
        exact ⟨s2, h''.symm, hc, hk, hp, fun a ha => htr a ha⟩
  · have h2 : (match restore_asgs ⟨⟨D0, S0, C0, A0, K0, some adata⟩, tr0⟩
          adata with
        | Except.error e => Except.error e
        | Except.ok s1 =>
          match (match s1.st.k8sParam with
            | none => Except.ok s1
            | some data => restore_k8s s1 data) with
          | Except.error e => Except.error e
          | Except.ok s2 => Except.ok (s2.st.cronjobs.foldl scale_up_cron_step s2))
        = Except.ok s' := h
    cases hR : restore_asgs ⟨⟨D0, S0, C0, A0, K0, some adata⟩, tr0⟩ adata with
    | error e => rw [hR] at h2; exact absurd h2 (by simp)
    | ok s1 =>
      rw [hR] at h2
      have h2' : (match (match s1.st.k8sParam with
          | none => Except.ok s1
          | some data => restore_k8s s1 data) with
        | Except.error e => Except.error e
        | Except.ok s2 => Except.ok (s2.st.cronjobs.foldl scale_up_cron_step s2))
          = Except.ok s' := h2
      obtain ⟨g1, g2, g3, g4, g5, g6⟩ := restore_asgs_frames adata _ s1 hR
      have g6' : ∀ a ∈ s1.tr, a ∈ tr0 ∨ ¬ isStorePut a := g6
      cases hK1 : s1.st.k8sParam with
      | none =>
        rw [hK1] at h2'
        have h3 : (Except.ok (s1.st.cronjobs.foldl scale_up_cron_step s1)
            : Except String Sys) = Except.ok s' := h2'
        injection h3 with h4
        exact ⟨s1, h4.symm, g3, g4, g5, g6'⟩
      | some kdata =>
        rw [hK1] at h2'
        have h2i : (match restore_k8s s1 kdata with
          | Except.error e => Except.error e
          | Except.ok s2 => Except.ok (s2.st.cronjobs.foldl scale_up_cron_step s2))
            = Except.ok s' := h2'
        cases hE : restore_k8s s1 kdata with
        | error e => rw [hE] at h2i; exact absurd h2i (by simp)
        | ok s2 =>
          rw [hE] at h2i
          have h3 : (Except.ok (s2.st.cronjobs.foldl scale_up_cron_step s2)
              : Except String Sys) = Except.ok s' := h2i
          injection h3 with h4
          obtain ⟨hc, _, hk, hp, htr2⟩ := restore_k8s_frames kdata s1 s2 hE
          refine ⟨s2, h4.symm, hc.trans g3, hk.trans g4, hp.trans g5,
            fun a ha => ?_⟩
          rcases htr2 a ha with h5 | h5
          · exact g6' a h5
          · exact Or.inr h5

/-! ### Lookup and trace facts for the captured ASG records -/

theorem asgCapture_cons_none (n : String) (names : List String) (asgs : List Asg)
    (data : Obj AsgCapacity) (hf : findAsg n asgs = none) :
    asgCapture (n :: names) asgs data = asgCapture names asgs data := by
  rw [asgCapture_cons, hf]

theorem asgCapture_cons_pos (n : String) (names : List String) (asgs : List Asg)
    (data : Obj AsgCapacity) (a : Asg) (hf : findAsg n asgs = some a)
    (hz : asgNonzero a.capacity) :
    asgCapture (n :: names) asgs data =
      asgCapture names asgs (setKey data n a.capacity) := by
  rw [asgCapture_cons, hf]
  show asgCapture names asgs
    (if asgNonzero a.capacity then setKey data n a.capacity else data) = _
  rw [if_pos hz]

theorem asgCapture_cons_zero (n : String) (names : List String) (asgs : List Asg)
    (data : Obj AsgCapacity) (a : Asg) (hf : findAsg n asgs = some a)
    (hz : ¬ asgNonzero a.capacity) :
    asgCapture (n :: names) asgs data = asgCapture names asgs data := by
  rw [asgCapture_cons, hf]
  show asgCapture names asgs
    (if asgNonzero a.capacity then setKey data n a.capacity else data) = _
  rw [if_neg hz]

theorem asgTrace_cons_none (n : String) (names : List String) (asgs : List Asg)
    (hf : findAsg n asgs = none) :
    asgTrace (n :: names) asgs = asgTrace names asgs := by
  simp only [asgTrace, List.filterMap_cons, hf]

theorem asgTrace_cons_pos (n : String) (names : List String) (asgs : List Asg)
    (a : Asg) (hf : findAsg n asgs = some a) (hz : asgNonzero a.capacity) :
    asgTrace (n :: names) asgs =
      Action.updateAsg n ⟨0, 0, 0⟩ :: asgTrace names asgs := by
  simp only [asgTrace, List.filterMap_cons, hf, if_pos hz]

theorem asgTrace_cons_zero (n : String) (names : List String) (asgs : List Asg)
    (a : Asg) (hf : findAsg n asgs = some a) (hz : ¬ asgNonzero a.capacity) :
    asgTrace (n :: names) asgs = asgTrace names asgs := by
  simp only [asgTrace, List.filterMap_cons, hf, if_neg hz]

theorem getKey_asgCapture_of_ne (names : List String) (asgs : List Asg)
    (data : Obj AsgCapacity) (k : String) (h : ∀ n ∈ names, n ≠ k) :
    getKey (asgCapture names asgs data) k = getKey data k := by
  induction names generalizing data with
  | nil => rfl
  | cons n names ih =>
    have htail := fun d => ih d (fun m hm => h m (List.mem_cons.mpr (Or.inr hm)))
    have hnk : k ≠ n := fun hc => h n (List.mem_cons_self n names) hc.symm
    cases hf : findAsg n asgs with
    | none => rw [asgCapture_cons_none n names asgs data hf, htail data]
    | some a =>
      by_cases hz : asgNonzero a.capacity
      · rw [asgCapture_cons_pos n names asgs data a hf hz, htail _,
          getKey_setKey, if_neg hnk]
      · rw [asgCapture_cons_zero n names asgs data a hf hz, htail data]

theorem getKey_asgCapture_self (names : List String) (asgs : List Asg)
    (data : Obj AsgCapacity) (hN : names.Nodup)
    (hA : (asgs.map Asg.name).Nodup) (a : Asg) (ha : a ∈ asgs)
    (hmem : a.name ∈ names) (hz : asgNonzero a.capacity) :
    getKey (asgCapture names asgs data) a.name = some a.capacity := by
  induction names generalizing data with
  | nil => simp at hmem
  | cons n names ih =>
    by_cases hn : n = a.name
    · subst hn
      rw [asgCapture_cons_pos a.name names asgs data a
        (findAsg_eq_of_mem asgs a hA ha) hz]
      rw [getKey_asgCapture_of_ne names asgs _ a.name
        (fun m hm hc => (List.nodup_cons.mp hN).1 (hc ▸ hm))]
      rw [getKey_setKey, if_pos rfl]
    · have hmem' : a.name ∈ names := by
        rcases List.mem_cons.mp hmem with hc | hc
        · exact absurd hc.symm hn
        · exact hc
      cases hf : findAsg n asgs with
      | none =>
        rw [asgCapture_cons_none n names asgs data hf]
        exact ih _ (List.nodup_cons.mp hN).2 hmem'
      | some b =>
        by_cases hbz : asgNonzero b.capacity
        · rw [asgCapture_cons_pos n names asgs data b hf hbz]
          exact ih _ (List.nodup_cons.mp hN).2 hmem'
        · rw [asgCapture_cons_zero n names asgs data b hf hbz]
          exact ih _ (List.nodup_cons.mp hN).2 hmem'

theorem getKey_asgCapture_zero (names : List String) (asgs : List Asg)
    (data : Obj AsgCapacity) (hA : (asgs.map Asg.name).Nodup) (a : Asg)
    (ha : a ∈ asgs) (hz : ¬ asgNonzero a.capacity) :
    getKey (asgCapture names asgs data) a.name = getKey data a.name := by
  induction names generalizing data with
  | nil => rfl
  | cons n names ih =>
    by_cases hn : n = a.name
    · subst hn
      rw [asgCapture_cons_zero a.name names asgs data a
        (findAsg_eq_of_mem asgs a hA ha) hz]
      exact ih _
    · cases hf : findAsg n asgs with
      | none =>
        rw [asgCapture_cons_none n names asgs data hf]
        exact ih _
      | some b =>
        by_cases hbz : asgNonzero b.capacity
        · rw [asgCapture_cons_pos n names asgs data b hf hbz, ih _,
            getKey_setKey, if_neg (fun hc : a.name = n => hn hc.symm)]
        · rw [asgCapture_cons_zero n names asgs data b hf hbz]
          exact ih _

theorem nodup_keys_asgCapture (names : List String) (asgs : List Asg)
    (data : Obj AsgCapacity) (h : (keys data).Nodup) :
    (keys (asgCapture names asgs data)).Nodup := by
  induction names generalizing data with
  | nil => exact h
  | cons n names ih =>
    cases hf : findAsg n asgs with
    | none =>
      rw [asgCapture_cons_none n names asgs data hf]
      exact ih _ h
    | some a =>
      by_cases hz : asgNonzero a.capacity
      · rw [asgCapture_cons_pos n names asgs data a hf hz]
        exact ih _ (nodup_keys_setKey data _ _ h)
      · rw [asgCapture_cons_zero n names asgs data a hf hz]
        exact ih _ h

theorem mem_asgTrace_self (names : List String) (asgs : List Asg)
    (hA : (asgs.map Asg.name).Nodup) (a : Asg) (ha : a ∈ asgs)
    (hmem : a.name ∈ names) (hz : asgNonzero a.capacity) :
    Action.updateAsg a.name ⟨0, 0, 0⟩ ∈ asgTrace names asgs := by
  induction names with
  | nil => simp at hmem
  | cons n names ih =>
    by_cases hn : n = a.name
    · subst hn
      rw [asgTrace_cons_pos a.name names asgs a
        (findAsg_eq_of_mem asgs a hA ha) hz]
      exact List.mem_cons_self _ _
    · have hmem' : a.name ∈ names := by
        rcases List.mem_cons.mp hmem with hc | hc
        · exact absurd hc.symm hn
        · exact hc
      cases hf : findAsg n asgs with
      | none =>
        rw [asgTrace_cons_none n names asgs hf]
        exact ih hmem'
      | some b =>
        by_cases hbz : asgNonzero b.capacity
        · rw [asgTrace_cons_pos n names asgs b hf hbz]
          exact List.mem_cons.mpr (Or.inr (ih hmem'))
        · rw [asgTrace_cons_zero n names asgs b hf hbz]
          exact ih hmem'

theorem not_mem_asgTrace_zero (names : List String) (asgs : List Asg)
    (hA : (asgs.map Asg.name).Nodup) (a : Asg) (ha : a ∈ asgs)
    (hz : ¬ asgNonzero a.capacity) (cap : AsgCapacity) :
    Action.updateAsg a.name cap ∉ asgTrace names asgs := by
  induction names with
  | nil => simp [asgTrace]
  | cons n names ih =>
    cases hf : findAsg n asgs with
    | none =>
      rw [asgTrace_cons_none n names asgs hf]
      exact ih
    | some b =>
      by_cases hbz : asgNonzero b.capacity
      · rw [asgTrace_cons_pos n names asgs b hf hbz]
        intro hmemc
        rcases List.mem_cons.mp hmemc with hc | hc
        · injection hc with hname hcap
          have hfa : findAsg n asgs = some a := by
            rw [← hname]
            exact findAsg_eq_of_mem asgs a hA ha
          rw [hf] at hfa
          injection hfa with hba
          exact hz (hba ▸ hbz)
        · exact ih hc
      · rw [asgTrace_cons_zero n names asgs b hf hbz]
        exact ih

theorem mem_keys_asgCapture (names : List String) (asgs : List Asg)
    (data : Obj AsgCapacity) (k : String)
    (h : k ∈ keys (asgCapture names asgs data)) : k ∈ keys data ∨ k ∈ names := by
  induction names generalizing data with
  | nil => exact Or.inl h
  | cons n names ih =>
    cases hf : findAsg n asgs with
    | none =>
      rw [asgCapture_cons_none n names asgs data hf] at h
      rcases ih data h with h1 | h1
      · exact Or.inl h1
      · exact Or.inr (List.mem_cons.mpr (Or.inr h1))
    | some a =>
      by_cases hz : asgNonzero a.capacity
      · rw [asgCapture_cons_pos n names asgs data a hf hz] at h
        rcases ih _ h with h1 | h1
        · rcases (mem_keys_setKey data n a.capacity k).mp h1 with h2 | h2
          · exact Or.inl h2
          · exact Or.inr (List.mem_cons.mpr (Or.inl h2))
        · exact Or.inr (List.mem_cons.mpr (Or.inr h1))
      · rw [asgCapture_cons_zero n names asgs data a hf hz] at h
        rcases ih data h with h1 | h1
        · exact Or.inl h1
        · exact Or.inr (List.mem_cons.mpr (Or.inr h1))

theorem mem_selAsgNames (st : State) (excl : Option (List String)) (n : String)
    (h : n ∈ selAsgNames st excl) : n ∈ st.asgs.map Asg.name := by
  unfold selAsgNames at h
  rw [filter_excluded_asgs_eq] at h
  exact List.mem_of_mem_filter h

/-! ### Claim theorems -/

/-- C2 (amended): for every workload set W (all Deployments/StatefulSets
visible minus the exclusion lists) with live replica counts R, scale-down
followed by scale-up restores each workload of W exactly to its entry in R.
The model is sequential, so no other actor can interleave; the explicit
preconditions are platform well-formedness, that the pre-existing stored
workload blob holds no conflicting keys (`NoConflictKey`: every prior key
parses, still names a live workload, and does not name a selected workload
whose live count is zero), and — the amendment — that every key of the
pre-existing stored fleet blob still names a live group: a stale name makes
the ASG restore pass of scale-up raise an uncaught `ClientError` before any
workload is restored, which the counterexample exhibits. -/
theorem scale_down_scale_up_round_trip
    (st : State) (k8s_excl : Option (List ResourceRef))
    (asg_excl : Option (List String))
    (hwf : WellFormedState st)
    (hcf : ∀ p ∈ (st.k8sParam.getD []), NoConflictKey st k8s_excl p.1)
    (hliveA : ∀ p ∈ (st.asgParam.getD []), (findAsg p.1 st.asgs).isSome) :
    ∃ s' : Sys,
      scale_up ⟨(scale_down k8s_excl asg_excl ⟨st, []⟩).st, []⟩ = Except.ok s' ∧
      (∀ d ∈ selDeps st k8s_excl,
        read_namespaced_deployment d.name d.ns s'.st = some d) ∧
      (∀ d ∈ selSts st k8s_excl,
        read_namespaced_stateful_set d.name d.ns s'.st = some d) := by
  obtain ⟨hndD, hndS, hA, hslD, hslS, hpreK, hpreA⟩ := hwf
  have hdown := scale_down_eq k8s_excl asg_excl ⟨st, []⟩ hA
  rw [hdown]
  try simp only []
  set T0 : State :=
    { deployments := zeroSel (selDeps st k8s_excl) st.deployments,
      statefulsets := zeroSel (selSts st k8s_excl) st.statefulsets,
      cronjobs := suspendSel true (selCrons st k8s_excl) st.cronjobs,
      asgs := zeroAsgs (selAsgNames st asg_excl) st.asgs,
      k8sParam := if capturedK8s st k8s_excl = [] then st.k8sParam
        else some (dictUpdate (st.k8sParam.getD []) (capturedK8s st k8s_excl)),
      asgParam := if capturedAsg st asg_excl = [] then st.asgParam
        else some (dictUpdate (st.asgParam.getD []) (capturedAsg st asg_excl)) }
    with hT0
  have hdepT0 : T0.deployments = zeroSel (selDeps st k8s_excl) st.deployments := rfl
  have hstsT0 : T0.statefulsets = zeroSel (selSts st k8s_excl) st.statefulsets := rfl
  -- every key of the stored blob after scale_down is live on the new state
  have hlive : ∀ p ∈ (T0.k8sParam.getD []), KeyLive T0 p.1 := by
    have hliveKey : ∀ k, k ∈ keys (st.k8sParam.getD []) ∨
        k ∈ keys (capturedK8s st k8s_excl) → KeyLive T0 k := by
      intro k hk
      rcases hk with hk | hk
      · obtain ⟨q, hq, hq1⟩ := List.mem_map.mp hk
        have hnc := hcf q hq
        rw [hq1] at hnc
        obtain ⟨a, b, c, hsp⟩ := NoConflictKey_three st k8s_excl k hnc
        have hel := NoConflictKey_elim st k8s_excl k a b c hsp hnc
        refine KeyLive_of_split T0 k a b c hsp ?_ ?_
        · intro ha
          obtain ⟨d, hdm, h1, h2, _⟩ := hel.1 ha
          show (findWorkload b c T0.deployments).isSome
          rw [hdepT0, findWorkload_isSome_zeroSel]
          exact (findWorkload_isSome_iff st.deployments b c).mpr ⟨d, hdm, h1, h2⟩
        · intro ha
          obtain ⟨d, hdm, h1, h2, _⟩ := hel.2 ha
          show (findWorkload b c T0.statefulsets).isSome
          rw [hstsT0, findWorkload_isSome_zeroSel]
          exact (findWorkload_isSome_iff st.statefulsets b c).mpr ⟨d, hdm, h1, h2⟩
      · rcases (mem_keys_capturedK8s st k8s_excl k).mp hk with
          ⟨w, hw, hp, rfl⟩ | ⟨w, hw, hp, rfl⟩
        · have hws := hslD w (mem_selDeps st k8s_excl w hw)
          refine KeyLive_of_split T0 _ ("deployment") w.ns w.name
            (split_wkey _ _ _ noSlash_dep hws.1 hws.2) ?_ ?_
          · intro _
            show (findWorkload w.ns w.name T0.deployments).isSome
            rw [hdepT0, findWorkload_isSome_zeroSel]
            exact (findWorkload_isSome_iff st.deployments w.ns w.name).mpr
              ⟨w, mem_selDeps st k8s_excl w hw, rfl, rfl⟩
          · intro hcc
            exact absurd hcc (by decide)
        · have hws := hslS w (mem_selSts st k8s_excl w hw)
          refine KeyLive_of_split T0 _ ("statefulset") w.ns w.name
            (split_wkey _ _ _ noSlash_sts hws.1 hws.2) ?_ ?_
          · intro hcc
            exact absurd hcc (by decide)
          · intro _
            show (findWorkload w.ns w.name T0.statefulsets).isSome
            rw [hstsT0, findWorkload_isSome_zeroSel]
            exact (findWorkload_isSome_iff st.statefulsets w.ns w.name).mpr
              ⟨w, mem_selSts st k8s_excl w hw, rfl, rfl⟩
    intro p hp
    by_cases hD : capturedK8s st k8s_excl = []
    · have hKd : T0.k8sParam = st.k8sParam := by
        show (if capturedK8s st k8s_excl = [] then st.k8sParam else _) = _
        rw [if_pos hD]
      rw [hKd] at hp
      exact hliveKey p.1 (Or.inl (List.mem_map.mpr ⟨p, hp, rfl⟩))
    · have hKd : T0.k8sParam =
          some (dictUpdate (st.k8sParam.getD []) (capturedK8s st k8s_excl)) := by
        show (if capturedK8s st k8s_excl = [] then st.k8sParam else _) = _
        rw [if_neg hD]
      rw [hKd] at hp
      have hkk : p.1 ∈ keys (dictUpdate (st.k8sParam.getD [])
          (capturedK8s st k8s_excl)) := List.mem_map.mpr ⟨p, hp, rfl⟩
      exact hliveKey p.1 (mem_keys_dictUpdate _ _ p.1 hkk)
  have hliveA2 : ∀ p ∈ (T0.asgParam.getD []), (findAsg p.1 T0.asgs).isSome := by
    have hbase : ∀ k, k ∈ keys (st.asgParam.getD []) ∨
        k ∈ selAsgNames st asg_excl → (findAsg k st.asgs).isSome := by
      intro k hk
      rcases hk with hk | hk
      · obtain ⟨q, hq, hq1⟩ := List.mem_map.mp hk
        have hl := hliveA q hq
        rw [hq1] at hl
        exact hl
      · exact findAsg_isSome_of_mem_names k st.asgs
          (mem_selAsgNames st asg_excl k hk)
    intro p hp
    have hsome : (findAsg p.1 st.asgs).isSome := by
      by_cases hD : capturedAsg st asg_excl = []
      · have hPd : T0.asgParam = st.asgParam := by
          show (if capturedAsg st asg_excl = [] then st.asgParam else _) = _
          rw [if_pos hD]
        rw [hPd] at hp
        exact hbase p.1 (Or.inl (List.mem_map.mpr ⟨p, hp, rfl⟩))
      · have hPd : T0.asgParam =
            some (dictUpdate (st.asgParam.getD []) (capturedAsg st asg_excl)) := by
          show (if capturedAsg st asg_excl = [] then st.asgParam else _) = _
          rw [if_neg hD]
        rw [hPd] at hp
        have hkk : p.1 ∈ keys (dictUpdate (st.asgParam.getD [])
            (capturedAsg st asg_excl)) := List.mem_map.mpr ⟨p, hp, rfl⟩
        rcases mem_keys_dictUpdate _ _ p.1 hkk with h1 | h1
        · exact hbase p.1 (Or.inl h1)
        · rcases mem_keys_asgCapture (selAsgNames st asg_excl) st.asgs [] p.1 h1
            with h3 | h3
          · exact absurd h3 (by simp [keys])
          · exact hbase p.1 (Or.inr h3)
    show (findAsg p.1 (zeroAsgs (selAsgNames st asg_excl) st.asgs)).isSome
    rw [findAsg_zeroAsgs]
    obtain ⟨b, hb⟩ := Option.isSome_iff_exists.mp hsome
    rw [hb]
    rfl
  obtain ⟨s', hok, hrdF, hrsF⟩ := scale_up_reads T0 [] hlive hliveA2
  refine ⟨s', hok, ?_, ?_⟩
  · intro d hd
    have hmem : d ∈ st.deployments := mem_selDeps st k8s_excl d hd
    have hds := hslD d hmem
    have hread0 : read_namespaced_deployment d.name d.ns T0 =
        some (if matchedPos (selDeps st k8s_excl) d then { d with replicas := 0 }
          else d) := by
      show findWorkload d.ns d.name T0.deployments = _
      rw [hdepT0, findWorkload_zeroSel, findWorkload_eq_of_mem st.deployments d hndD hmem]
      rfl
    rw [hrdF d.ns d.name]
    by_cases hpos : 0 < d.replicas
    · have hkmem : wkey ("deployment") d.ns d.name ∈ keys (capturedK8s st k8s_excl) :=
        (mem_keys_capturedK8s st k8s_excl _).mpr (Or.inl ⟨d, hd, hpos, rfl⟩)
      have hD : ¬ capturedK8s st k8s_excl = [] := by
        intro hc
        rw [hc] at hkmem
        simp [keys] at hkmem
      have hKd : T0.k8sParam.getD [] =
          dictUpdate (st.k8sParam.getD []) (capturedK8s st k8s_excl) := by
        show (if capturedK8s st k8s_excl = [] then st.k8sParam else _).getD [] = _
        rw [if_neg hD]
        rfl
      rw [hKd]
      have hndCap : (keys (capturedK8s st k8s_excl)).Nodup := by
        unfold capturedK8s
        rw [stsCapture_eq_kind, depCapture_eq_kind]
        exact nodup_keys_kindCapture _ _ _
          (nodup_keys_kindCapture _ _ _ (by simp [keys]))
      have hget : getKey (dictUpdate (st.k8sParam.getD []) (capturedK8s st k8s_excl))
          (wkey ("deployment") d.ns d.name) = some d.replicas := by
        rw [getKey_dictUpdate _ _ _ hndCap,
          getKey_capturedK8s_dep st k8s_excl hndD hslD hslS d hd hpos]
        rfl
      have hlv : lastVal ("deployment") d.ns d.name
          (dictUpdate (st.k8sParam.getD []) (capturedK8s st k8s_excl))
            = some d.replicas :=
        lastVal_unique _ _ _ _ (wkey ("deployment") d.ns d.name) d.replicas
          (nodup_keys_dictUpdate _ _ hpreK)
          (mem_of_getKey_eq_some _ _ _ hget)
          (split_wkey _ _ _ noSlash_dep hds.1 hds.2)
          (fun q _ hqs =>
            split_wkey_eq q.1 ("deployment") d.ns d.name noSlash_dep hds.1 hds.2 hqs)
      rw [hlv, hread0, if_pos (matchedPos_of_mem _ d hd hpos)]
      rfl
    · have hnm : ¬ matchedPos (selDeps st k8s_excl) d :=
        not_matchedPos_of_zero _ d (selDeps_wid_nodup st k8s_excl hndD) hd hpos
      have hnotarget : ∀ q ∈ (T0.k8sParam.getD []),
          split q.1 ≠ [("deployment"), d.ns, d.name] := by
        intro q hq hqs
        have hq1 : q.1 = wkey ("deployment") d.ns d.name :=
          split_wkey_eq q.1 _ _ _ noSlash_dep hds.1 hds.2 hqs
        by_cases hD : capturedK8s st k8s_excl = []
        · have hKd : T0.k8sParam = st.k8sParam := by
            show (if capturedK8s st k8s_excl = [] then st.k8sParam else _) = _
            rw [if_pos hD]
          rw [hKd] at hq
          have hnc := hcf q hq
          rw [hq1] at hnc
          have hel := NoConflictKey_elim st k8s_excl _ ("deployment") d.ns d.name
            (split_wkey _ _ _ noSlash_dep hds.1 hds.2) hnc
          obtain ⟨d', hd'm, h1, h2, h3⟩ := hel.1 rfl
          have hdd : d' = d :=
            List.inj_on_of_nodup_map hndD hd'm hmem (by simp [wid, h1, h2])
          rw [hdd] at h3
          exact hpos (h3 hd)
        · have hKd : T0.k8sParam.getD [] =
              dictUpdate (st.k8sParam.getD []) (capturedK8s st k8s_excl) := by
            show (if capturedK8s st k8s_excl = [] then st.k8sParam else _).getD [] = _
            rw [if_neg hD]
            rfl
          have hkk : q.1 ∈ keys (T0.k8sParam.getD []) := List.mem_map.mpr ⟨q, hq, rfl⟩
          rw [hKd] at hkk
          rcases mem_keys_dictUpdate _ _ _ hkk with hkp | hkD
          · obtain ⟨q', hq', hq'1⟩ := List.mem_map.mp hkp
            have hnc := hcf q' hq'
            rw [hq'1, hq1] at hnc
            have hel := NoConflictKey_elim st k8s_excl _ ("deployment") d.ns d.name
              (split_wkey _ _ _ noSlash_dep hds.1 hds.2) hnc
            obtain ⟨d', hd'm, h1, h2, h3⟩ := hel.1 rfl
            have hdd : d' = d :=
              List.inj_on_of_nodup_map hndD hd'm hmem (by simp [wid, h1, h2])
            rw [hdd] at h3
            exact hpos (h3 hd)
          · rw [hq1] at hkD
            rcases (mem_keys_capturedK8s st k8s_excl _).mp hkD with
              ⟨w, hw, hp, hweq⟩ | ⟨w, hw, hp, hweq⟩
            · have hws := hslD w (mem_selDeps st k8s_excl w hw)
              have hid := wkey_inj ("deployment") d.ns d.name w.ns w.name
                noSlash_dep hds.1 hds.2 hws.1 hws.2 hweq
              have hwd : w = d :=
                List.inj_on_of_nodup_map (selDeps_wid_nodup st k8s_excl hndD) hw hd
                  (by simp [wid, hid.1, hid.2])
              rw [hwd] at hp
              exact hpos hp
            · have hws := hslS w (mem_selSts st k8s_excl w hw)
              exact wkey_dep_ne_sts d.ns d.name w.ns w.name hds.1 hds.2
                hws.1 hws.2 hweq
      have hlv : lastVal ("deployment") d.ns d.name (T0.k8sParam.getD []) = none :=
        lastVal_eq_none _ _ _ _ hnotarget
      rw [hlv, hread0, if_neg hnm]
  · intro d hd
    have hmem : d ∈ st.statefulsets := mem_selSts st k8s_excl d hd
    have hds := hslS d hmem
    have hread0 : read_namespaced_stateful_set d.name d.ns T0 =
        some (if matchedPos (selSts st k8s_excl) d then { d with replicas := 0 }
          else d) := by
      show findWorkload d.ns d.name T0.statefulsets = _
      rw [hstsT0, findWorkload_zeroSel,
        findWorkload_eq_of_mem st.statefulsets d hndS hmem]
      rfl
    rw [hrsF d.ns d.name]
    by_cases hpos : 0 < d.replicas
    · have hkmem : wkey ("statefulset") d.ns d.name
          ∈ keys (capturedK8s st k8s_excl) :=
        (mem_keys_capturedK8s st k8s_excl _).mpr (Or.inr ⟨d, hd, hpos, rfl⟩)
      have hD : ¬ capturedK8s st k8s_excl = [] := by
        intro hc
        rw [hc] at hkmem
        simp [keys] at hkmem
      have hKd : T0.k8sParam.getD [] =
          dictUpdate (st.k8sParam.getD []) (capturedK8s st k8s_excl) := by
        show (if capturedK8s st k8s_excl = [] then st.k8sParam else _).getD [] = _
        rw [if_neg hD]
        rfl
      rw [hKd]
      have hndCap : (keys (capturedK8s st k8s_excl)).Nodup := by
        unfold capturedK8s
        rw [stsCapture_eq_kind, depCapture_eq_kind]
        exact nodup_keys_kindCapture _ _ _
          (nodup_keys_kindCapture _ _ _ (by simp [keys]))
      have hget : getKey (dictUpdate (st.k8sParam.getD []) (capturedK8s st k8s_excl))
          (wkey ("statefulset") d.ns d.name) = some d.replicas := by
        rw [getKey_dictUpdate _ _ _ hndCap,
          getKey_capturedK8s_sts st k8s_excl hndS hslS d hd hpos]
        rfl
      have hlv : lastVal ("statefulset") d.ns d.name
          (dictUpdate (st.k8sParam.getD []) (capturedK8s st k8s_excl))
            = some d.replicas :=
        lastVal_unique _ _ _ _ (wkey ("statefulset") d.ns d.name) d.replicas
          (nodup_keys_dictUpdate _ _ hpreK)
          (mem_of_getKey_eq_some _ _ _ hget)
          (split_wkey _ _ _ noSlash_sts hds.1 hds.2)
          (fun q _ hqs =>
            split_wkey_eq q.1 ("statefulset") d.ns d.name noSlash_sts hds.1 hds.2 hqs)
      rw [hlv, hread0, if_pos (matchedPos_of_mem _ d hd hpos)]
      rfl
    · have hnm : ¬ matchedPos (selSts st k8s_excl) d :=
        not_matchedPos_of_zero _ d (selSts_wid_nodup st k8s_excl hndS) hd hpos
      have hnotarget : ∀ q ∈ (T0.k8sParam.getD []),
          split q.1 ≠ [("statefulset"), d.ns, d.name] := by
        intro q hq hqs
        have hq1 : q.1 = wkey ("statefulset") d.ns d.name :=
          split_wkey_eq q.1 _ _ _ noSlash_sts hds.1 hds.2 hqs
        by_cases hD : capturedK8s st k8s_excl = []
        · have hKd : T0.k8sParam = st.k8sParam := by
            show (if capturedK8s st k8s_excl = [] then st.k8sParam else _) = _
            rw [if_pos hD]
          rw [hKd] at hq
          have hnc := hcf q hq
          rw [hq1] at hnc
          have hel := NoConflictKey_elim st k8s_excl _ ("statefulset") d.ns d.name
            (split_wkey _ _ _ noSlash_sts hds.1 hds.2) hnc
          obtain ⟨d', hd'm, h1, h2, h3⟩ := hel.2 rfl
          have hdd : d' = d :=
            List.inj_on_of_nodup_map hndS hd'm hmem (by simp [wid, h1, h2])
          rw [hdd] at h3
          exact hpos (h3 hd)
        · have hKd : T0.k8sParam.getD [] =
              dictUpdate (st.k8sParam.getD []) (capturedK8s st k8s_excl) := by
            show (if capturedK8s st k8s_excl = [] then st.k8sParam else _).getD [] = _
            rw [if_neg hD]
            rfl
          have hkk : q.1 ∈ keys (T0.k8sParam.getD []) := List.mem_map.mpr ⟨q, hq, rfl⟩
          rw [hKd] at hkk
          rcases mem_keys_dictUpdate _ _ _ hkk with hkp | hkD
          · obtain ⟨q', hq', hq'1⟩ := List.mem_map.mp hkp
            have hnc := hcf q' hq'
            rw [hq'1, hq1] at hnc
            have hel := NoConflictKey_elim st k8s_excl _ ("statefulset") d.ns d.name
              (split_wkey _ _ _ noSlash_sts hds.1 hds.2) hnc
            obtain ⟨d', hd'm, h1, h2, h3⟩ := hel.2 rfl
            have hdd : d' = d :=
              List.inj_on_of_nodup_map hndS hd'm hmem (by simp [wid, h1, h2])
            rw [hdd] at h3
            exact hpos (h3 hd)
          · rw [hq1] at hkD
            rcases (mem_keys_capturedK8s st k8s_excl _).mp hkD with
              ⟨w, hw, hp, hweq⟩ | ⟨w, hw, hp, hweq⟩
            · have hws := hslD w (mem_selDeps st k8s_excl w hw)
              exact wkey_dep_ne_sts w.ns w.name d.ns d.name hws.1 hws.2
                hds.1 hds.2 hweq.symm
            · have hws := hslS w (mem_selSts st k8s_excl w hw)
              have hid := wkey_inj ("statefulset") d.ns d.name w.ns w.name
                noSlash_sts hds.1 hds.2 hws.1 hws.2 hweq
              have hwd : w = d :=
                List.inj_on_of_nodup_map (selSts_wid_nodup st k8s_excl hndS) hw hd
                  (by simp [wid, hid.1, hid.2])
              rw [hwd] at hp
              exact hpos hp
      have hlv : lastVal ("statefulset") d.ns d.name (T0.k8sParam.getD []) = none :=
        lastVal_eq_none _ _ _ _ hnotarget
      rw [hlv, hread0, if_neg hnm]

/-- C2 counterexample (refuting the claim as frozen): the claim's
preconditions say nothing about the stored fleet blob, but a pre-existing
fleet blob holding a stale group name makes the round trip fail.  Here the
platform holds one deployment with two replicas and no fleet groups, while
the fleet blob holds the stale name `ghost`; scale-down captures and zeroes
the deployment, then scale-up restores ASGs first, calls
`update_auto_scaling_group` on `ghost`, and dies on the uncaught
`ClientError` before restoring any workload — yet platform well-formedness
and the workload-blob no-conflict precondition both hold. -/
theorem scale_down_scale_up_round_trip_counterexample :
    WellFormedState ⟨[⟨("ns"), ("a"), 2⟩], [], [], [], none,
      some [(("ghost"), ⟨1, 1, 1⟩)]⟩ ∧
    (∀ p ∈ ((⟨[⟨("ns"), ("a"), 2⟩], [], [], [], none,
        some [(("ghost"), ⟨1, 1, 1⟩)]⟩ : State).k8sParam.getD []),
      NoConflictKey ⟨[⟨("ns"), ("a"), 2⟩], [], [], [], none,
        some [(("ghost"), ⟨1, 1, 1⟩)]⟩ none p.1) ∧
    (⟨("ns"), ("a"), 2⟩ : Workload) ∈ selDeps ⟨[⟨("ns"), ("a"), 2⟩], [], [],
      [], none, some [(("ghost"), ⟨1, 1, 1⟩)]⟩ none ∧
    scale_up ⟨(scale_down none none ⟨⟨[⟨("ns"), ("a"), 2⟩], [], [], [], none,
        some [(("ghost"), ⟨1, 1, 1⟩)]⟩, []⟩).st, []⟩
      = Except.error ("ClientError ValidationError") := by
  refine ⟨by decide, ?_, by decide, by rfl⟩
  intro p hp
  exact absurd (show p ∈ ([] : Obj Nat) from hp) (by simp)

/-- C3: running scale-down twice in a row with the same selection is
idempotent: the live state and the store after the second run equal the
state after the first run, and every record captured with a nonzero count in
the first run still holds that nonzero count afterwards (it is never
overwritten with zero, because an already-zero workload is neither recorded
nor patched). -/
theorem scale_down_twice_idempotent (st : State)
    (k8s_excl : Option (List ResourceRef)) (asg_excl : Option (List String))
    (hwf : WellFormedState st) :
    (scale_down k8s_excl asg_excl
        ⟨(scale_down k8s_excl asg_excl ⟨st, []⟩).st, []⟩).st
      = (scale_down k8s_excl asg_excl ⟨st, []⟩).st ∧
    (∀ d ∈ selDeps st k8s_excl, 0 < d.replicas →
      getKey ((scale_down k8s_excl asg_excl
          ⟨(scale_down k8s_excl asg_excl ⟨st, []⟩).st, []⟩).st.k8sParam.getD [])
        (wkey ("deployment") d.ns d.name) = some d.replicas) ∧
    (∀ d ∈ selSts st k8s_excl, 0 < d.replicas →
      getKey ((scale_down k8s_excl asg_excl
          ⟨(scale_down k8s_excl asg_excl ⟨st, []⟩).st, []⟩).st.k8sParam.getD [])
        (wkey ("statefulset") d.ns d.name) = some d.replicas) := by
  obtain ⟨hndD, hndS, hA, hslD, hslS, hpreK, hpreA⟩ := hwf
  have hdown1 := scale_down_eq k8s_excl asg_excl ⟨st, []⟩ hA
  rw [hdown1]
  try simp only []
  set T0 : State :=
    { deployments := zeroSel (selDeps st k8s_excl) st.deployments,
      statefulsets := zeroSel (selSts st k8s_excl) st.statefulsets,
      cronjobs := suspendSel true (selCrons st k8s_excl) st.cronjobs,
      asgs := zeroAsgs (selAsgNames st asg_excl) st.asgs,
      k8sParam := if capturedK8s st k8s_excl = [] then st.k8sParam
        else some (dictUpdate (st.k8sParam.getD []) (capturedK8s st k8s_excl)),
      asgParam := if capturedAsg st asg_excl = [] then st.asgParam
        else some (dictUpdate (st.asgParam.getD []) (capturedAsg st asg_excl)) }
    with hT0
  have hA2 : (T0.asgs.map Asg.name).Nodup := by
    show ((zeroAsgs (selAsgNames st asg_excl) st.asgs).map Asg.name).Nodup
    rw [zeroAsgs_names]
    exact hA
  have hdown2 := scale_down_eq k8s_excl asg_excl ⟨T0, []⟩ hA2
  rw [hdown2]
  try simp only []
  have hseld : ∀ w' ∈ selDeps T0 k8s_excl, ¬ 0 < w'.replicas := fun w' hw' =>
    mem_filter_zeroSel ("Deployment") k8s_excl st.deployments w' hw'
  have hsels : ∀ w' ∈ selSts T0 k8s_excl, ¬ 0 < w'.replicas := fun w' hw' =>
    mem_filter_zeroSel ("StatefulSet") k8s_excl st.statefulsets w' hw'
  have hAN : selAsgNames T0 asg_excl = selAsgNames st asg_excl := by
    unfold selAsgNames
    show filter_excluded_asgs
      ((zeroAsgs (selAsgNames st asg_excl) st.asgs).map Asg.name) asg_excl = _
    rw [zeroAsgs_names]
  have h1 : zeroSel (selDeps T0 k8s_excl) T0.deployments = T0.deployments :=
    zeroSel_of_no_pos _ _ hseld
  have h2 : zeroSel (selSts T0 k8s_excl) T0.statefulsets = T0.statefulsets :=
    zeroSel_of_no_pos _ _ hsels
  have h3 : suspendSel true (selCrons T0 k8s_excl) T0.cronjobs = T0.cronjobs := by
    refine suspendSel_invariant true _ _ ?_
    intro c hc hm
    exact matchedCron_suspendSel k8s_excl st.cronjobs c hc hm
  have h4 : zeroAsgs (selAsgNames T0 asg_excl) T0.asgs = T0.asgs := by
    rw [hAN]
    show zeroAsgs (selAsgNames st asg_excl)
      (zeroAsgs (selAsgNames st asg_excl) st.asgs) = T0.asgs
    rw [zeroAsgs_idem]
  have h5 : capturedK8s T0 k8s_excl = [] := by
    unfold capturedK8s
    rw [stsCapture_eq_kind, depCapture_eq_kind,
      kindCapture_no_pos _ _ _ hseld, kindCapture_no_pos _ _ _ hsels]
  have h6 : capturedAsg T0 asg_excl = [] := by
    unfold capturedAsg
    refine asgCapture_of_all_zero _ _ _ ?_
    intro n hn a hfa
    have hn' : n ∈ selAsgNames st asg_excl := by
      rw [hAN] at hn
      exact hn
    have hfa' : findAsg n (zeroAsgs (selAsgNames st asg_excl) st.asgs) = some a := hfa
    rw [findAsg_zeroAsgs] at hfa'
    cases hf0 : findAsg n st.asgs with
    | none =>
      rw [hf0] at hfa'
      simp at hfa'
    | some a0 =>
      rw [hf0] at hfa'
      have ha : (if a0.name ∈ selAsgNames st asg_excl ∧ asgNonzero a0.capacity then
          { a0 with capacity := ⟨0, 0, 0⟩ } else a0) = a := by
        injection hfa'
      have hname : a0.name = n := by
        have := List.find?_some
          (show st.asgs.find? (fun x => decide (x.name = n)) = some a0 from hf0)
        simpa using this
      rw [← ha]
      by_cases hz : a0.name ∈ selAsgNames st asg_excl ∧ asgNonzero a0.capacity
      · rw [if_pos hz]
        exact fun hc => asgNonzero_zero hc
      · rw [if_neg hz]
        intro hnz
        exact hz ⟨by rw [hname]; exact hn', hnz⟩
  rw [h1, h2, h3, h4, h5, h6, if_pos rfl, if_pos rfl]
  refine ⟨rfl, ?_, ?_⟩
  · intro d hd hpos
    have hmem : d ∈ st.deployments := mem_selDeps st k8s_excl d hd
    have hds := hslD d hmem
    have hkmem : wkey ("deployment") d.ns d.name ∈ keys (capturedK8s st k8s_excl) :=
      (mem_keys_capturedK8s st k8s_excl _).mpr (Or.inl ⟨d, hd, hpos, rfl⟩)
    have hD : ¬ capturedK8s st k8s_excl = [] := by
      intro hc
      rw [hc] at hkmem
      simp [keys] at hkmem
    show getKey (T0.k8sParam.getD []) _ = _
    have hKd : T0.k8sParam.getD [] =
        dictUpdate (st.k8sParam.getD []) (capturedK8s st k8s_excl) := by
      show (if capturedK8s st k8s_excl = [] then st.k8sParam else _).getD [] = _
      rw [if_neg hD]
      rfl
    rw [hKd]
    have hndCap : (keys (capturedK8s st k8s_excl)).Nodup := by
      unfold capturedK8s
      rw [stsCapture_eq_kind, depCapture_eq_kind]
      exact nodup_keys_kindCapture _ _ _
        (nodup_keys_kindCapture _ _ _ (by simp [keys]))
    rw [getKey_dictUpdate _ _ _ hndCap,
      getKey_capturedK8s_dep st k8s_excl hndD hslD hslS d hd hpos]
    rfl
  · intro d hd hpos
    have hmem : d ∈ st.statefulsets := mem_selSts st k8s_excl d hd
    have hds := hslS d hmem
    have hkmem : wkey ("statefulset") d.ns d.name ∈ keys (capturedK8s st k8s_excl) :=
      (mem_keys_capturedK8s st k8s_excl _).mpr (Or.inr ⟨d, hd, hpos, rfl⟩)
    have hD : ¬ capturedK8s st k8s_excl = [] := by
      intro hc
      rw [hc] at hkmem
      simp [keys] at hkmem
    show getKey (T0.k8sParam.getD []) _ = _
    have hKd : T0.k8sParam.getD [] =
        dictUpdate (st.k8sParam.getD []) (capturedK8s st k8s_excl) := by
      show (if capturedK8s st k8s_excl = [] then st.k8sParam else _).getD [] = _
      rw [if_neg hD]
      rfl
    rw [hKd]
    have hndCap : (keys (capturedK8s st k8s_excl)).Nodup := by
      unfold capturedK8s
      rw [stsCapture_eq_kind, depCapture_eq_kind]
      exact nodup_keys_kindCapture _ _ _
        (nodup_keys_kindCapture _ _ _ (by simp [keys]))
    rw [getKey_dictUpdate _ _ _ hndCap,
      getKey_capturedK8s_sts st k8s_excl hndS hslS d hd hpos]
    rfl

/-- C1: `update_ssm_parameter` writes back exactly the shallow merge of the
new accumulator map on top of the existing stored object (absence of the
parameter treated as the empty object): keys of the existing object not
present in the new map keep their existing value, keys of the new map take
their new value, and no other keys appear in the written value. -/
theorem update_ssm_parameter_merge {α : Type} (E : Option (Obj α)) (N : Obj α)
    (_hne : N ≠ []) (hnd : (keys N).Nodup) :
    (∀ k v, getKey N k = none → getKey (E.getD []) k = some v →
      getKey (update_ssm_parameter E N) k = some v) ∧
    (∀ k v, getKey N k = some v → getKey (update_ssm_parameter E N) k = some v) ∧
    (∀ k, k ∈ keys (update_ssm_parameter E N) →
      k ∈ keys (E.getD []) ∨ k ∈ keys N) := by
  refine ⟨?_, ?_, ?_⟩
  · intro k v h1 h2
    show getKey (dictUpdate (E.getD []) N) k = some v
    rw [getKey_dictUpdate _ _ _ hnd, h1]
    exact h2
  · intro k v h1
    show getKey (dictUpdate (E.getD []) N) k = some v
    rw [getKey_dictUpdate _ _ _ hnd, h1]
    rfl
  · intro k hk
    exact mem_keys_dictUpdate _ _ _ hk

/-- Witness for C1 at the spec's own example: prior blob holding
`deployment/ns/a = 3`, captured blob holding `deployment/ns/b = 2`; the
written value keeps the old key and adds the new one. -/
theorem update_ssm_parameter_merge_witness :
    ([(("deployment/ns/b"), (2 : Nat))] ≠ ([] : Obj Nat)) ∧
    (keys [(("deployment/ns/b"), (2 : Nat))]).Nodup ∧
    getKey (update_ssm_parameter (some [(("deployment/ns/a"), (3 : Nat))])
      [(("deployment/ns/b"), 2)]) ("deployment/ns/a") = some 3 ∧
    getKey (update_ssm_parameter (some [(("deployment/ns/a"), (3 : Nat))])
      [(("deployment/ns/b"), 2)]) ("deployment/ns/b") = some 2 := by
  have h := update_ssm_parameter_merge (some [(("deployment/ns/a"), (3 : Nat))])
    [(("deployment/ns/b"), 2)] (by decide) (by decide)
  exact ⟨by decide, by decide,
    h.1 ("deployment/ns/a") 3 (by decide) (by decide),
    h.2.1 ("deployment/ns/b") 2 (by decide)⟩

/-- C7: the exclusion filters return exactly the input items whose identity
matches no exclusion entry, preserving input order: workloads are matched
on (namespace, kind, name) with the kind compared case-insensitively and
namespace/name exact, fleet groups on exact name; an absent or empty
exclusion list returns the input unchanged. -/
theorem filters_exclude_exactly {α : Type} (getNs getName : α → String)
    (kind : String) (resources : List α) (asg_list : List String) :
    (∀ excl, filter_excluded_k8s_resources getNs getName kind resources excl =
      resources.filter (fun res => decide
        (¬ ∃ e ∈ excl.getD [], exclMatches e kind (getNs res) (getName res)))) ∧
    (filter_excluded_k8s_resources getNs getName kind resources none
      = resources) ∧
    (filter_excluded_k8s_resources getNs getName kind resources (some [])
      = resources) ∧
    (∀ excl, (filter_excluded_k8s_resources getNs getName kind resources
      excl).Sublist resources) ∧
    (∀ excl, filter_excluded_asgs asg_list excl =
      asg_list.filter (fun n => decide (n ∉ excl.getD []))) ∧
    (filter_excluded_asgs asg_list none = asg_list) ∧
    (filter_excluded_asgs asg_list (some []) = asg_list) ∧
    (∀ excl, (filter_excluded_asgs asg_list excl).Sublist asg_list) := by
  refine ⟨fun excl => filter_excluded_k8s_eq getNs getName kind resources excl,
    rfl, rfl, ?_, fun excl => filter_excluded_asgs_eq asg_list excl, rfl, rfl, ?_⟩
  · intro excl
    rw [filter_excluded_k8s_eq]
    exact List.filter_sublist _
  · intro excl
    rw [filter_excluded_asgs_eq]
    exact List.filter_sublist _

/-- C10: during scale-up, a stored workload key that splits into exactly
three parts but whose kind part is neither "deployment" nor "statefulset"
(exact lowercase match) is silently skipped: the restore engine leaves the
system untouched for it, raises no error, and processes the remaining keys
exactly as if the entry were absent. -/
theorem scale_up_skips_unknown_kind (k : String) (v : Nat)
    (kind ns name : String) (hsp : split k = [kind, ns, name])
    (h1 : kind ≠ ("deployment")) (h2 : kind ≠ ("statefulset")) :
    (∀ s : Sys, restore_k8s_entry s k v = Except.ok s) ∧
    (∀ (s : Sys) (pre post : Obj Nat),
      restore_k8s s (pre ++ (k, v) :: post) = restore_k8s s (pre ++ post)) := by
  have hentry : ∀ s : Sys, restore_k8s_entry s k v = Except.ok s := by
    intro s
    rw [restore_k8s_entry_eq_three s k v kind ns name hsp, if_neg h1, if_neg h2]
  refine ⟨hentry, ?_⟩
  intro s pre post
  induction pre generalizing s with
  | nil =>
    show (match restore_k8s_entry s k v with
      | Except.error e => Except.error e
      | Except.ok s1 => restore_k8s s1 post) = restore_k8s s ([] ++ post)
    rw [hentry s]
    rfl
  | cons p ps ih =>
    show (match restore_k8s_entry s p.1 p.2 with
      | Except.error e => Except.error e
      | Except.ok s1 => restore_k8s s1 (ps ++ (k, v) :: post)) =
      (match restore_k8s_entry s p.1 p.2 with
      | Except.error e => Except.error e
      | Except.ok s1 => restore_k8s s1 (ps ++ post))
    cases restore_k8s_entry s p.1 p.2 with
    | error e => rfl
    | ok s1 => exact ih s1

/-- Witness for C10: the key `cronjob/d/j` splits into three parts, names
neither a deployment nor a statefulset, and is skipped by the restore
loop. -/
theorem scale_up_skips_unknown_kind_witness :
    (restore_k8s_entry ⟨⟨[], [], [], [], none, none⟩, []⟩ ("cronjob/d/j") 4
      = Except.ok ⟨⟨[], [], [], [], none, none⟩, []⟩) ∧
    restore_k8s ⟨⟨[], [], [], [], none, none⟩, []⟩ [(("cronjob/d/j"), 4)]
      = restore_k8s ⟨⟨[], [], [], [], none, none⟩, []⟩ [] := by
  have h := scale_up_skips_unknown_kind ("cronjob/d/j") 4 ("cronjob") ("d") ("j")
    (by decide) (by decide) (by decide)
  exact ⟨h.1 ⟨⟨[], [], [], [], none, none⟩, []⟩,
    h.2 ⟨⟨[], [], [], [], none, none⟩, []⟩ [] []⟩

/-- C4 counterexample: the spec says a malformed stored key is logged and
skipped, but `kind, namespace, name = key.split("/")` raises an uncaught
ValueError, so a single malformed key aborts the whole scale-up run, even
though a perfectly restorable entry sits right behind it. -/
theorem scale_up_malformed_key_counterexample :
    scale_up ⟨⟨[⟨("ns"), ("a"), 0⟩], [], [], [],
      some [(("badkey"), 3), (("deployment/ns/a"), 2)], none⟩, []⟩
      = Except.error ("ValueError") := by rfl

/-- C4 (amended): a stored workload key that does not split into exactly
three parts is not skipped: the whole scale-up run aborts with an uncaught
error (the ValueError from tuple unpacking), abandoning the remaining
keys. -/
theorem scale_up_malformed_key_aborts (st : State) (tr : List Action)
    (entries : Obj Nat) (k : String) (v : Nat)
    (hK : st.k8sParam = some entries) (hmem : (k, v) ∈ entries)
    (hbad : (split k).length ≠ 3) :
    ∃ e, scale_up ⟨st, tr⟩ = Except.error e := by
  have herr : ∀ (l : Obj Nat) (s : Sys), (k, v) ∈ l →
      ∃ e, restore_k8s s l = Except.error e := by
    intro l
    induction l with
    | nil => intro s hl; simp at hl
    | cons p ps ih =>
      intro s hl
      have hstep : restore_k8s s (p :: ps) =
          match restore_k8s_entry s p.1 p.2 with
          | Except.error e => Except.error e
          | Except.ok s1 => restore_k8s s1 ps := rfl
      cases hE : restore_k8s_entry s p.1 p.2 with
      | error e =>
        refine ⟨e, ?_⟩
        rw [hstep, hE]
      | ok s1 =>
        rcases List.mem_cons.mp hl with hc | hc
        · exfalso
          obtain ⟨a, b, c, hsp⟩ := restore_k8s_entry_ok_shape s p.1 p.2 s1 hE
          have hp1 : p.1 = k := by rw [← hc]
          have hsk : split k = [a, b, c] := by
            rw [← hp1]
            exact hsp
          rw [hsk] at hbad
          exact hbad rfl
        · obtain ⟨e, he⟩ := ih s1 hc
          refine ⟨e, ?_⟩
          rw [hstep, hE]
          exact he
  obtain ⟨D0, S0, C0, A0, K0, P0⟩ := st
  have hK' : K0 = some entries := hK
  subst hK'
  rcases P0 with _ | adata
  · have hred : scale_up ⟨⟨D0, S0, C0, A0, some entries, none⟩, tr⟩ =
        match restore_k8s ⟨⟨D0, S0, C0, A0, some entries, none⟩, tr⟩ entries with
        | Except.error e => Except.error e
        | Except.ok s2 => Except.ok (s2.st.cronjobs.foldl scale_up_cron_step s2) :=
      rfl
    obtain ⟨e, he⟩ := herr entries ⟨⟨D0, S0, C0, A0, some entries, none⟩, tr⟩ hmem
    refine ⟨e, ?_⟩
    rw [hred, he]
  · have hred0 : scale_up ⟨⟨D0, S0, C0, A0, some entries, some adata⟩, tr⟩ =
        match restore_asgs ⟨⟨D0, S0, C0, A0, some entries, some adata⟩, tr⟩
            adata with
        | Except.error e => Except.error e
        | Except.ok s1 =>
          match (match s1.st.k8sParam with
            | none => Except.ok s1
            | some data => restore_k8s s1 data) with
          | Except.error e => Except.error e
          | Except.ok s2 => Except.ok (s2.st.cronjobs.foldl scale_up_cron_step s2) :=
      rfl
    cases hR : restore_asgs ⟨⟨D0, S0, C0, A0, some entries, some adata⟩, tr⟩
        adata with
    | error e =>
      refine ⟨e, ?_⟩
      rw [hred0, hR]
    | ok s1 =>
      obtain ⟨g1, g2, g3, g4, g5, g6⟩ := restore_asgs_frames adata _ s1 hR
      have g4' : s1.st.k8sParam = some entries := g4
      obtain ⟨e, he⟩ := herr entries s1 hmem
      refine ⟨e, ?_⟩
      rw [hred0, hR]
      show (match (match s1.st.k8sParam with
          | none => Except.ok s1
          | some data => restore_k8s s1 data) with
        | Except.error e => Except.error e
        | Except.ok s2 => Except.ok (s2.st.cronjobs.foldl scale_up_cron_step s2))
          = Except.error e
      rw [g4']
      show (match restore_k8s s1 entries with
        | Except.error e => Except.error e
        | Except.ok s2 => Except.ok (s2.st.cronjobs.foldl scale_up_cron_step s2))
          = Except.error e
      rw [he]

/-- Witness for C4's amended theorem: a concrete store holding one
malformed key makes scale-up abort. -/
theorem scale_up_malformed_key_aborts_witness :
    ∃ e, scale_up ⟨⟨[], [], [], [], some [(("badkey"), 3)], none⟩, []⟩
      = Except.error e :=
  scale_up_malformed_key_aborts ⟨[], [], [], [], some [(("badkey"), 3)], none⟩
    [] [(("badkey"), 3)] ("badkey") 3 rfl (by decide) (by decide)

/-- C5: when neither store entry exists, scale-up completes successfully:
it performs zero workload-restore patches and zero fleet updates, and the
trace of the run is exactly the CronJob resume pass. -/
theorem scale_up_notfound_tolerant (st : State)
    (hK : st.k8sParam = none) (hP : st.asgParam = none) :
    ∃ s' : Sys, scale_up ⟨st, []⟩ = Except.ok s' ∧
      s'.tr = st.cronjobs.map (fun c => Action.patchCronJob c.ns c.name false) ∧
      (∀ ns name r, Action.patchDeployment ns name r ∉ s'.tr) ∧
      (∀ ns name r, Action.patchStatefulSet ns name r ∉ s'.tr) ∧
      (∀ n cap, Action.updateAsg n cap ∉ s'.tr) := by
  obtain ⟨D0, S0, C0, A0, K0, P0⟩ := st
  have hK' : K0 = none := hK
  have hP' : P0 = none := hP
  subst hK' hP'
  refine ⟨C0.foldl scale_up_cron_step ⟨⟨D0, S0, C0, A0, none, none⟩, []⟩,
    rfl, ?_, ?_, ?_, ?_⟩
  · rw [cron_fold_up]
    simp
  · intro ns name r hmem
    rw [cron_fold_up] at hmem
    simp at hmem
  · intro ns name r hmem
    rw [cron_fold_up] at hmem
    simp at hmem
  · intro n cap hmem
    rw [cron_fold_up] at hmem
    simp at hmem

/-- Witness for C5 on a platform with one suspended CronJob and neither
store entry present. -/
theorem scale_up_notfound_tolerant_witness :
    ∃ s' : Sys, scale_up ⟨⟨[], [], [⟨("d"), ("j"), true⟩], [], none, none⟩, []⟩
        = Except.ok s' ∧
      s'.tr = [(⟨("d"), ("j"), true⟩ : CronJob)].map
        (fun c => Action.patchCronJob c.ns c.name false) ∧
      (∀ ns name r, Action.patchDeployment ns name r ∉ s'.tr) ∧
      (∀ ns name r, Action.patchStatefulSet ns name r ∉ s'.tr) ∧
      (∀ n cap, Action.updateAsg n cap ∉ s'.tr) :=
  scale_up_notfound_tolerant ⟨[], [], [⟨("d"), ("j"), true⟩], [], none, none⟩
    rfl rfl

/-- C6: scale-up sets suspend=false and issues a patch for every CronJob
currently visible on the platform, not only those recorded or touched by a
prior scale-down, and regardless of each CronJob's current suspend
value. -/
theorem scale_up_resumes_all_cronjobs (st : State) (s' : Sys)
    (h : scale_up ⟨st, []⟩ = Except.ok s') :
    (∀ c ∈ st.cronjobs, Action.patchCronJob c.ns c.name false ∈ s'.tr) ∧
    (∀ c ∈ s'.st.cronjobs, c.suspend = false) := by
  obtain ⟨s2, hs', hcron, hkp, hap, htr⟩ := scale_up_ok_dissect st [] s' h
  subst hs'
  rw [cron_fold_up]
  constructor
  · intro c hc
    show Action.patchCronJob c.ns c.name false ∈
      s2.tr ++ s2.st.cronjobs.map (fun c => Action.patchCronJob c.ns c.name false)
    refine List.mem_append.mpr (Or.inr ?_)
    rw [hcron]
    exact List.mem_map.mpr ⟨c, hc, rfl⟩
  · intro c hc
    have hc' : c ∈ suspendSel false s2.st.cronjobs s2.st.cronjobs := hc
    exact suspendSel_self_all false s2.st.cronjobs c hc'

/-- Witness for C6: one CronJob never touched by any scale-down (no stored
state at all) is still patched to suspend=false. -/
theorem scale_up_resumes_all_cronjobs_witness :
    (∀ c ∈ [(⟨("d"), ("j"), true⟩ : CronJob)],
      Action.patchCronJob c.ns c.name false ∈
        (⟨⟨[], [], [⟨("d"), ("j"), false⟩], [], none, none⟩,
          [Action.patchCronJob ("d") ("j") false]⟩ : Sys).tr) ∧
    (∀ c ∈ (⟨⟨[], [], [⟨("d"), ("j"), false⟩], [], none, none⟩,
        [Action.patchCronJob ("d") ("j") false]⟩ : Sys).st.cronjobs,
      c.suspend = false) :=
  scale_up_resumes_all_cronjobs ⟨[], [], [⟨("d"), ("j"), true⟩], [], none, none⟩
    ⟨⟨[], [], [⟨("d"), ("j"), false⟩], [], none, none⟩,
      [Action.patchCronJob ("d") ("j") false]⟩ (by rfl)

/-- C9: scale-up never writes the parameter store: a completed run leaves
both store entries exactly as they were before the run and its trace
contains no store-put action, so captured records persist after restore. -/
theorem scale_up_preserves_store (st : State) (s' : Sys)
    (h : scale_up ⟨st, []⟩ = Except.ok s') :
    s'.st.k8sParam = st.k8sParam ∧ s'.st.asgParam = st.asgParam ∧
    (∀ v, Action.putK8sParam v ∉ s'.tr) ∧
    (∀ v, Action.putAsgParam v ∉ s'.tr) := by
  obtain ⟨s2, hs', hcron, hkp, hap, htr⟩ := scale_up_ok_dissect st [] s' h
  subst hs'
  rw [cron_fold_up]
  refine ⟨hkp, hap, ?_, ?_⟩
  · intro v hv
    have hv' : Action.putK8sParam v ∈
        s2.tr ++ s2.st.cronjobs.map
          (fun c => Action.patchCronJob c.ns c.name false) := hv
    rcases List.mem_append.mp hv' with h1 | h1
    · rcases htr _ h1 with h2 | h2
      · simp at h2
      · exact h2 trivial
    · obtain ⟨c, _, hce⟩ := List.mem_map.mp h1
      exact absurd hce (by simp)
  · intro v hv
    have hv' : Action.putAsgParam v ∈
        s2.tr ++ s2.st.cronjobs.map
          (fun c => Action.patchCronJob c.ns c.name false) := hv
    rcases List.mem_append.mp hv' with h1 | h1
    · rcases htr _ h1 with h2 | h2
      · simp at h2
      · exact h2 trivial
    · obtain ⟨c, _, hce⟩ := List.mem_map.mp h1
      exact absurd hce (by simp)

/-- Witness for C9 on a run that restores one fleet group from the stored
blob: the blob is still there afterwards and nothing was put. -/
theorem scale_up_preserves_store_witness :
    ((⟨⟨[], [], [], [⟨("g"), ⟨1, 1, 2⟩⟩], none, some [(("g"), ⟨1, 1, 2⟩)]⟩,
        [Action.updateAsg ("g") ⟨1, 1, 2⟩]⟩ : Sys).st.k8sParam = none) ∧
    ((⟨⟨[], [], [], [⟨("g"), ⟨1, 1, 2⟩⟩], none, some [(("g"), ⟨1, 1, 2⟩)]⟩,
        [Action.updateAsg ("g") ⟨1, 1, 2⟩]⟩ : Sys).st.asgParam
      = some [(("g"), ⟨1, 1, 2⟩)]) ∧
    (∀ v, Action.putK8sParam v ∉
      (⟨⟨[], [], [], [⟨("g"), ⟨1, 1, 2⟩⟩], none, some [(("g"), ⟨1, 1, 2⟩)]⟩,
        [Action.updateAsg ("g") ⟨1, 1, 2⟩]⟩ : Sys).tr) ∧
    (∀ v, Action.putAsgParam v ∉
      (⟨⟨[], [], [], [⟨("g"), ⟨1, 1, 2⟩⟩], none, some [(("g"), ⟨1, 1, 2⟩)]⟩,
        [Action.updateAsg ("g") ⟨1, 1, 2⟩]⟩ : Sys).tr) :=
  scale_up_preserves_store
    ⟨[], [], [], [⟨("g"), ⟨0, 0, 0⟩⟩], none, some [(("g"), ⟨1, 1, 2⟩)]⟩
    ⟨⟨[], [], [], [⟨("g"), ⟨1, 1, 2⟩⟩], none, some [(("g"), ⟨1, 1, 2⟩)]⟩,
      [Action.updateAsg ("g") ⟨1, 1, 2⟩]⟩ (by rfl)

/-- C8: during scale-down, a selected fleet group whose capacity is not all
three zero (MinSize>0 or DesiredCapacity≠0 or MaxSize≠0) has its exact
capacity triple recorded under its name and is then updated to all-zero; a
group already at all-zero gets no record (its stored entry, if any, is left
unchanged), no update call, and keeps its capacity. -/
theorem scale_down_asg_capture (st : State)
    (k8s_excl : Option (List ResourceRef)) (asg_excl : Option (List String))
    (hA : (st.asgs.map Asg.name).Nodup) (a : Asg) (ha : a ∈ st.asgs)
    (hsel : a.name ∈ selAsgNames st asg_excl) :
    (asgNonzero a.capacity →
      getKey ((scale_down k8s_excl asg_excl ⟨st, []⟩).st.asgParam.getD []) a.name
          = some a.capacity ∧
      Action.updateAsg a.name ⟨0, 0, 0⟩
        ∈ (scale_down k8s_excl asg_excl ⟨st, []⟩).tr ∧
      describe_auto_scaling_group a.name (scale_down k8s_excl asg_excl ⟨st, []⟩).st
          = some { a with capacity := ⟨0, 0, 0⟩ }) ∧
    (¬ asgNonzero a.capacity →
      getKey ((scale_down k8s_excl asg_excl ⟨st, []⟩).st.asgParam.getD []) a.name
          = getKey (st.asgParam.getD []) a.name ∧
      (∀ cap, Action.updateAsg a.name cap
        ∉ (scale_down k8s_excl asg_excl ⟨st, []⟩).tr) ∧
      describe_auto_scaling_group a.name (scale_down k8s_excl asg_excl ⟨st, []⟩).st
          = some a) := by
  rw [scale_down_eq k8s_excl asg_excl ⟨st, []⟩ hA]
  try simp only []
  have hdesc0 : findAsg a.name st.asgs = some a := findAsg_eq_of_mem st.asgs a hA ha
  constructor
  · intro hz
    have hwit : getKey (capturedAsg st asg_excl) a.name = some a.capacity :=
      getKey_asgCapture_self (selAsgNames st asg_excl) st.asgs []
        (selAsgNames_nodup st asg_excl hA) hA a ha hsel hz
    have hDne : ¬ capturedAsg st asg_excl = [] := by
      intro hc
      rw [hc] at hwit
      exact absurd hwit (by simp [getKey])
    refine ⟨?_, ?_, ?_⟩
    · show getKey ((if capturedAsg st asg_excl = [] then st.asgParam
        else some (dictUpdate (st.asgParam.getD [])
          (capturedAsg st asg_excl))).getD []) a.name = some a.capacity
      rw [if_neg hDne]
      show getKey (dictUpdate (st.asgParam.getD []) (capturedAsg st asg_excl))
        a.name = some a.capacity
      have hknd : (keys (capturedAsg st asg_excl)).Nodup := by
        unfold capturedAsg
        exact nodup_keys_asgCapture _ _ _ (by simp [keys])
      rw [getKey_dictUpdate _ _ _ hknd, hwit]
      rfl
    · refine List.mem_append.mpr (Or.inl (List.mem_append.mpr (Or.inr ?_)))
      exact mem_asgTrace_self (selAsgNames st asg_excl) st.asgs hA a ha hsel hz
    · show findAsg a.name (zeroAsgs (selAsgNames st asg_excl) st.asgs) = _
      rw [findAsg_zeroAsgs, hdesc0]
      show some (if a.name ∈ selAsgNames st asg_excl ∧ asgNonzero a.capacity
        then { a with capacity := ⟨0, 0, 0⟩ } else a) = _
      rw [if_pos ⟨hsel, hz⟩]
  · intro hz
    refine ⟨?_, ?_, ?_⟩
    · show getKey ((if capturedAsg st asg_excl = [] then st.asgParam
        else some (dictUpdate (st.asgParam.getD [])
          (capturedAsg st asg_excl))).getD []) a.name
        = getKey (st.asgParam.getD []) a.name
      by_cases hD : capturedAsg st asg_excl = []
      · rw [if_pos hD]
      · rw [if_neg hD]
        show getKey (dictUpdate (st.asgParam.getD []) (capturedAsg st asg_excl))
          a.name = getKey (st.asgParam.getD []) a.name
        have hknd : (keys (capturedAsg st asg_excl)).Nodup := by
          unfold capturedAsg
          exact nodup_keys_asgCapture _ _ _ (by simp [keys])
        have hgz : getKey (capturedAsg st asg_excl) a.name = none :=
          getKey_asgCapture_zero (selAsgNames st asg_excl) st.asgs [] hA a ha hz
        rw [getKey_dictUpdate _ _ _ hknd, hgz]
        rfl
    · intro cap hmem
      simp only [List.mem_append] at hmem
      rcases hmem with ((((((h | h) | h) | h) | h) | h) | h)
      · simp at h
      · obtain ⟨d, _, hde⟩ := List.mem_map.mp h
        exact absurd hde (by simp)
      · obtain ⟨d, _, hde⟩ := List.mem_map.mp h
        exact absurd hde (by simp)
      · obtain ⟨c, _, hce⟩ := List.mem_map.mp h
        exact absurd hce (by simp)
      · by_cases hc : capturedK8s st k8s_excl = []
        · rw [if_pos hc] at h
          simp at h
        · rw [if_neg hc] at h
          simp at h
      · exact not_mem_asgTrace_zero (selAsgNames st asg_excl) st.asgs hA a ha
          hz cap h
      · by_cases hc : capturedAsg st asg_excl = []
        · rw [if_pos hc] at h
          simp at h
        · rw [if_neg hc] at h
          simp at h
    · show findAsg a.name (zeroAsgs (selAsgNames st asg_excl) st.asgs) = _
      rw [findAsg_zeroAsgs, hdesc0]
      show some (if a.name ∈ selAsgNames st asg_excl ∧ asgNonzero a.capacity
        then { a with capacity := ⟨0, 0, 0⟩ } else a) = _
      rw [if_neg (fun hc => hz hc.2)]

/-- Witness for C8 on a fleet of one group at capacity (1, 2, 3): the
triple is recorded under the group's name, the group is zeroed, and the
update call is in the trace. -/
theorem scale_down_asg_capture_witness :
    getKey ((scale_down none none
        ⟨⟨[], [], [], [⟨("g"), ⟨1, 2, 3⟩⟩], none, none⟩, []⟩).st.asgParam.getD [])
      ("g") = some ⟨1, 2, 3⟩ ∧
    Action.updateAsg ("g") ⟨0, 0, 0⟩ ∈
      (scale_down none none
        ⟨⟨[], [], [], [⟨("g"), ⟨1, 2, 3⟩⟩], none, none⟩, []⟩).tr ∧
    describe_auto_scaling_group ("g")
      (scale_down none none
        ⟨⟨[], [], [], [⟨("g"), ⟨1, 2, 3⟩⟩], none, none⟩, []⟩).st
      = some ⟨("g"), ⟨0, 0, 0⟩⟩ :=
  (scale_down_asg_capture ⟨[], [], [], [⟨("g"), ⟨1, 2, 3⟩⟩], none, none⟩
    none none (by decide) ⟨("g"), ⟨1, 2, 3⟩⟩ (by decide) (by decide)).1 (by decide)

/-- Witness for C2 on one deployment with two replicas, empty store: after
scale-down then scale-up it reads back with two replicas. -/
theorem scale_down_scale_up_round_trip_witness :
    ∃ s' : Sys,
      scale_up ⟨(scale_down none none
        ⟨⟨[⟨("ns"), ("a"), 2⟩], [], [], [], none, none⟩, []⟩).st, []⟩
          = Except.ok s' ∧
      (∀ d ∈ selDeps ⟨[⟨("ns"), ("a"), 2⟩], [], [], [], none, none⟩ none,
        read_namespaced_deployment d.name d.ns s'.st = some d) ∧
      (∀ d ∈ selSts ⟨[⟨("ns"), ("a"), 2⟩], [], [], [], none, none⟩ none,
        read_namespaced_stateful_set d.name d.ns s'.st = some d) :=
  scale_down_scale_up_round_trip ⟨[⟨("ns"), ("a"), 2⟩], [], [], [], none, none⟩
    none none (by decide) (by simp) (by simp)

/-- Witness for C3 on one statefulset with five replicas: the second
scale-down run changes nothing and the captured count survives. -/
theorem scale_down_twice_idempotent_witness :
    ((scale_down none none ⟨(scale_down none none
        ⟨⟨[], [⟨("ns"), ("b"), 5⟩], [], [], none, none⟩, []⟩).st, []⟩).st
      = (scale_down none none
        ⟨⟨[], [⟨("ns"), ("b"), 5⟩], [], [], none, none⟩, []⟩).st) ∧
    (∀ d ∈ selDeps ⟨[], [⟨("ns"), ("b"), 5⟩], [], [], none, none⟩ none,
      0 < d.replicas →
      getKey ((scale_down none none ⟨(scale_down none none
          ⟨⟨[], [⟨("ns"), ("b"), 5⟩], [], [], none, none⟩, []⟩).st,
            []⟩).st.k8sParam.getD [])
        (wkey ("deployment") d.ns d.name) = some d.replicas) ∧
    (∀ d ∈ selSts ⟨[], [⟨("ns"), ("b"), 5⟩], [], [], none, none⟩ none,
      0 < d.replicas →
      getKey ((scale_down none none ⟨(scale_down none none
          ⟨⟨[], [⟨("ns"), ("b"), 5⟩], [], [], none, none⟩, []⟩).st,
            []⟩).st.k8sParam.getD [])
        (wkey ("statefulset") d.ns d.name) = some d.replicas) :=
  scale_down_twice_idempotent ⟨[], [⟨("ns"), ("b"), 5⟩], [], [], none, none⟩
    none none (by decide)

end EksScaler
